import Mathlib

/-!
# Genesis nodes setup (`sharding/nodesSetup.go`)

A shallow embedding of the genesis assignment engine: decoding and validation
(`processConfig`), shard-count derivation (`processMetaChainAssigment`), FIFO
committee fill and round-robin waiting lists (`processShardAssignment`), the
lookup tables (`createInitialNodesInfo`) and the query API.

Conventions of the embedding.

* `uint32` values are natural numbers; every `uint32` operation of the source
  that can overflow is followed by an explicit `% 4294967296`.
* A Go `[]byte` is `Option Bytes`: `none` is the `nil` slice, `some b` a
  non-nil slice with contents `b`.
* A run-time panic (index out of range, integer division by zero) is an
  explicit outcome: `none` for the two assignment passes, `Outcome.panic` for
  the constructor.
* Go errors are identified by their kind (the sentinel a wrapped error
  unwraps to).
* `float32` arithmetic is not embedded; see `Float32Factor`.
* Reading the JSON file is outside the embedding: the constructor starts from
  the file content (`GenesisConfig`), every element of `initialNodes` being a
  record (no `null` entries).
-/

namespace Sharding

/-- Contents of a non-nil byte slice. -/
abbrev Bytes := List (Fin 256)

/-- The metachain shard id, `core.MetachainShardId`. Modelled from the spec: the
constant is declared in package `core`, outside the files at hand; the spec
describes it as the reserved sentinel distinct from all regular shard ids, and
the declaration it refers to is `uint32(0xFFFFFFFF)`. -/
def MetachainShardId : Nat := 4294967295

/-- Error kinds returned by the package (the sentinels of `sharding/errors.go`
that `nodesSetup.go` refers to). -/
inductive Error where
  | ErrNilPubkeyConverter
  | ErrCouldNotParsePubKey
  | ErrCouldNotParseAddress
  | ErrNegativeOrZeroConsensusGroupSize
  | ErrMinNodesPerShardSmallerThanConsensusSize
  | ErrNodesSizeSmallerThanMinNoOfNodes
  | ErrShardIdOutOfRange
  | ErrNoPubKeys
  | ErrPublicKeyNotFoundInGenesis
  deriving DecidableEq, Repr

/-- Result of running the constructor: a value, a returned error, or a
run-time panic. -/
inductive Outcome (α : Type) where
  | ok (val : α)
  | error (e : Error)
  | panic

/-- The capability `state.PubkeyConverter`, reduced to the one method the
package calls. `Decode s` is `.error msg` when the converter returns a non-nil
error and `.ok b` otherwise, `b` being the returned slice (possibly `nil`). -/
structure PubkeyConverter where
  Decode : String → Except String (Option Bytes)

/-- A `float32` hysteresis value. The program uses `ns.Hysteresis` only in the
two conversions `uint32(float32(n) * ns.Hysteresis)`; floating-point rounding
is outside the embedding, so a value `h` is represented by the map
`scale n = uint32(float32(n) * h)` it induces on `uint32` arguments. -/
structure Float32Factor where
  scale : Nat → Nat

/-- Hysteresis `0`: `float32(n) * 0 = 0` for every `uint32` `n`, and
`uint32(0) = 0`. -/
def Float32Factor.zero : Float32Factor := ⟨fun _ => 0⟩

/-- An integral hysteresis `k`: when `k` and `k * n` are both
representable in `float32` (as are all integers below `2^24` and all powers
of two) and `k * n < 2^32`, the product `float32(n) * float32(k)` is the exact
integer `k * n`. Only used at such arguments. -/
def Float32Factor.ofNat (k : Nat) : Float32Factor := ⟨fun n => k * n⟩

/-- The struct `nodeInfo`. -/
structure nodeInfo where
  assignedShard : Nat
  eligible : Bool
  pubKey : Option Bytes
  address : Option Bytes
  deriving DecidableEq, Repr

/-- The struct `InitialNode`: the two JSON strings and the embedded
`nodeInfo`. -/
structure InitialNode extends nodeInfo where
  PubKey : String
  Address : String
  deriving DecidableEq, Repr

/-- The two assignments `in.assignedShard = s; in.eligible = e` on a record. -/
def InitialNode.assign (nd : InitialNode) (s : Nat) (e : Bool) : InitialNode :=
  { nd with assignedShard := s, eligible := e }

/-- A value of type `[]GenesisNodeInfoHandler`: `none` is `nil`. -/
abbrev NodeSlice := Option (List nodeInfo)

/-- Length of a slice, `len(s)`; `len(nil) = 0`. -/
def NodeSlice.len (s : NodeSlice) : Nat := (s.getD []).length

/-- The built-in `append(s, x)`. -/
def NodeSlice.append (s : NodeSlice) (x : nodeInfo) : NodeSlice := some (s.getD [] ++ [x])

/-- A value of type `map[uint32][]GenesisNodeInfoHandler`, as an association
list with one entry per key present. -/
abbrev NodeMap := List (Nat × NodeSlice)

/-- Map read `m[k]`: the zero value `nil` when `k` has no entry. -/
def NodeMap.lookup : NodeMap → Nat → NodeSlice
  | [], _ => none
  | (k', v) :: rest, k => if k' = k then v else NodeMap.lookup rest k

/-- Map write `m[k] = v`. -/
def NodeMap.store : NodeMap → Nat → NodeSlice → NodeMap
  | [], k, v => [(k, v)]
  | (k', v') :: rest, k, v =>
    if k' = k then (k', v) :: rest else (k', v') :: NodeMap.store rest k v

/-- Sum of `len` over all entries of a map. -/
def NodeMap.totalLen (m : NodeMap) : Nat := (m.map (fun p => p.2.len)).sum

/-- The struct `NodesSetup`. -/
structure NodesSetup where
  StartTime : Int
  RoundDuration : Nat
  ConsensusGroupSize : Nat
  MinNodesPerShard : Nat
  MetaChainConsensusGroupSize : Nat
  MetaChainMinNodes : Nat
  Hysteresis : Float32Factor
  Adaptivity : Bool
  InitialNodes : List InitialNode
  nrOfShards : Nat
  nrOfNodes : Nat
  nrOfMetaChainNodes : Nat
  eligible : NodeMap
  waiting : NodeMap
  validatorPubkeyConverter : PubkeyConverter
  addressPubkeyConverter : PubkeyConverter

/-- One record of the JSON array `initialNodes`. -/
structure RawNode where
  PubKey : String
  Address : String
  deriving DecidableEq, Repr

/-- The content of the JSON nodes file: the exported fields of `NodesSetup`. -/
structure GenesisConfig where
  StartTime : Int
  RoundDuration : Nat
  ConsensusGroupSize : Nat
  MinNodesPerShard : Nat
  MetaChainConsensusGroupSize : Nat
  MetaChainMinNodes : Nat
  Hysteresis : Float32Factor
  Adaptivity : Bool
  InitialNodes : List RawNode

/-- The JSON fields are well typed: every `uint32` field is below `2^32`. -/
def GenesisConfig.WellTyped (cfg : GenesisConfig) : Prop :=
  cfg.ConsensusGroupSize < 4294967296 ∧ cfg.MinNodesPerShard < 4294967296 ∧
  cfg.MetaChainConsensusGroupSize < 4294967296 ∧ cfg.MetaChainMinNodes < 4294967296

/-- A freshly unmarshalled `InitialNode`: the unexported fields are zero. -/
def RawNode.toInitialNode (r : RawNode) : InitialNode :=
  { assignedShard := 0, eligible := false, pubKey := none, address := none,
    PubKey := r.PubKey, Address := r.Address }

/-- The value `nodes` of `NewNodesSetup` after `core.LoadJsonFile` has filled
it from the file content `cfg`: the two converters are set, the exported
fields come from the file, everything else is zero. -/
def loaded (cfg : GenesisConfig) (addressPubkeyConverter validatorPubkeyConverter : PubkeyConverter) :
    NodesSetup :=
  { StartTime := cfg.StartTime, RoundDuration := cfg.RoundDuration,
    ConsensusGroupSize := cfg.ConsensusGroupSize, MinNodesPerShard := cfg.MinNodesPerShard,
    MetaChainConsensusGroupSize := cfg.MetaChainConsensusGroupSize,
    MetaChainMinNodes := cfg.MetaChainMinNodes, Hysteresis := cfg.Hysteresis,
    Adaptivity := cfg.Adaptivity, InitialNodes := cfg.InitialNodes.map RawNode.toInitialNode,
    nrOfShards := 0, nrOfNodes := 0, nrOfMetaChainNodes := 0, eligible := [], waiting := [],
    validatorPubkeyConverter := validatorPubkeyConverter,
    addressPubkeyConverter := addressPubkeyConverter }

/-- The decoding loop of `processConfig` (lines 114-140), over the records
still to visit; `n` is `ns.nrOfNodes`. Returns the records with their decoded
fields and the final counter, or the error of the first failing record. -/
def decodeNodes (validatorConv addressConv : PubkeyConverter) :
    List InitialNode → Nat → Except Error (List InitialNode × Nat)
  | [], n => .ok ([], n)
  | node :: rest, n =>
    match validatorConv.Decode node.PubKey with
    | .error _ => .error Error.ErrCouldNotParsePubKey
    | .ok pk =>
      match addressConv.Decode node.Address with
      | .error _ => .error Error.ErrCouldNotParseAddress
      | .ok ad =>
        if node.PubKey = "" then .error Error.ErrCouldNotParsePubKey
        else if node.Address = "" then .error Error.ErrCouldNotParseAddress
        else
          match decodeNodes validatorConv addressConv rest ((n + 1) % 4294967296) with
          | .error e => .error e
          | .ok (rest', n') => .ok ({ node with pubKey := pk, address := ad } :: rest', n')

/-- The numeric checks of `processConfig` (lines 142-164), on the counter
`nrOfNodes` left by the decoding loop. -/
def checkSizes (ns : NodesSetup) : Except Error Unit :=
  if ns.ConsensusGroupSize < 1 then .error Error.ErrNegativeOrZeroConsensusGroupSize
  else if ns.MinNodesPerShard < ns.ConsensusGroupSize then
    .error Error.ErrMinNodesPerShardSmallerThanConsensusSize
  else if ns.nrOfNodes < ns.MinNodesPerShard then .error Error.ErrNodesSizeSmallerThanMinNoOfNodes
  else if ns.MetaChainConsensusGroupSize < 1 then .error Error.ErrNegativeOrZeroConsensusGroupSize
  else if ns.MetaChainMinNodes < ns.MetaChainConsensusGroupSize then
    .error Error.ErrMinNodesPerShardSmallerThanConsensusSize
  else
    let totalMinNodes := (ns.MetaChainMinNodes + ns.MinNodesPerShard) % 4294967296
    if ns.nrOfNodes < totalMinNodes then .error Error.ErrNodesSizeSmallerThanMinNoOfNodes
    else .ok ()

/-- The method `processConfig`. -/
def processConfig (ns : NodesSetup) : Except Error NodesSetup :=
  match decodeNodes ns.validatorPubkeyConverter ns.addressPubkeyConverter ns.InitialNodes 0 with
  | .error e => .error e
  | .ok (nodes, n) =>
    let ns1 := { ns with InitialNodes := nodes, nrOfNodes := n, nrOfMetaChainNodes := 0 }
    match checkSizes ns1 with
    | .error e => .error e
    | .ok _ => .ok ns1

/-- The loop of `processMetaChainAssigment` (lines 169-175): `k` iterations
remain, `id` is the loop variable, `cnt` is `ns.nrOfMetaChainNodes`. `none`
is the index-out-of-range panic of `ns.InitialNodes[id]`. -/
def metaChainLoop : Nat → Nat → List InitialNode → Nat → Option (List InitialNode × Nat)
  | 0, _, nodes, cnt => some (nodes, cnt)
  | k + 1, id, nodes, cnt =>
    match nodes[id]? with
    | none => none
    | some nd =>
      if nd.pubKey.isSome then
        metaChainLoop k (id + 1)
          (nodes.set id (nd.assign MetachainShardId true))
          ((cnt + 1) % 4294967296)
      else metaChainLoop k (id + 1) nodes cnt

/-- The method `processMetaChainAssigment`; `none` is a panic (index out of
range in the loop, or division by zero in the shard count). -/
def processMetaChainAssigment (ns : NodesSetup) : Option NodesSetup :=
  match metaChainLoop ns.MetaChainMinNodes 0 ns.InitialNodes 0 with
  | none => none
  | some (nodes, cnt) =>
    let hystMeta := ns.Hysteresis.scale ns.MetaChainMinNodes % 4294967296
    let hystShard := ns.Hysteresis.scale ns.MinNodesPerShard % 4294967296
    let numerator :=
      ((ns.nrOfNodes + 4294967296 - cnt) % 4294967296 + 4294967296 - hystMeta) % 4294967296
    let denominator := (ns.MinNodesPerShard + hystShard) % 4294967296
    if denominator = 0 then none
    else some { ns with InitialNodes := nodes, nrOfMetaChainNodes := cnt,
                        nrOfShards := numerator / denominator }

/-- The inner loop of `processShardAssignment` (lines 188-195) for shard
`currentShard`: `k` iterations remain, `id` is the loop variable, `c` is
`countSetNodes`. -/
def shardInnerLoop (currentShard : Nat) :
    Nat → Nat → List InitialNode → Nat → Option (List InitialNode × Nat)
  | 0, _, nodes, c => some (nodes, c)
  | k + 1, id, nodes, c =>
    match nodes[id]? with
    | none => none
    | some nd =>
      if nd.pubKey.isSome then
        shardInnerLoop currentShard k (id + 1)
          (nodes.set id (nd.assign currentShard true))
          ((c + 1) % 4294967296)
      else shardInnerLoop currentShard k (id + 1) nodes c

/-- The outer loop of `processShardAssignment` (lines 187-196): `k` shards
remain, starting with `currentShard`. The inner loop runs from `countSetNodes`
up to the 32-bit value of
`ns.nrOfMetaChainNodes+(currentShard+1)*ns.MinNodesPerShard`. -/
def shardOuterLoop (nrOfMetaChainNodes minNodesPerShard : Nat) :
    Nat → Nat → List InitialNode → Nat → Option (List InitialNode × Nat)
  | 0, _, nodes, c => some (nodes, c)
  | k + 1, currentShard, nodes, c =>
    let bound := (nrOfMetaChainNodes +
      ((currentShard + 1) % 4294967296 * minNodesPerShard) % 4294967296) % 4294967296
    match shardInnerLoop currentShard (bound - c) c nodes c with
    | none => none
    | some (nodes', c') =>
      shardOuterLoop nrOfMetaChainNodes minNodesPerShard k (currentShard + 1) nodes' c'

/-- The update of `currentShard` in the waiting-list loop (lines 201-204), for
a non-zero 32-bit modulus `ns.nrOfShards + 1`. -/
def nextShard (nrOfShards currentShard : Nat) : Nat :=
  let next := ((currentShard + 1) % 4294967296) % ((nrOfShards + 1) % 4294967296)
  if next = nrOfShards then MetachainShardId else next

/-- The waiting-list loop of `processShardAssignment` (lines 200-210): `k`
iterations remain, `i` is the loop variable. `none` is a panic: the modulus
`ns.nrOfShards + 1` is zero in 32 bits, or the index is out of range. -/
def waitingLoop (nrOfShards : Nat) : Nat → Nat → Nat → List InitialNode → Option (List InitialNode)
  | 0, _, _, nodes => some nodes
  | k + 1, i, currentShard, nodes =>
    if (nrOfShards + 1) % 4294967296 = 0 then none
    else
      match nodes[i]? with
      | none => none
      | some nd =>
        if nd.pubKey.isSome then
          waitingLoop nrOfShards k (i + 1) (nextShard nrOfShards currentShard)
            (nodes.set i (nd.assign (nextShard nrOfShards currentShard) false))
        else waitingLoop nrOfShards k (i + 1) (nextShard nrOfShards currentShard) nodes

/-- The method `processShardAssignment`. -/
def processShardAssignment (ns : NodesSetup) : Option NodesSetup :=
  match shardOuterLoop ns.nrOfMetaChainNodes ns.MinNodesPerShard ns.nrOfShards 0
      ns.InitialNodes ns.nrOfMetaChainNodes with
  | none => none
  | some (nodes, countSetNodes) =>
    match waitingLoop ns.nrOfShards (ns.nrOfNodes - countSetNodes) countSetNodes 0 nodes with
    | none => none
    | some nodes' => some { ns with InitialNodes := nodes' }

/-- The loop of `createInitialNodesInfo` (lines 218-227) over the records
still to visit, threading the two tables. -/
def createLoop : List InitialNode → NodeMap → NodeMap → NodeMap × NodeMap
  | [], eligible, waiting => (eligible, waiting)
  | nd :: rest, eligible, waiting =>
    if nd.pubKey.isSome ∧ nd.address.isSome then
      let ni : nodeInfo := ⟨nd.assignedShard, nd.eligible, nd.pubKey, nd.address⟩
      if nd.eligible then
        createLoop rest
          (eligible.store nd.assignedShard ((eligible.lookup nd.assignedShard).append ni)) waiting
      else
        createLoop rest eligible
          (waiting.store nd.assignedShard ((waiting.lookup nd.assignedShard).append ni))
    else createLoop rest eligible waiting

/-- The method `createInitialNodesInfo`. -/
def createInitialNodesInfo (ns : NodesSetup) : NodesSetup :=
  let tables := createLoop ns.InitialNodes [] []
  { ns with eligible := tables.1, waiting := tables.2 }

/-- The constructor `NewNodesSetup`, from the point where the file content
`cfg` has been read. A converter argument `none` is a nil interface. -/
def NewNodesSetup (cfg : GenesisConfig)
    (addressPubkeyConverter validatorPubkeyConverter : Option PubkeyConverter) :
    Outcome NodesSetup :=
  match addressPubkeyConverter with
  | none => .error Error.ErrNilPubkeyConverter
  | some addressConv =>
    match validatorPubkeyConverter with
    | none => .error Error.ErrNilPubkeyConverter
    | some validatorConv =>
      match processConfig (loaded cfg addressConv validatorConv) with
      | .error e => .error e
      | .ok ns1 =>
        match processMetaChainAssigment ns1 with
        | none => .panic
        | some ns2 =>
          match processShardAssignment ns2 with
          | none => .panic
          | some ns3 => .ok (createInitialNodesInfo ns3)

/-- The method `NumberOfShards`. -/
def NumberOfShards (ns : NodesSetup) : Nat := ns.nrOfShards

/-- The method `MinNumberOfNodes`, in 32-bit arithmetic. -/
def MinNumberOfNodes (ns : NodesSetup) : Nat :=
  ((ns.nrOfShards * ns.MinNodesPerShard) % 4294967296 + ns.MetaChainMinNodes) % 4294967296

/-- The function `bytes.Equal`: a nil slice equals an empty one. -/
def bytesEqual (a b : Option Bytes) : Bool := a.getD [] == b.getD []

/-- The loop of `GetShardIDForPubKey` over the records still to visit. -/
def findShard (pubKey : Option Bytes) : List InitialNode → Except Error Nat
  | [] => .error Error.ErrPublicKeyNotFoundInGenesis
  | nd :: rest =>
    if nd.pubKey.isSome && bytesEqual pubKey nd.pubKey then .ok nd.assignedShard
    else findShard pubKey rest

/-- The method `GetShardIDForPubKey`. -/
def GetShardIDForPubKey (ns : NodesSetup) (pubKey : Option Bytes) : Except Error Nat :=
  findShard pubKey ns.InitialNodes

/-- The instance a run of the constructor returned, if it returned one. -/
def Outcome.value? {α : Type} : Outcome α → Option α
  | .ok val => some val
  | _ => none

/-- The instance built from `cfg` with two non-nil converters (the loaded,
unprocessed value when construction does not succeed). -/
def instanceOf (cfg : GenesisConfig) (addressConv validatorConv : PubkeyConverter) : NodesSetup :=
  match NewNodesSetup cfg (some addressConv) (some validatorConv) with
  | .ok ns => ns
  | _ => loaded cfg addressConv validatorConv

/-- Every record of the instance carries non-nil decoded key and address
bytes. -/
def AllDecoded (ns : NodesSetup) : Prop :=
  ∀ nd ∈ ns.InitialNodes, nd.pubKey.isSome = true ∧ nd.address.isSome = true

instance (ns : NodesSetup) : Decidable (AllDecoded ns) := by
  unfold AllDecoded; infer_instance

/-- The records of `nodes` that `createInitialNodesInfo` files under the
bucket `(el, s)` (eligibility flag `el`, shard id `s`), in list order: those
with non-nil key and address, that flag and that assigned shard. -/
def bucketOf (el : Bool) (s : Nat) (nodes : List InitialNode) : List nodeInfo :=
  (nodes.filter (fun nd => nd.pubKey.isSome && nd.address.isSome &&
    (nd.eligible == el) && (nd.assignedShard == s))).map InitialNode.tonodeInfo

/-- The table an eligibility flag selects: `ns.eligible` for `true`,
`ns.waiting` for `false`. -/
def tableOf (ns : NodesSetup) (el : Bool) : NodeMap := if el then ns.eligible else ns.waiting

/-- The fields of a record that the assignment passes never write: the two
texts and the decoded key and address. -/
def InitialNode.decoded (nd : InitialNode) : String × String × Option Bytes × Option Bytes :=
  (nd.PubKey, nd.Address, nd.pubKey, nd.address)

/-- The JSON record a decoded record stems from. -/
def InitialNode.raw (nd : InitialNode) : RawNode := ⟨nd.PubKey, nd.Address⟩

/-- Every record of a list has a non-nil decoded key. -/
def AllKeys (nodes : List InitialNode) : Prop := ∀ nd ∈ nodes, nd.pubKey.isSome = true

/-- The value of `currentShard` after `t` further iterations of the
waiting-list loop that starts an iteration with `currentShard = cur`. -/
def roundRobin (nrOfShards : Nat) : Nat → Nat → Nat
  | cur, 0 => cur
  | cur, t + 1 => roundRobin nrOfShards (nextShard nrOfShards cur) t

/-- The shard id of the spec's round robin for the `k`-th remaining validator
(`k = 0, 1, 2, ...`): `(k + 1) mod (nrOfShards + 1)`, with the value
`nrOfShards` replaced by the metachain id. -/
def waitingShard (nrOfShards k : Nat) : Nat :=
  if (k + 1) % (nrOfShards + 1) = nrOfShards then MetachainShardId
  else (k + 1) % (nrOfShards + 1)

/-! ## Sample configurations -/

/-- A converter that never fails and never returns nil: a text decodes to the
single byte holding its length. -/
def lengthConverter : PubkeyConverter := ⟨fun s => .ok (some [Fin.ofNat s.length])⟩

/-- A converter that never fails but returns a nil slice for texts of length
`n`, and the single length byte otherwise. -/
def nilOnLength (n : Nat) : PubkeyConverter :=
  ⟨fun s => if s.length = n then .ok none else .ok (some [Fin.ofNat s.length])⟩

/-- The records `("k", "a"), ("kk", "a"), ("kkk", "a"), ...`, `n` of them. -/
def sampleNodes : Nat → List RawNode
  | 0 => []
  | n + 1 => sampleNodes n ++ [⟨String.mk (List.replicate (n + 1) (Char.ofNat 107)), "a"⟩]

/-- A configuration with the given consensus sizes, minimum node counts and
hysteresis over the first `n` sample records. -/
def sampleConfig (consensus minNodes metaConsensus metaMin : Nat) (h : Float32Factor) (n : Nat) :
    GenesisConfig :=
  { StartTime := 0, RoundDuration := 0, ConsensusGroupSize := consensus,
    MinNodesPerShard := minNodes, MetaChainConsensusGroupSize := metaConsensus,
    MetaChainMinNodes := metaMin, Hysteresis := h, Adaptivity := false,
    InitialNodes := sampleNodes n }

/-- Scenario A of the spec: `minNodesPerShard = 2`, `metaChainMinNodes = 1`,
consensus sizes `1`, hysteresis `0`, seven records. -/
def scenarioA : GenesisConfig := sampleConfig 1 2 1 1 Float32Factor.zero 7

/-- Scenario B of the spec: as scenario A with eight records. -/
def scenarioB : GenesisConfig := sampleConfig 1 2 1 1 Float32Factor.zero 8

/-- Consensus size `1`, `minNodesPerShard = 2`, `metaChainConsensusGroupSize =
0`, `metaChainMinNodes = 1`, hysteresis `0`, one record: two checks are
violated at once. -/
def orderSample : GenesisConfig := sampleConfig 1 2 0 1 Float32Factor.zero 1

/-- `metaChainMinNodes = 4294967295`, `minNodesPerShard = 1`, consensus sizes
`1`, hysteresis `0`, one record: the sum of the two minima is `2^32`. -/
def overflowSample : GenesisConfig := sampleConfig 1 1 1 4294967295 Float32Factor.zero 1

/-- `metaChainMinNodes = 1`, `minNodesPerShard = 1`, consensus sizes `1`,
hysteresis `5`, two records: `hystMeta = hystShard = 5`. -/
def wrapSample : GenesisConfig := sampleConfig 1 1 1 1 (Float32Factor.ofNat 5) 2

/-- As `wrapSample` with hysteresis `2^31`: `hystMeta = hystShard =
2147483648`. -/
def wrapLargeSample : GenesisConfig := sampleConfig 1 1 1 1 (Float32Factor.ofNat 2147483648) 2

/-- The run ended in a panic. -/
def Outcome.isPanic {α : Type} : Outcome α → Bool
  | .panic => true
  | _ => false

/-- The error kind a run returned, if it returned an error. -/
def Outcome.error? {α : Type} : Outcome α → Option Error
  | .error e => some e
  | _ => none

/-- The shard-count formula of the spec (section 4.2), read over the integers
with floor division. -/
def specShardCount (nrOfNodes nrOfMetaChainNodes hystMeta minNodesPerShard hystShard : Int) : Int :=
  Int.fdiv (nrOfNodes - nrOfMetaChainNodes - hystMeta) (minNodesPerShard + hystShard)

/-- Scenario A with a repeated key: the seven records are the sample records
1, 2, 3 followed by the sample records 1, 2, 3, 4. -/
def duplicateSample : GenesisConfig :=
  { scenarioA with InitialNodes := sampleNodes 3 ++ sampleNodes 4 }

/-- Two records, `minNodesPerShard = metaChainMinNodes = 1`, consensus sizes
`1`, hysteresis `0`. -/
def pairSample : GenesisConfig := sampleConfig 1 1 1 1 Float32Factor.zero 2

/-! ## Decoding of single records -/

/-- A record decodes: both texts are non-empty and neither converter returns
an error on its text. -/
def RawNode.Decodes (validatorConv addressConv : PubkeyConverter) (r : RawNode) : Prop :=
  r.PubKey ≠ "" ∧ r.Address ≠ "" ∧ (validatorConv.Decode r.PubKey).isOk = true ∧
    (addressConv.Decode r.Address).isOk = true

instance (validatorConv addressConv : PubkeyConverter) (r : RawNode) :
    Decidable (r.Decodes validatorConv addressConv) := by
  unfold RawNode.Decodes; infer_instance

/-- A converter that returns an error for texts of length `n`, and the single
length byte otherwise. -/
def rejectOnLength (n : Nat) : PubkeyConverter :=
  ⟨fun s => if s.length = n then .error "rejected" else .ok (some [Fin.ofNat s.length])⟩

/-- Scenario C of the spec: scenario A with the address of validator 3
replaced by the empty string. -/
def scenarioC : GenesisConfig :=
  { scenarioA with InitialNodes := sampleNodes 3 ++ ⟨"kkkk", ""⟩ :: (sampleNodes 7).drop 4 }

/-- Scenario A with the key of validator 3 replaced by the empty string. -/
def emptyKeySample : GenesisConfig :=
  { scenarioA with InitialNodes := sampleNodes 3 ++ ⟨"", "a"⟩ :: (sampleNodes 7).drop 4 }

/-! ## Shard queries -/

/-- The conversion `string(b)` of a byte slice: a Go string is a byte
sequence, and `string(nil)` is the empty string. -/
def bytesToString (b : Option Bytes) : Bytes := b.getD []

/-- The method `InitialEligibleNodesPubKeysForShard`. -/
def InitialEligibleNodesPubKeysForShard (ns : NodesSetup) (shardId : Nat) :
    Except Error (List Bytes) :=
  if (ns.eligible.lookup shardId).isNone then .error Error.ErrShardIdOutOfRange
  else if (ns.eligible.lookup shardId).len = 0 then .error Error.ErrNoPubKeys
  else
    let nodesInfo := (ns.eligible.lookup shardId).getD []
    .ok (nodesInfo.map (fun ni => bytesToString ni.pubKey))

/-- The method `InitialNodesInfoForShard`. -/
def InitialNodesInfoForShard (ns : NodesSetup) (shardId : Nat) :
    Except Error (NodeSlice × NodeSlice) :=
  if (ns.eligible.lookup shardId).isNone then .error Error.ErrShardIdOutOfRange
  else if (ns.eligible.lookup shardId).len = 0 then .error Error.ErrNoPubKeys
  else .ok (ns.eligible.lookup shardId, ns.waiting.lookup shardId)

/-- The property that `InitialEligibleNodesPubKeysForShard` and
`InitialNodesInfoForShard` follow one error policy on the state `ns` at the
shard id `id`: both fail with ErrShardIdOutOfRange when the eligible table has
no entry for the id, both fail with ErrNoPubKeys when the entry exists but is
empty, and otherwise both succeed, the first returning the keys of
eligible[id] in bucket order, the second the pair (eligible[id], waiting[id]). -/
def QueryPolicy (ns : NodesSetup) (id : Nat) : Prop :=
  ((∀ p ∈ ns.eligible, p.1 ≠ id) →
    InitialEligibleNodesPubKeysForShard ns id = .error Error.ErrShardIdOutOfRange ∧
    InitialNodesInfoForShard ns id = .error Error.ErrShardIdOutOfRange) ∧
  ((∃ p ∈ ns.eligible, p.1 = id) → (ns.eligible.lookup id).len = 0 →
    InitialEligibleNodesPubKeysForShard ns id = .error Error.ErrNoPubKeys ∧
    InitialNodesInfoForShard ns id = .error Error.ErrNoPubKeys) ∧
  ((∃ p ∈ ns.eligible, p.1 = id) → (ns.eligible.lookup id).len ≠ 0 →
    InitialEligibleNodesPubKeysForShard ns id =
      .ok (((ns.eligible.lookup id).getD []).map (fun ni => bytesToString ni.pubKey)) ∧
    InitialNodesInfoForShard ns id = .ok (ns.eligible.lookup id, ns.waiting.lookup id))

/-- What the assignment passes read and write in a record: the assigned
shard, the eligibility flag, and whether the decoded key is non-nil. -/
def InitialNode.label (nd : InitialNode) : Nat × Bool × Bool :=
  (nd.assignedShard, nd.eligible, nd.pubKey.isSome)

/-- The labels of the records, and the counter, that a loop returned. -/
def labelView (r : List InitialNode × Nat) : List (Nat × Bool × Bool) × Nat :=
  (r.1.map InitialNode.label, r.2)

/-- Hysteresis `1.5`: `float32(n) * 1.5` is the exact value `3n/2` whenever
`n` and `3n/2` are representable in `float32`, as they are for `n = 1` and
`n = 2^31`, and the conversion to `uint32` truncates. Only used at these two
arguments. -/
def Float32Factor.threeHalves : Float32Factor := ⟨fun n => 3 * n / 2⟩

/-- The record `("k", "a")`, `2^31 + 2` times. -/
def wrapBoundNodes : List RawNode := List.replicate 2147483650 ⟨"k", "a"⟩

/-- `minNodesPerShard = 2^31`, `metaChainMinNodes = 1`, consensus sizes `1`,
hysteresis `1.5` and `2^31 + 2` records: `hystMeta = 1`, `hystShard =
3221225472`, and the 32-bit sum `minNodesPerShard + hystShard` is `2^30`. -/
def wrapBoundSample : GenesisConfig :=
  { StartTime := 0, RoundDuration := 0, ConsensusGroupSize := 1,
    MinNodesPerShard := 2147483648, MetaChainConsensusGroupSize := 1,
    MetaChainMinNodes := 1, Hysteresis := Float32Factor.threeHalves, Adaptivity := false,
    InitialNodes := wrapBoundNodes }

/-- A state whose eligible table holds an empty, non-nil slice under shard 0
(the loaded `pairSample` with that table). No constructed instance holds such
an entry; the state exercises the ErrNoPubKeys branch of the queries. -/
def emptyEntrySample : NodesSetup :=
  { loaded pairSample lengthConverter lengthConverter with eligible := [(0, some [])] }

/-! ## Key lookup -/
theorem findShard_error_iff (key : Option Bytes) (nodes : List InitialNode) :
    findShard key nodes = .error Error.ErrPublicKeyNotFoundInGenesis ↔
      ∀ nd ∈ nodes, nd.pubKey ≠ some (key.getD []) := by
  induction nodes with
  | nil => simp [findShard]
  | cons nd rest ih =>
    unfold findShard
    cases hk : nd.pubKey with
    | none => simpa [hk] using ih
    | some b =>
      by_cases hb : b = key.getD []
      · subst hb
        simp [hk, bytesEqual]
      · have hb' : ¬ (key.getD [] = b) := fun h => hb h.symm
        simpa [hk, bytesEqual, hb, hb'] using ih

theorem findShard_error_kind (key : Option Bytes) (nodes : List InitialNode) (e : Error)
    (h : findShard key nodes = .error e) : e = Error.ErrPublicKeyNotFoundInGenesis := by
  induction nodes with
  | nil => simp [findShard] at h; exact h.symm
  | cons nd rest ih =>
    unfold findShard at h
    split at h
    · cases h
    · exact ih h

theorem findShard_first_match (key : Option Bytes) (nodes : List InitialNode)
    (h : ∃ nd ∈ nodes, nd.pubKey = some (key.getD [])) :
    ∃ (i : Nat) (nd : InitialNode), nodes[i]? = some nd ∧ nd.pubKey = some (key.getD []) ∧
      (∀ j, j < i → ∀ nd' : InitialNode, nodes[j]? = some nd' → nd'.pubKey ≠ some (key.getD [])) ∧
      findShard key nodes = .ok nd.assignedShard := by
  induction nodes with
  | nil => simp at h
  | cons nd rest ih =>
    by_cases hm : nd.pubKey = some (key.getD [])
    · refine ⟨0, nd, by simp, hm, by simp, ?_⟩
      simp [findShard, hm, bytesEqual]
    · have h' : ∃ nd ∈ rest, nd.pubKey = some (key.getD []) := by
        obtain ⟨x, hx, hxk⟩ := h
        rcases List.mem_cons.mp hx with rfl | hx
        · exact absurd hxk hm
        · exact ⟨x, hx, hxk⟩
      obtain ⟨i, x, hi, hxk, hlow, hres⟩ := ih h'
      refine ⟨i + 1, x, by simpa using hi, hxk, ?_, ?_⟩
      · intro j hj nd' hnd'
        cases j with
        | zero => simp at hnd'; subst hnd'; exact hm
        | succ j => exact hlow j (by omega) nd' (by simpa using hnd')
      · unfold findShard
        cases hk : nd.pubKey with
        | none => simpa [hk] using hres
        | some b =>
          have hb : ¬ (key.getD [] = b) := fun h => hm (by rw [hk, h])
          simpa [hk, bytesEqual, hb] using hres

/-- C7: `GetShardIDForPubKey` is a first-match linear scan. It fails with
`ErrPublicKeyNotFoundInGenesis` exactly when no record has decoded (non-nil)
key bytes equal to the queried key, it never fails with another error, and
otherwise it returns the assigned shard of the lowest-index record whose
decoded key equals the queried key. -/
theorem GetShardIDForPubKey_first_match (ns : NodesSetup) (key : Option Bytes) :
    (GetShardIDForPubKey ns key = .error Error.ErrPublicKeyNotFoundInGenesis ↔
      ∀ nd ∈ ns.InitialNodes, nd.pubKey ≠ some (key.getD [])) ∧
    (∀ e, GetShardIDForPubKey ns key = .error e → e = Error.ErrPublicKeyNotFoundInGenesis) ∧
    ((∃ nd ∈ ns.InitialNodes, nd.pubKey = some (key.getD [])) →
      ∃ (i : Nat) (nd : InitialNode), ns.InitialNodes[i]? = some nd ∧ nd.pubKey = some (key.getD []) ∧
        (∀ j, j < i → ∀ nd' : InitialNode, ns.InitialNodes[j]? = some nd' →
          nd'.pubKey ≠ some (key.getD [])) ∧
        GetShardIDForPubKey ns key = .ok nd.assignedShard) :=
  ⟨findShard_error_iff key ns.InitialNodes,
   fun e h => findShard_error_kind key ns.InitialNodes e h,
   fun h => findShard_first_match key ns.InitialNodes h⟩

/-! ## Validation -/

theorem decodeNodes_length (v a : PubkeyConverter) (l : List InitialNode) :
    ∀ (n : Nat) (l' : List InitialNode) (n' : Nat), decodeNodes v a l n = .ok (l', n') →
      l'.length = l.length ∧ (n < 4294967296 → n' < 4294967296) ∧
      n' % 4294967296 = (n + l.length) % 4294967296 := by
  induction l with
  | nil =>
    intro n l' n' h
    simp [decodeNodes] at h
    obtain ⟨rfl, rfl⟩ := h
    simp
  | cons nd rest ih =>
    intro n l' n' h
    unfold decodeNodes at h
    split at h
    · cases h
    · split at h
      · cases h
      · split at h
        · cases h
        · split at h
          · cases h
          · split at h
            · cases h
            · rename_i r' m hrec
              cases h
              obtain ⟨h1, h2, h3⟩ := ih _ _ _ hrec
              refine ⟨by simp [h1], fun _ => h2 (Nat.mod_lt _ (by norm_num)), ?_⟩
              rw [h3]
              simp only [List.length_cons]
              omega

theorem decodeNodes_count (v a : PubkeyConverter) (l l' : List InitialNode) (n' : Nat)
    (h : decodeNodes v a l 0 = .ok (l', n')) (hlen : l.length < 4294967296) :
    l'.length = l.length ∧ n' = l.length := by
  obtain ⟨h1, h2, h3⟩ := decodeNodes_length v a l 0 l' n' h
  have := h2 (by norm_num)
  refine ⟨h1, ?_⟩
  omega

theorem checkSizes_ok (ns : NodesSetup) (h : checkSizes ns = .ok ()) :
    1 ≤ ns.ConsensusGroupSize ∧ ns.ConsensusGroupSize ≤ ns.MinNodesPerShard ∧
    ns.MinNodesPerShard ≤ ns.nrOfNodes ∧ 1 ≤ ns.MetaChainConsensusGroupSize ∧
    ns.MetaChainConsensusGroupSize ≤ ns.MetaChainMinNodes ∧
    (ns.MetaChainMinNodes + ns.MinNodesPerShard) % 4294967296 ≤ ns.nrOfNodes := by
  unfold checkSizes at h
  split at h
  · cases h
  · split at h
    · cases h
    · split at h
      · cases h
      · split at h
        · cases h
        · split at h
          · cases h
          · simp only at h
            split at h
            · cases h
            · omega

theorem processConfig_ok (ns ns1 : NodesSetup) (h : processConfig ns = .ok ns1) :
    ∃ nodes n,
      decodeNodes ns.validatorPubkeyConverter ns.addressPubkeyConverter ns.InitialNodes 0 =
        .ok (nodes, n) ∧
      ns1 = { ns with InitialNodes := nodes, nrOfNodes := n, nrOfMetaChainNodes := 0 } ∧
      checkSizes ns1 = .ok () := by
  unfold processConfig at h
  split at h
  · cases h
  · rename_i nodes n hdec
    simp only at h
    split at h
    · cases h
    · rename_i u hchk
      cases h
      exact ⟨nodes, n, hdec, rfl, hchk⟩

theorem processConfig_of_decoded (ns : NodesSetup) (nodes : List InitialNode) (n : Nat)
    (hdec : decodeNodes ns.validatorPubkeyConverter ns.addressPubkeyConverter ns.InitialNodes 0 =
      .ok (nodes, n)) :
    processConfig ns =
      match checkSizes { ns with InitialNodes := nodes, nrOfNodes := n, nrOfMetaChainNodes := 0 } with
      | .error e => .error e
      | .ok _ => .ok { ns with InitialNodes := nodes, nrOfNodes := n, nrOfMetaChainNodes := 0 } := by
  unfold processConfig
  rw [hdec]

theorem isOk_decodeNodes (v a : PubkeyConverter) (l : List InitialNode) (n : Nat)
    (h : (decodeNodes v a l n).isOk = true) : ∃ l' n', decodeNodes v a l n = .ok (l', n') := by
  cases hd : decodeNodes v a l n with
  | error e => rw [hd] at h; simp [Except.isOk, Except.toBool] at h
  | ok r => exact ⟨r.1, r.2, rfl⟩

/-- C10 (amended): once every record has decoded, `processConfig` applies its
numeric checks in the order consensusGroupSize >= 1; minNodesPerShard >=
consensusGroupSize; count >= minNodesPerShard; metaChainConsensusGroupSize >=
1; metaChainMinNodes >= metaChainConsensusGroupSize; count >=
metaChainMinNodes + minNodesPerShard (the last for a sum that fits 32 bits),
and returns the error of the first violated one; it succeeds when none is
violated. -/
theorem processConfig_check_order (ns : NodesSetup)
    (hdec : (decodeNodes ns.validatorPubkeyConverter ns.addressPubkeyConverter
      ns.InitialNodes 0).isOk = true)
    (hlen : ns.InitialNodes.length < 4294967296) :
    (ns.ConsensusGroupSize < 1 →
      processConfig ns = .error Error.ErrNegativeOrZeroConsensusGroupSize) ∧
    (1 ≤ ns.ConsensusGroupSize → ns.MinNodesPerShard < ns.ConsensusGroupSize →
      processConfig ns = .error Error.ErrMinNodesPerShardSmallerThanConsensusSize) ∧
    (1 ≤ ns.ConsensusGroupSize → ns.ConsensusGroupSize ≤ ns.MinNodesPerShard →
      ns.InitialNodes.length < ns.MinNodesPerShard →
      processConfig ns = .error Error.ErrNodesSizeSmallerThanMinNoOfNodes) ∧
    (1 ≤ ns.ConsensusGroupSize → ns.ConsensusGroupSize ≤ ns.MinNodesPerShard →
      ns.MinNodesPerShard ≤ ns.InitialNodes.length → ns.MetaChainConsensusGroupSize < 1 →
      processConfig ns = .error Error.ErrNegativeOrZeroConsensusGroupSize) ∧
    (1 ≤ ns.ConsensusGroupSize → ns.ConsensusGroupSize ≤ ns.MinNodesPerShard →
      ns.MinNodesPerShard ≤ ns.InitialNodes.length → 1 ≤ ns.MetaChainConsensusGroupSize →
      ns.MetaChainMinNodes < ns.MetaChainConsensusGroupSize →
      processConfig ns = .error Error.ErrMinNodesPerShardSmallerThanConsensusSize) ∧
    (1 ≤ ns.ConsensusGroupSize → ns.ConsensusGroupSize ≤ ns.MinNodesPerShard →
      ns.MinNodesPerShard ≤ ns.InitialNodes.length → 1 ≤ ns.MetaChainConsensusGroupSize →
      ns.MetaChainConsensusGroupSize ≤ ns.MetaChainMinNodes →
      ns.MetaChainMinNodes + ns.MinNodesPerShard < 4294967296 →
      ns.InitialNodes.length < ns.MetaChainMinNodes + ns.MinNodesPerShard →
      processConfig ns = .error Error.ErrNodesSizeSmallerThanMinNoOfNodes) ∧
    (1 ≤ ns.ConsensusGroupSize → ns.ConsensusGroupSize ≤ ns.MinNodesPerShard →
      ns.MinNodesPerShard ≤ ns.InitialNodes.length → 1 ≤ ns.MetaChainConsensusGroupSize →
      ns.MetaChainConsensusGroupSize ≤ ns.MetaChainMinNodes →
      ns.MetaChainMinNodes + ns.MinNodesPerShard < 4294967296 →
      ns.MetaChainMinNodes + ns.MinNodesPerShard ≤ ns.InitialNodes.length →
      (processConfig ns).isOk = true) := by
  obtain ⟨nodes, n, hd⟩ := isOk_decodeNodes _ _ _ _ hdec
  obtain ⟨-, hn⟩ := decodeNodes_count _ _ _ _ _ hd hlen
  subst hn
  rw [processConfig_of_decoded ns nodes _ hd]
  refine ⟨?_, ?_, ?_, ?_, ?_, ?_, ?_⟩
  · intro h1
    simp [checkSizes, h1]
  · intro h1 h2
    simp [checkSizes, h2, Nat.not_lt.mpr h1]
  · intro h1 h2 h3
    simp [checkSizes, h3, Nat.not_lt.mpr h1, Nat.not_lt.mpr h2]
  · intro h1 h2 h3 h4
    simp [checkSizes, h4, Nat.not_lt.mpr h1, Nat.not_lt.mpr h2, Nat.not_lt.mpr h3]
  · intro h1 h2 h3 h4 h5
    simp [checkSizes, h5, Nat.not_lt.mpr h1, Nat.not_lt.mpr h2, Nat.not_lt.mpr h3,
      Nat.not_lt.mpr h4]
  · intro h1 h2 h3 h4 h5 h6 h7
    simp [checkSizes, Nat.not_lt.mpr h1, Nat.not_lt.mpr h2, Nat.not_lt.mpr h3,
      Nat.not_lt.mpr h4, Nat.not_lt.mpr h5, Nat.mod_eq_of_lt h6, h7]
  · intro h1 h2 h3 h4 h5 h6 h7
    simp [checkSizes, Nat.not_lt.mpr h1, Nat.not_lt.mpr h2, Nat.not_lt.mpr h3,
      Nat.not_lt.mpr h4, Nat.not_lt.mpr h5, Nat.mod_eq_of_lt h6, Nat.not_lt.mpr h7,
      Except.isOk, Except.toBool]

/-- C10 (witness): scenario A passes every check. -/
theorem processConfig_check_order_witness :
    (decodeNodes (loaded scenarioA lengthConverter lengthConverter).validatorPubkeyConverter
      (loaded scenarioA lengthConverter lengthConverter).addressPubkeyConverter
      (loaded scenarioA lengthConverter lengthConverter).InitialNodes 0).isOk = true ∧
    (loaded scenarioA lengthConverter lengthConverter).InitialNodes.length < 4294967296 ∧
    (processConfig (loaded scenarioA lengthConverter lengthConverter)).isOk = true :=
  ⟨by decide, by decide,
   (processConfig_check_order (loaded scenarioA lengthConverter lengthConverter)
      (by decide) (by decide)).2.2.2.2.2.2
      (by decide) (by decide) (by decide) (by decide) (by decide) (by decide) (by decide)⟩

/-- C10 (counterexample): with consensusGroupSize = 1 <= minNodesPerShard = 2,
metaChainConsensusGroupSize = 0 and a single, decodable record (count <
minNodesPerShard), construction fails with the node-count error and not with
the non-positive-consensus-group-size error: the count is compared with
minNodesPerShard before the metachain consensus size is looked at. -/
theorem check_order_counterexample :
    (decodeNodes lengthConverter lengthConverter
      (orderSample.InitialNodes.map RawNode.toInitialNode) 0).isOk = true ∧
    1 ≤ orderSample.ConsensusGroupSize ∧
    orderSample.ConsensusGroupSize ≤ orderSample.MinNodesPerShard ∧
    orderSample.MetaChainConsensusGroupSize = 0 ∧
    orderSample.InitialNodes.length < orderSample.MinNodesPerShard ∧
    (NewNodesSetup orderSample (some lengthConverter) (some lengthConverter)).error? =
      some Error.ErrNodesSizeSmallerThanMinNoOfNodes ∧
    (NewNodesSetup orderSample (some lengthConverter) (some lengthConverter)).error? ≠
      some Error.ErrNegativeOrZeroConsensusGroupSize := by
  decide

/-- C8 (failing input): with metaChainMinNodes = 4294967295, minNodesPerShard =
1 and one record, the 32-bit sum `totalMinNodes` is 0, so `processConfig`
succeeds although the record count 1 is below metaChainMinNodes +
minNodesPerShard = 4294967296 (and below metaChainMinNodes); the constructor
then panics on an index out of range. -/
theorem processConfig_accepts_overflowing_minimum :
    overflowSample.WellTyped ∧
    (processConfig (loaded overflowSample lengthConverter lengthConverter)).isOk = true ∧
    overflowSample.InitialNodes.length <
      overflowSample.MetaChainMinNodes + overflowSample.MinNodesPerShard ∧
    (NewNodesSetup overflowSample (some lengthConverter) (some lengthConverter)).isPanic = true := by
  unfold GenesisConfig.WellTyped
  decide

/-- C9 (failing input): with metaChainMinNodes = minNodesPerShard = 1,
hysteresis 5 and two records, nrOfMetaChainNodes + hystMeta = 6 exceeds
nrOfNodes = 2; `processMetaChainAssigment` leaves nrOfShards = 715827882 =
(2^32 - 4) / 6, the quotient of the wrapped numerator, which exceeds
nrOfNodes, and the constructor then panics. With hysteresis 2^31 the wrapped
quotient is 1 and the constructor returns an instance with NumberOfShards() =
1, not 0. -/
theorem nrOfShards_wraps_around :
    (((processConfig (loaded wrapSample lengthConverter lengthConverter)).toOption.bind
        processMetaChainAssigment).map
      (fun ns => (ns.nrOfNodes, ns.nrOfMetaChainNodes,
        ns.Hysteresis.scale ns.MetaChainMinNodes, ns.nrOfShards))) =
      some (2, 1, 5, 715827882) ∧
    (NewNodesSetup wrapSample (some lengthConverter) (some lengthConverter)).isPanic = true ∧
    ((NewNodesSetup wrapLargeSample (some lengthConverter) (some lengthConverter)).value?.map
      (fun ns => (ns.nrOfNodes, ns.nrOfMetaChainNodes,
        ns.Hysteresis.scale ns.MetaChainMinNodes, NumberOfShards ns))) =
      some (2, 1, 2147483648, 1) := by
  decide

/-- C4 (failing input): with metaChainMinNodes = minNodesPerShard = 1,
hysteresis 2^31 and two records the configuration passes validation and the
constructor returns an instance with nrOfNodes = 2, nrOfMetaChainNodes = 1,
hystMeta = hystShard = 2147483648 and NumberOfShards() = 1, whereas the
formula floor((2 - 1 - 2147483648) / (1 + 2147483648)) is -1 (and 0 with
truncated subtraction). -/
theorem NumberOfShards_differs_from_formula :
    ((NewNodesSetup wrapLargeSample (some lengthConverter) (some lengthConverter)).value?.map
      (fun ns => (ns.nrOfNodes, ns.nrOfMetaChainNodes, ns.MinNodesPerShard,
        ns.Hysteresis.scale ns.MetaChainMinNodes, ns.Hysteresis.scale ns.MinNodesPerShard,
        NumberOfShards ns))) = some (2, 1, 1, 2147483648, 2147483648, 1) ∧
    ((NewNodesSetup wrapLargeSample (some lengthConverter) (some lengthConverter)).value?.map
      (fun ns => decide ((NumberOfShards ns : Int) =
        specShardCount ns.nrOfNodes ns.nrOfMetaChainNodes
          (ns.Hysteresis.scale ns.MetaChainMinNodes) ns.MinNodesPerShard
          (ns.Hysteresis.scale ns.MinNodesPerShard)))) = some false ∧
    specShardCount 2 1 2147483648 1 2147483648 = -1 ∧
    (2 - 1 - 2147483648) / (1 + 2147483648) = 0 := by
  decide

/-! ## Lookup tables -/

theorem lookup_store (m : NodeMap) (k k' : Nat) (v : NodeSlice) :
    (m.store k v).lookup k' = if k = k' then v else m.lookup k' := by
  induction m with
  | nil =>
    by_cases h : k = k' <;> simp [NodeMap.store, NodeMap.lookup, h]
  | cons p rest ih =>
    obtain ⟨q, w⟩ := p
    unfold NodeMap.store
    by_cases hq : q = k
    · subst hq
      by_cases h : q = k' <;> simp [NodeMap.lookup, h]
    · by_cases h : k = k'
      · subst h
        simp [NodeMap.lookup, hq, ih]
      · simp only [hq, if_false, NodeMap.lookup, ih, h]

theorem totalLen_store_append (m : NodeMap) (k : Nat) (x : nodeInfo) :
    (m.store k ((m.lookup k).append x)).totalLen = m.totalLen + 1 := by
  induction m with
  | nil => simp [NodeMap.store, NodeMap.lookup, NodeMap.totalLen, NodeSlice.append, NodeSlice.len]
  | cons p rest ih =>
    obtain ⟨q, w⟩ := p
    by_cases hq : q = k
    · subst hq
      simp [NodeMap.store, NodeMap.lookup, NodeMap.totalLen, NodeSlice.append, NodeSlice.len]
      omega
    · simp only [NodeMap.store, NodeMap.lookup, hq, if_false]
      simp only [NodeMap.totalLen, List.map_cons, List.sum_cons] at ih ⊢
      omega

theorem foldl_append_getD (l : List nodeInfo) (s : NodeSlice) :
    (l.foldl NodeSlice.append s).getD [] = s.getD [] ++ l := by
  induction l generalizing s with
  | nil => simp
  | cons x rest ih => rw [List.foldl_cons, ih]; simp [NodeSlice.append]

theorem foldl_append_none (l : List nodeInfo) :
    l.foldl NodeSlice.append none = if l = [] then none else some l := by
  cases l with
  | nil => simp
  | cons x rest =>
    have h := foldl_append_getD rest (NodeSlice.append none x)
    simp only [List.foldl_cons]
    cases hf : List.foldl NodeSlice.append (NodeSlice.append none x) rest with
    | none =>
      exfalso
      have : ∀ (l : List nodeInfo) (s : NodeSlice), s ≠ none →
          l.foldl NodeSlice.append s ≠ none := by
        intro l
        induction l with
        | nil => intro s hs; simpa using hs
        | cons y r ih => intro s _; rw [List.foldl_cons]; exact ih _ (by simp [NodeSlice.append])
      exact this rest _ (by simp [NodeSlice.append]) hf
    | some r =>
      rw [hf] at h
      simp [NodeSlice.append] at h
      simp [h]

theorem bucketOf_cons (el : Bool) (s : Nat) (nd : InitialNode) (rest : List InitialNode) :
    bucketOf el s (nd :: rest) =
      if nd.pubKey.isSome = true ∧ nd.address.isSome = true ∧ nd.eligible = el ∧
          nd.assignedShard = s
      then nd.tonodeInfo :: bucketOf el s rest else bucketOf el s rest := by
  unfold bucketOf
  rw [List.filter_cons]
  by_cases h : nd.pubKey.isSome = true ∧ nd.address.isSome = true ∧ nd.eligible = el ∧
      nd.assignedShard = s
  · obtain ⟨h1, h2, h3, h4⟩ := h
    simp [h1, h2, h3, h4]
  · rw [if_neg h, if_neg]
    simpa [and_assoc] using h

theorem createLoop_lookup (nodes : List InitialNode) :
    ∀ (e w : NodeMap) (s : Nat),
      (createLoop nodes e w).1.lookup s = (bucketOf true s nodes).foldl NodeSlice.append (e.lookup s) ∧
      (createLoop nodes e w).2.lookup s =
        (bucketOf false s nodes).foldl NodeSlice.append (w.lookup s) := by
  induction nodes with
  | nil => intro e w s; simp [createLoop, bucketOf]
  | cons nd rest ih =>
    intro e w s
    have hinfo : (⟨nd.assignedShard, nd.eligible, nd.pubKey, nd.address⟩ : nodeInfo) =
        nd.tonodeInfo := rfl
    unfold createLoop
    rw [bucketOf_cons, bucketOf_cons]
    by_cases hk : nd.pubKey.isSome = true ∧ nd.address.isSome = true
    · rw [if_pos hk]
      simp only
      rw [hinfo]
      by_cases hel : nd.eligible = true
      · rw [if_pos hel, (ih _ _ s).1, (ih _ _ s).2, lookup_store]
        have hel' : ¬ nd.eligible = false := by simp [hel]
        by_cases hs : nd.assignedShard = s
        · rw [if_pos hs, if_pos ⟨hk.1, hk.2, hel, hs⟩, if_neg (fun h => hel' h.2.2.1), hs]
          simp
        · rw [if_neg hs, if_neg (fun h => hs h.2.2.2), if_neg (fun h => hel' h.2.2.1)]
          simp
      · rw [if_neg hel, (ih _ _ s).1, (ih _ _ s).2, lookup_store]
        have hel' : nd.eligible = false := by simpa using hel
        by_cases hs : nd.assignedShard = s
        · rw [if_pos hs, if_neg (fun h => hel h.2.2.1), if_pos ⟨hk.1, hk.2, hel', hs⟩, hs]
          simp
        · rw [if_neg hs, if_neg (fun h => hel h.2.2.1), if_neg (fun h => hs h.2.2.2)]
          simp
    · rw [if_neg hk]
      have h1 : ¬ (nd.pubKey.isSome = true ∧ nd.address.isSome = true ∧ nd.eligible = true ∧
          nd.assignedShard = s) := fun h => hk ⟨h.1, h.2.1⟩
      have h2 : ¬ (nd.pubKey.isSome = true ∧ nd.address.isSome = true ∧ nd.eligible = false ∧
          nd.assignedShard = s) := fun h => hk ⟨h.1, h.2.1⟩
      rw [if_neg h1, if_neg h2]
      exact ih e w s

theorem createLoop_totalLen (nodes : List InitialNode) :
    ∀ (e w : NodeMap),
      (createLoop nodes e w).1.totalLen + (createLoop nodes e w).2.totalLen =
        e.totalLen + w.totalLen +
          (nodes.filter (fun nd => nd.pubKey.isSome && nd.address.isSome)).length := by
  induction nodes with
  | nil => intro e w; simp [createLoop]
  | cons nd rest ih =>
    intro e w
    unfold createLoop
    rw [List.filter_cons]
    by_cases hk : nd.pubKey.isSome = true ∧ nd.address.isSome = true
    · rw [if_pos hk]
      have hb : (nd.pubKey.isSome && nd.address.isSome) = true := by simp [hk.1, hk.2]
      rw [if_pos hb]
      simp only
      cases hel : nd.eligible with
      | true =>
        simp only [if_true]
        rw [ih, totalLen_store_append, List.length_cons]
        omega
      | false =>
        simp only [Bool.false_eq_true, if_false]
        rw [ih, totalLen_store_append, List.length_cons]
        omega
    · rw [if_neg hk]
      have hb : ¬ ((nd.pubKey.isSome && nd.address.isSome) = true) := by
        simpa using hk
      rw [if_neg hb]
      exact ih e w

/-- After `createInitialNodesInfo`, the bucket read from either table under a
shard id is the list of records filed under it, `nil` when there is none. -/
theorem createInitialNodesInfo_lookup (ns : NodesSetup) (el : Bool) (s : Nat) :
    (tableOf (createInitialNodesInfo ns) el).lookup s =
      if bucketOf el s ns.InitialNodes = [] then none else some (bucketOf el s ns.InitialNodes) := by
  have h := createLoop_lookup ns.InitialNodes [] [] s
  cases el with
  | true =>
    simp only [tableOf, if_true, createInitialNodesInfo]
    rw [h.1]
    simpa [NodeMap.lookup] using foldl_append_none (bucketOf true s ns.InitialNodes)
  | false =>
    simp only [tableOf, Bool.false_eq_true, if_false, createInitialNodesInfo]
    rw [h.2]
    simpa [NodeMap.lookup] using foldl_append_none (bucketOf false s ns.InitialNodes)

theorem createInitialNodesInfo_getD (ns : NodesSetup) (el : Bool) (s : Nat) :
    ((tableOf (createInitialNodesInfo ns) el).lookup s).getD [] = bucketOf el s ns.InitialNodes := by
  rw [createInitialNodesInfo_lookup]
  by_cases h : bucketOf el s ns.InitialNodes = []
  · simp [h]
  · simp [h]

theorem createInitialNodesInfo_totalLen (ns : NodesSetup) :
    (createInitialNodesInfo ns).eligible.totalLen + (createInitialNodesInfo ns).waiting.totalLen =
      (ns.InitialNodes.filter (fun nd => nd.pubKey.isSome && nd.address.isSome)).length := by
  have h := createLoop_totalLen ns.InitialNodes [] []
  simpa [createInitialNodesInfo, NodeMap.totalLen] using h

theorem mem_bucketOf (el : Bool) (s : Nat) (nodes : List InitialNode) (x : nodeInfo) :
    x ∈ bucketOf el s nodes ↔
      ∃ nd ∈ nodes, nd.tonodeInfo = x ∧ nd.pubKey.isSome = true ∧ nd.address.isSome = true ∧
        nd.eligible = el ∧ nd.assignedShard = s := by
  unfold bucketOf
  simp only [List.mem_map, List.mem_filter, Bool.and_eq_true, beq_iff_eq]
  constructor
  · rintro ⟨nd, ⟨hm, ⟨⟨h1, h2⟩, h3⟩, h4⟩, rfl⟩
    exact ⟨nd, hm, rfl, h1, h2, h3, h4⟩
  · rintro ⟨nd, hm, rfl, h1, h2, h3, h4⟩
    exact ⟨nd, ⟨hm, ⟨⟨h1, h2⟩, h3⟩, h4⟩, rfl⟩

/-! ## What the assignment passes leave unchanged -/

theorem map_decoded_set (nodes : List InitialNode) (id : Nat) (nd : InitialNode) (s : Nat)
    (e : Bool) (h : nodes[id]? = some nd) :
    (nodes.set id (nd.assign s e)).map InitialNode.decoded = nodes.map InitialNode.decoded := by
  apply List.ext_getElem?
  intro j
  by_cases hj : id = j
  · subst hj
    obtain ⟨hlt, hget⟩ := List.getElem?_eq_some.mp h
    subst hget
    simp [List.getElem?_set, hlt, InitialNode.decoded, InitialNode.assign]
  · simp [List.getElem?_set_ne hj]

theorem metaChainLoop_decoded (k : Nat) :
    ∀ (id : Nat) (nodes : List InitialNode) (cnt : Nat) (r : List InitialNode × Nat),
      metaChainLoop k id nodes cnt = some r →
      r.1.map InitialNode.decoded = nodes.map InitialNode.decoded := by
  induction k with
  | zero => intro id nodes cnt r h; simp [metaChainLoop] at h; subst h; rfl
  | succ k ih =>
    intro id nodes cnt r h
    unfold metaChainLoop at h
    split at h
    · cases h
    · rename_i nd hnd
      split at h
      · rw [ih _ _ _ _ h, map_decoded_set _ _ _ _ _ hnd]
      · exact ih _ _ _ _ h

theorem shardInnerLoop_decoded (s k : Nat) :
    ∀ (id : Nat) (nodes : List InitialNode) (c : Nat) (r : List InitialNode × Nat),
      shardInnerLoop s k id nodes c = some r →
      r.1.map InitialNode.decoded = nodes.map InitialNode.decoded := by
  induction k with
  | zero => intro id nodes c r h; simp [shardInnerLoop] at h; subst h; rfl
  | succ k ih =>
    intro id nodes c r h
    unfold shardInnerLoop at h
    split at h
    · cases h
    · rename_i nd hnd
      split at h
      · rw [ih _ _ _ _ h, map_decoded_set _ _ _ _ _ hnd]
      · exact ih _ _ _ _ h

theorem shardOuterLoop_decoded (m p k : Nat) :
    ∀ (cur : Nat) (nodes : List InitialNode) (c : Nat) (r : List InitialNode × Nat),
      shardOuterLoop m p k cur nodes c = some r →
      r.1.map InitialNode.decoded = nodes.map InitialNode.decoded := by
  induction k with
  | zero => intro cur nodes c r h; simp [shardOuterLoop] at h; subst h; rfl
  | succ k ih =>
    intro cur nodes c r h
    unfold shardOuterLoop at h
    simp only at h
    split at h
    · cases h
    · rename_i nodes' c' hin
      rw [ih _ _ _ _ h]
      exact shardInnerLoop_decoded _ _ _ _ _ _ hin

theorem waitingLoop_decoded (n k : Nat) :
    ∀ (i cur : Nat) (nodes r : List InitialNode),
      waitingLoop n k i cur nodes = some r →
      r.map InitialNode.decoded = nodes.map InitialNode.decoded := by
  induction k with
  | zero => intro i cur nodes r h; simp [waitingLoop] at h; subst h; rfl
  | succ k ih =>
    intro i cur nodes r h
    unfold waitingLoop at h
    split at h
    · cases h
    · split at h
      · cases h
      · rename_i nd hnd
        split at h
        · rw [ih _ _ _ _ h, map_decoded_set _ _ _ _ _ hnd]
        · exact ih _ _ _ _ h

theorem decodeNodes_raw (v a : PubkeyConverter) (l : List InitialNode) :
    ∀ (n : Nat) (l' : List InitialNode) (n' : Nat), decodeNodes v a l n = .ok (l', n') →
      l'.map InitialNode.raw = l.map InitialNode.raw := by
  induction l with
  | nil =>
    intro n l' n' h
    simp [decodeNodes] at h
    rw [h.1]
  | cons nd rest ih =>
    intro n l' n' h
    unfold decodeNodes at h
    split at h
    · cases h
    · split at h
      · cases h
      · split at h
        · cases h
        · split at h
          · cases h
          · split at h
            · cases h
            · rename_i r' m hrec
              cases h
              simp [ih _ _ _ hrec, InitialNode.raw]

theorem map_raw_of_map_decoded (l l' : List InitialNode)
    (h : l'.map InitialNode.decoded = l.map InitialNode.decoded) :
    l'.map InitialNode.raw = l.map InitialNode.raw := by
  have hr : InitialNode.raw = (fun d : String × String × Option Bytes × Option Bytes =>
      (⟨d.1, d.2.1⟩ : RawNode)) ∘ InitialNode.decoded := by
    funext nd; rfl
  rw [hr, ← List.map_map, ← List.map_map, h]

theorem allDecoded_of_map_decoded (l l' : List InitialNode)
    (h : l'.map InitialNode.decoded = l.map InitialNode.decoded)
    (hd : ∀ nd ∈ l', nd.pubKey.isSome = true ∧ nd.address.isSome = true) :
    ∀ nd ∈ l, nd.pubKey.isSome = true ∧ nd.address.isSome = true := by
  intro nd hnd
  have hm : nd.decoded ∈ l'.map InitialNode.decoded := by
    rw [h]; exact List.mem_map_of_mem _ hnd
  obtain ⟨nd', hnd', heq⟩ := List.mem_map.mp hm
  have := hd nd' hnd'
  simp only [InitialNode.decoded, Prod.mk.injEq] at heq
  rw [← heq.2.2.1, ← heq.2.2.2]
  exact this

/-- What a successful run of the constructor went through: validation returned
`ns1`, the two assignment passes returned `ns2` and `ns3` without a panic, and
the instance is `createInitialNodesInfo ns3`. -/
theorem NewNodesSetup_ok (cfg : GenesisConfig) (a v : PubkeyConverter) (ns : NodesSetup)
    (h : NewNodesSetup cfg (some a) (some v) = .ok ns) :
    ∃ ns1 ns2 ns3, processConfig (loaded cfg a v) = .ok ns1 ∧
      processMetaChainAssigment ns1 = some ns2 ∧ processShardAssignment ns2 = some ns3 ∧
      ns = createInitialNodesInfo ns3 := by
  unfold NewNodesSetup at h
  simp only at h
  split at h
  · cases h
  · rename_i ns1 h1
    split at h
    · cases h
    · rename_i ns2 h2
      split at h
      · cases h
      · rename_i ns3 h3
        cases h
        exact ⟨ns1, ns2, ns3, h1, h2, h3, rfl⟩

/-- The fields `processMetaChainAssigment` leaves unchanged, and the shape of
what it writes. -/
theorem processMetaChainAssigment_some (ns ns2 : NodesSetup)
    (h : processMetaChainAssigment ns = some ns2) :
    ∃ nodes cnt, metaChainLoop ns.MetaChainMinNodes 0 ns.InitialNodes 0 = some (nodes, cnt) ∧
      (ns.MinNodesPerShard + ns.Hysteresis.scale ns.MinNodesPerShard % 4294967296) % 4294967296 ≠ 0 ∧
      ns2 = { ns with InitialNodes := nodes, nrOfMetaChainNodes := cnt,
                      nrOfShards :=
                        (((ns.nrOfNodes + 4294967296 - cnt) % 4294967296 + 4294967296 -
                          ns.Hysteresis.scale ns.MetaChainMinNodes % 4294967296) % 4294967296) /
                        ((ns.MinNodesPerShard +
                          ns.Hysteresis.scale ns.MinNodesPerShard % 4294967296) % 4294967296) } := by
  unfold processMetaChainAssigment at h
  split at h
  · cases h
  · rename_i nodes cnt hloop
    simp only at h
    split at h
    · cases h
    · rename_i hden
      cases h
      exact ⟨nodes, cnt, hloop, hden, rfl⟩

/-- The shape of what `processShardAssignment` writes. -/
theorem processShardAssignment_some (ns ns3 : NodesSetup)
    (h : processShardAssignment ns = some ns3) :
    ∃ nodes c nodes',
      shardOuterLoop ns.nrOfMetaChainNodes ns.MinNodesPerShard ns.nrOfShards 0 ns.InitialNodes
        ns.nrOfMetaChainNodes = some (nodes, c) ∧
      waitingLoop ns.nrOfShards (ns.nrOfNodes - c) c 0 nodes = some nodes' ∧
      ns3 = { ns with InitialNodes := nodes' } := by
  unfold processShardAssignment at h
  split at h
  · cases h
  · rename_i nodes c hout
    split at h
    · cases h
    · rename_i nodes' hw
      cases h
      exact ⟨nodes, c, nodes', hout, hw, rfl⟩

/-- The records of a returned instance are the records of the file, in order,
and `nrOfNodes` is their number. -/
theorem instance_records (cfg : GenesisConfig) (a v : PubkeyConverter) (ns : NodesSetup)
    (hlen : cfg.InitialNodes.length < 4294967296)
    (h : NewNodesSetup cfg (some a) (some v) = .ok ns) :
    ns.InitialNodes.map InitialNode.raw = cfg.InitialNodes ∧
    ns.nrOfNodes = cfg.InitialNodes.length := by
  obtain ⟨ns1, ns2, ns3, h1, h2, h3, rfl⟩ := NewNodesSetup_ok cfg a v ns h
  obtain ⟨nodes, n, hdec, rfl, -⟩ := processConfig_ok _ _ h1
  obtain ⟨nodes2, cnt, hm, -, rfl⟩ := processMetaChainAssigment_some _ _ h2
  obtain ⟨nodes3, c, nodes4, ho, hw, rfl⟩ := processShardAssignment_some _ _ h3
  have hl : (loaded cfg a v).InitialNodes.length < 4294967296 := by
    simpa [loaded] using hlen
  obtain ⟨-, hn⟩ := decodeNodes_count _ _ _ _ _ hdec hl
  have hraw : nodes.map InitialNode.raw = cfg.InitialNodes := by
    rw [decodeNodes_raw _ _ _ _ _ _ hdec]
    simp only [loaded, List.map_map]
    have : InitialNode.raw ∘ RawNode.toInitialNode = id := by funext r; rfl
    rw [this, List.map_id]
  have d2 := metaChainLoop_decoded _ _ _ _ _ hm
  have d3 := shardOuterLoop_decoded _ _ _ _ _ _ _ ho
  have d4 := waitingLoop_decoded _ _ _ _ _ _ hw
  simp only at d2 d3 d4
  refine ⟨?_, ?_⟩
  · simp only [createInitialNodesInfo]
    rw [map_raw_of_map_decoded _ _ (d4.trans (d3.trans d2)), hraw]
  · simp only [createInitialNodesInfo]
    simpa [loaded] using hn

/-- C1 (amended): for every configuration with fewer than 2^32 records on
which construction succeeds and every record of which decodes to non-nil key
and address bytes, every validator is filed in the bucket of its own
eligibility flag and assigned shard and in no bucket under another flag or
shard id, the instance lists the records of the file in order, and the sum of
the lengths of all eligible and waiting buckets equals nrOfNodes, the number
of records. -/
theorem every_validator_in_one_bucket (cfg : GenesisConfig) (a v : PubkeyConverter)
    (ns : NodesSetup) (hlen : cfg.InitialNodes.length < 4294967296)
    (h : NewNodesSetup cfg (some a) (some v) = .ok ns) (hdec : AllDecoded ns) :
    ns.InitialNodes.map InitialNode.raw = cfg.InitialNodes ∧
    (∀ nd ∈ ns.InitialNodes,
      nd.tonodeInfo ∈ ((tableOf ns nd.eligible).lookup nd.assignedShard).getD [] ∧
      ∀ (el : Bool) (s : Nat), nd.tonodeInfo ∈ ((tableOf ns el).lookup s).getD [] →
        el = nd.eligible ∧ s = nd.assignedShard) ∧
    ns.eligible.totalLen + ns.waiting.totalLen = ns.nrOfNodes ∧
    ns.nrOfNodes = cfg.InitialNodes.length := by
  obtain ⟨hraw, hn⟩ := instance_records cfg a v ns hlen h
  obtain ⟨ns1, ns2, ns3, -, -, -, rfl⟩ := NewNodesSetup_ok cfg a v ns h
  have hnodes : (createInitialNodesInfo ns3).InitialNodes = ns3.InitialNodes := rfl
  rw [hnodes] at hraw
  refine ⟨hraw, ?_, ?_, hn⟩
  · intro nd hnd
    rw [hnodes] at hnd
    have hd := hdec nd hnd
    refine ⟨?_, ?_⟩
    · rw [createInitialNodesInfo_getD, mem_bucketOf]
      exact ⟨nd, hnd, rfl, hd.1, hd.2, rfl, rfl⟩
    · intro el s hmem
      rw [createInitialNodesInfo_getD, mem_bucketOf] at hmem
      obtain ⟨nd', -, heq, -, -, he, hs⟩ := hmem
      have h1 : nd'.eligible = nd.eligible := congrArg nodeInfo.eligible heq
      have h2 : nd'.assignedShard = nd.assignedShard := congrArg nodeInfo.assignedShard heq
      exact ⟨by rw [← he, h1], by rw [← hs, h2]⟩
  · rw [createInitialNodesInfo_totalLen, hn, ← hraw, List.length_map]
    congr 1
    rw [List.filter_eq_self]
    intro nd hnd
    have hd := hdec nd hnd
    simp [hd.1, hd.2]

/-- C1 (witness): scenario A. -/
theorem every_validator_in_one_bucket_witness :
    scenarioA.InitialNodes.length < 4294967296 ∧
    NewNodesSetup scenarioA (some lengthConverter) (some lengthConverter) =
      .ok (instanceOf scenarioA lengthConverter lengthConverter) ∧
    AllDecoded (instanceOf scenarioA lengthConverter lengthConverter) ∧
    (instanceOf scenarioA lengthConverter lengthConverter).eligible.totalLen +
      (instanceOf scenarioA lengthConverter lengthConverter).waiting.totalLen =
      (instanceOf scenarioA lengthConverter lengthConverter).nrOfNodes :=
  ⟨by decide, rfl, by decide,
   (every_validator_in_one_bucket scenarioA lengthConverter lengthConverter
      (instanceOf scenarioA lengthConverter lengthConverter) (by decide) rfl (by decide)).2.2.1⟩

/-- C1 (counterexample): two records, the key converter returning a nil slice
and no error for the second key. Construction succeeds with nrOfNodes = 2, but
the second record is filed in no bucket: the eligible table holds one record
(under the metachain id), the waiting table is empty, and the bucket lengths
sum to 1. -/
theorem nil_key_record_in_no_bucket :
    ((NewNodesSetup pairSample (some lengthConverter) (some (nilOnLength 2))).value?.map
      (fun ns => (ns.nrOfNodes, ns.InitialNodes.length,
        ns.InitialNodes.map (fun nd => nd.pubKey.isSome),
        ns.eligible.map (fun p => (p.1, p.2.len)), ns.waiting.map (fun p => (p.1, p.2.len)),
        ns.eligible.totalLen + ns.waiting.totalLen))) =
      some (2, 2, [true, false], [(4294967295, 1)], [], 1) := by
  rfl

/-- C6 (amended): for every successfully constructed instance and every
validator whose decoded key is non-nil and is not the decoded key of a
validator earlier in the list, `GetShardIDForPubKey` on its key succeeds and
returns the validator's assigned shard; when its decoded address is non-nil
too, that is the shard id under which it is stored in the table of its
eligibility flag, and when its address is nil it is stored in no bucket of
either table. -/
theorem GetShardIDForPubKey_of_first_occurrence (cfg : GenesisConfig) (a v : PubkeyConverter)
    (ns : NodesSetup) (h : NewNodesSetup cfg (some a) (some v) = .ok ns)
    (i : Nat) (nd : InitialNode) (b : Bytes) (hi : ns.InitialNodes[i]? = some nd)
    (hb : nd.pubKey = some b)
    (hfirst : ∀ j, j < i → ∀ nd' : InitialNode, ns.InitialNodes[j]? = some nd' →
      nd'.pubKey ≠ some b) :
    GetShardIDForPubKey ns nd.pubKey = .ok nd.assignedShard ∧
    (nd.address.isSome = true →
      nd.tonodeInfo ∈ ((tableOf ns nd.eligible).lookup nd.assignedShard).getD []) ∧
    (nd.address = none →
      ∀ (el : Bool) (s : Nat), nd.tonodeInfo ∉ ((tableOf ns el).lookup s).getD []) := by
  have hmem : nd ∈ ns.InitialNodes := List.mem_iff_getElem?.mpr ⟨i, hi⟩
  refine ⟨?_, ?_, ?_⟩
  · have hex : ∃ x ∈ ns.InitialNodes, x.pubKey = some ((nd.pubKey).getD []) :=
      ⟨nd, hmem, by rw [hb]; rfl⟩
    obtain ⟨i', nd', hi', hk', hlow, hres⟩ := findShard_first_match nd.pubKey ns.InitialNodes hex
    have hkb : nd'.pubKey = some b := by rw [hk', hb]; rfl
    have hii : i' = i := by
      rcases Nat.lt_trichotomy i' i with hlt | heq | hgt
      · exact absurd hkb (hfirst i' hlt nd' hi')
      · exact heq
      · exact absurd (by rw [hb]; rfl) (hlow i hgt nd hi)
    subst hii
    rw [hi] at hi'
    cases hi'
    exact hres
  · intro haddr
    obtain ⟨ns1, ns2, ns3, -, -, -, rfl⟩ := NewNodesSetup_ok cfg a v ns h
    rw [createInitialNodesInfo_getD, mem_bucketOf]
    exact ⟨nd, hmem, rfl, by rw [hb]; rfl, haddr, rfl, rfl⟩
  · intro haddr el s hin
    obtain ⟨ns1, ns2, ns3, -, -, -, rfl⟩ := NewNodesSetup_ok cfg a v ns h
    rw [createInitialNodesInfo_getD, mem_bucketOf] at hin
    obtain ⟨nd', -, heq, -, ha', -, -⟩ := hin
    have h1 : nd'.address = nd.address := congrArg nodeInfo.address heq
    rw [h1, haddr] at ha'
    cases ha'

/-- C6 (witness): validator 3 of scenario A. -/
theorem GetShardIDForPubKey_of_first_occurrence_witness :
    NewNodesSetup scenarioA (some lengthConverter) (some lengthConverter) =
      .ok (instanceOf scenarioA lengthConverter lengthConverter) ∧
    ((instanceOf scenarioA lengthConverter lengthConverter).InitialNodes[3]?).map
      (fun nd => (nd.pubKey, nd.assignedShard)) = some (some [4], 1) ∧
    GetShardIDForPubKey (instanceOf scenarioA lengthConverter lengthConverter) (some [4]) =
      .ok 1 :=
  ⟨rfl, by decide,
   (GetShardIDForPubKey_of_first_occurrence scenarioA lengthConverter lengthConverter
      (instanceOf scenarioA lengthConverter lengthConverter) rfl 3
      ⟨⟨1, true, some [4], some [1]⟩, "kkkk", "a"⟩ [4] (by decide) rfl (by decide)).1⟩

/-- C6 (counterexample): scenario A with records 3, 4, 5 repeating the keys of
records 0, 1, 2. Construction succeeds; validator 3 is assigned to shard 1 and
filed in the eligible bucket of shard 1, but `GetShardIDForPubKey` on its key
returns the metachain id, the shard of validator 0. Second, two records and an
address converter that returns a nil slice and no error for every address:
construction succeeds, the lookup of either key succeeds (metachain id, shard
0), and both tables are empty, so neither validator is stored under the shard
id returned. -/
theorem duplicate_key_lookup_returns_first :
    ((NewNodesSetup duplicateSample (some lengthConverter) (some lengthConverter)).value?.bind
      (fun ns => ns.InitialNodes[3]?.map (fun nd =>
        (nd.assignedShard, nd.eligible, decide (nd.tonodeInfo ∈ (ns.eligible.lookup 1).getD []),
         (GetShardIDForPubKey ns nd.pubKey).toOption)))) =
      some (1, true, true, some 4294967295) ∧
    ((NewNodesSetup pairSample (some (nilOnLength 1)) (some lengthConverter)).value?.map
      (fun ns => (ns.InitialNodes.map (fun nd => (GetShardIDForPubKey ns nd.pubKey).toOption),
        ns.InitialNodes.map (fun nd => nd.address.isSome),
        ns.eligible.map (fun p => p.1), ns.waiting.map (fun p => p.1)))) =
      some ([some 4294967295, some 0], [false, false], [], []) :=
  ⟨by decide, by rfl⟩

/-! ## The assignment loops on fully decoded lists -/

theorem allKeys_of_map_decoded (l l' : List InitialNode)
    (h : l'.map InitialNode.decoded = l.map InitialNode.decoded) (hk : AllKeys l) : AllKeys l' := by
  intro nd hnd
  have hm : nd.decoded ∈ l.map InitialNode.decoded := by
    rw [← h]; exact List.mem_map_of_mem _ hnd
  obtain ⟨nd', hnd', heq⟩ := List.mem_map.mp hm
  have := hk nd' hnd'
  simp only [InitialNode.decoded, Prod.mk.injEq] at heq
  rw [← heq.2.2.1]
  exact this

theorem length_of_map_decoded (l l' : List InitialNode)
    (h : l'.map InitialNode.decoded = l.map InitialNode.decoded) : l'.length = l.length := by
  have := congrArg List.length h
  simpa using this

theorem shardInnerLoop_none (s k : Nat) :
    ∀ (id : Nat) (nodes : List InitialNode) (c : Nat), id ≤ nodes.length →
      nodes.length < id + k → shardInnerLoop s k id nodes c = none := by
  induction k with
  | zero =>
    intro id nodes c h0 h
    omega
  | succ k ih =>
    intro id nodes c h0 h
    unfold shardInnerLoop
    split
    · rfl
    · rename_i nd hnd
      obtain ⟨hlt, -⟩ := List.getElem?_eq_some.mp hnd
      split
      · exact ih _ _ _ (by simp only [List.length_set]; omega)
          (by simp only [List.length_set]; omega)
      · exact ih _ _ _ (by omega) (by omega)

theorem shardInnerLoop_spec (s k : Nat) :
    ∀ (id : Nat) (nodes : List InitialNode) (c : Nat), AllKeys nodes → id + k ≤ nodes.length →
      c + k < 4294967296 →
      ∃ nodes', shardInnerLoop s k id nodes c = some (nodes', c + k) ∧
        ∀ j, nodes'[j]? = (nodes[j]?).map
          (fun nd => if id ≤ j ∧ j < id + k then nd.assign s true else nd) := by
  induction k with
  | zero =>
    intro id nodes c _ _ _
    refine ⟨nodes, by simp [shardInnerLoop], ?_⟩
    intro j
    have : ¬ (id ≤ j ∧ j < id + 0) := by omega
    simp only [if_neg this]
    exact Option.map_id'.symm
  | succ k ih =>
    intro id nodes c hk hlen hc
    have hid : id < nodes.length := by omega
    have hget : nodes[id]? = some nodes[id] := List.getElem?_eq_getElem hid
    have hkey : (nodes[id]).pubKey.isSome = true := hk _ (List.getElem_mem hid)
    have hk' : AllKeys (nodes.set id ((nodes[id]).assign s true)) :=
      allKeys_of_map_decoded _ _ (map_decoded_set _ _ _ _ _ hget) hk
    obtain ⟨nodes', hloop, hpt⟩ := ih (id + 1) (nodes.set id ((nodes[id]).assign s true))
      (c + 1) hk' (by simp only [List.length_set]; omega) (by omega)
    refine ⟨nodes', ?_, ?_⟩
    · unfold shardInnerLoop
      rw [hget]
      simp only [hkey, if_true]
      rw [Nat.mod_eq_of_lt (by omega), hloop]
      congr 2
      omega
    · intro j
      rw [hpt j, List.getElem?_set]
      by_cases hj : id = j
      · subst hj
        have h1 : ¬ (id + 1 ≤ id ∧ id < id + 1 + k) := by omega
        have h2 : id ≤ id ∧ id < id + (k + 1) := by omega
        simp [hid, hget, h1, h2]
      · rw [if_neg hj]
        have h3 : (id + 1 ≤ j ∧ j < id + 1 + k) ↔ (id ≤ j ∧ j < id + (k + 1)) := by omega
        simp only [h3]

theorem metaChainLoop_eq (k : Nat) :
    ∀ (id : Nat) (nodes : List InitialNode) (cnt : Nat),
      metaChainLoop k id nodes cnt = shardInnerLoop MetachainShardId k id nodes cnt := by
  induction k with
  | zero => intro id nodes cnt; rfl
  | succ k ih =>
    intro id nodes cnt
    unfold metaChainLoop shardInnerLoop
    split
    · rfl
    · split
      · exact ih _ _ _
      · exact ih _ _ _

theorem bound_eq (m p cur len : Nat) (hp : 1 ≤ p) (h : m + (cur + 1) * p ≤ len)
    (hlen : len < 4294967296) :
    (m + ((cur + 1) % 4294967296 * p) % 4294967296) % 4294967296 = m + (cur + 1) * p := by
  have h1 : cur + 1 ≤ (cur + 1) * p := Nat.le_mul_of_pos_right _ hp
  rw [Nat.mod_eq_of_lt (by omega : cur + 1 < 4294967296),
    Nat.mod_eq_of_lt (by omega : (cur + 1) * p < 4294967296),
    Nat.mod_eq_of_lt (by omega)]

theorem div_eq_of_range (j m p cur : Nat) (hp : 1 ≤ p) (h1 : m + cur * p ≤ j)
    (h2 : j < m + (cur + 1) * p) : (j - m) / p = cur := by
  apply Nat.div_eq_of_lt_le
  · omega
  · have : (cur + 1) * p = cur * p + p := by ring
    have h3 : cur.succ * p = (cur + 1) * p := rfl
    omega

/-- The outer loop on a fully decoded list, when the records reach: starting
at shard `cur` with `countSetNodes = m + cur * p`, `k` further shards of `p`
records each are filled in list order. -/
theorem shardOuterLoop_spec (m p k : Nat) :
    ∀ (cur : Nat) (nodes : List InitialNode), AllKeys nodes → 1 ≤ p →
      m + (cur + k) * p ≤ nodes.length → nodes.length < 4294967296 →
      ∃ nodes', shardOuterLoop m p k cur nodes (m + cur * p) = some (nodes', m + (cur + k) * p) ∧
        ∀ j, nodes'[j]? = (nodes[j]?).map
          (fun nd => if m + cur * p ≤ j ∧ j < m + (cur + k) * p
            then nd.assign ((j - m) / p) true else nd) := by
  induction k with
  | zero =>
    intro cur nodes _ _ _ _
    refine ⟨nodes, by simp [shardOuterLoop], ?_⟩
    intro j
    have : ¬ (m + cur * p ≤ j ∧ j < m + (cur + 0) * p) := by
      simp only [Nat.add_zero]; omega
    simp only [if_neg this]
    exact Option.map_id'.symm
  | succ k ih =>
    intro cur nodes hk hp hlen hlt
    have hmul : (cur + 1) * p ≤ (cur + (k + 1)) * p := Nat.mul_le_mul_right _ (by omega)
    have hexp : (cur + 1) * p = cur * p + p := by ring
    have hb := bound_eq m p cur nodes.length hp (by omega) hlt
    obtain ⟨nodes1, hin, hpt1⟩ := shardInnerLoop_spec cur p (m + cur * p) nodes (m + cur * p) hk
      (by omega) (by omega)
    have hdec := shardInnerLoop_decoded _ _ _ _ _ _ hin
    simp only at hdec
    have hk1 : AllKeys nodes1 := allKeys_of_map_decoded _ _ hdec hk
    have hl1 : nodes1.length = nodes.length := length_of_map_decoded _ _ hdec
    have hidx : cur + 1 + k = cur + (k + 1) := by omega
    obtain ⟨nodes', hloop, hpt⟩ := ih (cur + 1) nodes1 hk1 hp (by rw [hl1, hidx]; exact hlen)
      (by rw [hl1]; exact hlt)
    refine ⟨nodes', ?_, ?_⟩
    · unfold shardOuterLoop
      simp only
      rw [hb]
      have hsub : m + (cur + 1) * p - (m + cur * p) = p := by omega
      rw [hsub, hin]
      simp only
      have hc : m + cur * p + p = m + (cur + 1) * p := by omega
      rw [hc, hloop, hidx]
    · intro j
      rw [hpt j, hpt1 j]
      cases hnj : nodes[j]? with
      | none => simp
      | some nd =>
        simp only [Option.map_some']
        congr 1
        rw [hidx]
        by_cases hA : m + cur * p ≤ j ∧ j < m + cur * p + p
        · have hB : ¬ (m + (cur + 1) * p ≤ j ∧ j < m + (cur + (k + 1)) * p) := by omega
          have hC : m + cur * p ≤ j ∧ j < m + (cur + (k + 1)) * p := by omega
          rw [if_pos hA, if_neg hB, if_pos hC, div_eq_of_range j m p cur hp hA.1 (by omega)]
        · rw [if_neg hA]
          by_cases hB : m + (cur + 1) * p ≤ j ∧ j < m + (cur + (k + 1)) * p
          · have hC : m + cur * p ≤ j ∧ j < m + (cur + (k + 1)) * p := by omega
            rw [if_pos hB, if_pos hC]
          · have hC : ¬ (m + cur * p ≤ j ∧ j < m + (cur + (k + 1)) * p) := by omega
            rw [if_neg hB, if_neg hC]

/-- The outer loop on a fully decoded list of fewer than 2^31 records panics
when the shards to fill do not fit the list. -/
theorem shardOuterLoop_none (m p k : Nat) :
    ∀ (cur : Nat) (nodes : List InitialNode), AllKeys nodes → 1 ≤ p → p < 2147483648 →
      m + cur * p ≤ nodes.length → nodes.length < 2147483648 → cur + k < 4294967296 →
      nodes.length < m + (cur + k) * p →
      shardOuterLoop m p k cur nodes (m + cur * p) = none := by
  induction k with
  | zero =>
    intro cur nodes _ _ _ h1 _ _ h2
    simp only [Nat.add_zero] at h2
    omega
  | succ k ih =>
    intro cur nodes hk hp hp2 hc hlt hck hbig
    have hexp : (cur + 1) * p = cur * p + p := by ring
    have hb : (m + ((cur + 1) % 4294967296 * p) % 4294967296) % 4294967296 =
        m + (cur + 1) * p := by
      rw [Nat.mod_eq_of_lt (by omega : cur + 1 < 4294967296),
        Nat.mod_eq_of_lt (by omega : (cur + 1) * p < 4294967296),
        Nat.mod_eq_of_lt (by omega)]
    have hsub : m + (cur + 1) * p - (m + cur * p) = p := by omega
    unfold shardOuterLoop
    simp only
    rw [hb, hsub]
    by_cases hfit : m + cur * p + p ≤ nodes.length
    · obtain ⟨nodes1, hin, -⟩ := shardInnerLoop_spec cur p (m + cur * p) nodes (m + cur * p) hk
        hfit (by omega)
      have hdec := shardInnerLoop_decoded _ _ _ _ _ _ hin
      simp only at hdec
      have hk1 : AllKeys nodes1 := allKeys_of_map_decoded _ _ hdec hk
      have hl1 : nodes1.length = nodes.length := length_of_map_decoded _ _ hdec
      have hidx : cur + 1 + k = cur + (k + 1) := by omega
      rw [hin]
      simp only
      have hc' : m + cur * p + p = m + (cur + 1) * p := by omega
      rw [hc']
      exact ih (cur + 1) nodes1 hk1 hp hp2 (by rw [hl1]; omega) (by rw [hl1]; exact hlt)
        (by omega) (by rw [hl1, hidx]; exact hbig)
    · rw [shardInnerLoop_none cur p (m + cur * p) nodes (m + cur * p) hc (by omega)]

theorem roundRobin_succ (n : Nat) (t : Nat) :
    ∀ cur, roundRobin n cur (t + 1) = nextShard n (roundRobin n cur t) := by
  induction t with
  | zero => intro cur; rfl
  | succ t ih =>
    intro cur
    show roundRobin n (nextShard n cur) (t + 1) = nextShard n (roundRobin n (nextShard n cur) t)
    exact ih _

/-- The loop's round robin is the spec's: after the `(k + 1)`-th update from
the initial `currentShard = 0` the value is `(k + 1) mod (nrOfShards + 1)`
with `nrOfShards` replaced by the metachain id. -/
theorem roundRobin_eq_waitingShard (n : Nat) (hn : n + 1 < 4294967296) (k : Nat) :
    roundRobin n 0 (k + 1) = waitingShard n k := by
  induction k with
  | zero =>
    show nextShard n 0 = waitingShard n 0
    unfold nextShard waitingShard
    simp only [Nat.zero_add]
    rw [Nat.mod_eq_of_lt (by omega : 1 < 4294967296), Nat.mod_eq_of_lt hn]
  | succ k ih =>
    rw [roundRobin_succ, ih]
    have hr : (k + 1) % (n + 1) < n + 1 := Nat.mod_lt _ (by omega)
    have hstep : (k + 1 + 1) % (n + 1) = ((k + 1) % (n + 1) + 1) % (n + 1) := by
      rw [Nat.add_mod (k + 1) 1 (n + 1), Nat.add_mod ((k + 1) % (n + 1)) 1 (n + 1),
        Nat.mod_mod]
    unfold waitingShard
    rw [hstep]
    by_cases hrn : (k + 1) % (n + 1) = n
    · rw [if_pos hrn, hrn, Nat.mod_self]
      unfold nextShard MetachainShardId
      simp only
      rw [Nat.mod_eq_of_lt hn]
      have : (4294967295 + 1) % 4294967296 = 0 := by norm_num
      rw [this, Nat.zero_mod]
    · rw [if_neg hrn]
      have hlt : (k + 1) % (n + 1) + 1 < n + 1 := by omega
      rw [Nat.mod_eq_of_lt hlt]
      unfold nextShard
      simp only
      rw [Nat.mod_eq_of_lt hn, Nat.mod_eq_of_lt (by omega : (k + 1) % (n + 1) + 1 < 4294967296),
        Nat.mod_eq_of_lt hlt]

/-- The waiting-list loop on a fully decoded list: the records at positions
`i, i + 1, ..., i + k - 1` receive the successive round-robin values and the
flag `false`; the others are untouched. -/
theorem waitingLoop_spec (n k : Nat) :
    ∀ (i cur : Nat) (nodes : List InitialNode), AllKeys nodes → i + k ≤ nodes.length →
      (n + 1) % 4294967296 ≠ 0 →
      ∃ nodes', waitingLoop n k i cur nodes = some nodes' ∧
        ∀ j, nodes'[j]? = (nodes[j]?).map
          (fun nd => if i ≤ j ∧ j < i + k then nd.assign (roundRobin n cur (j - i + 1)) false
            else nd) := by
  induction k with
  | zero =>
    intro i cur nodes _ _ _
    refine ⟨nodes, by simp [waitingLoop], ?_⟩
    intro j
    have : ¬ (i ≤ j ∧ j < i + 0) := by omega
    simp only [if_neg this]
    exact Option.map_id'.symm
  | succ k ih =>
    intro i cur nodes hk hlen hmod
    have hid : i < nodes.length := by omega
    have hget : nodes[i]? = some nodes[i] := List.getElem?_eq_getElem hid
    have hkey : (nodes[i]).pubKey.isSome = true := hk _ (List.getElem_mem hid)
    have hk' : AllKeys (nodes.set i ((nodes[i]).assign (nextShard n cur) false)) :=
      allKeys_of_map_decoded _ _ (map_decoded_set _ _ _ _ _ hget) hk
    obtain ⟨nodes', hloop, hpt⟩ := ih (i + 1) (nextShard n cur)
      (nodes.set i ((nodes[i]).assign (nextShard n cur) false)) hk'
      (by simp only [List.length_set]; omega) hmod
    refine ⟨nodes', ?_, ?_⟩
    · unfold waitingLoop
      rw [if_neg hmod, hget]
      simp only [hkey, if_true]
      exact hloop
    · intro j
      rw [hpt j, List.getElem?_set]
      by_cases hj : i = j
      · subst hj
        have h1 : ¬ (i + 1 ≤ i ∧ i < i + 1 + k) := by omega
        have h2 : i ≤ i ∧ i < i + (k + 1) := by omega
        simp [hid, hget, h1, h2, roundRobin]
      · rw [if_neg hj]
        cases hnj : nodes[j]? with
        | none => simp
        | some nd =>
          simp only [Option.map_some']
          congr 1
          by_cases hA : i + 1 ≤ j ∧ j < i + 1 + k
          · have hB : i ≤ j ∧ j < i + (k + 1) := by omega
            have hsub : j - i + 1 = (j - (i + 1) + 1) + 1 := by omega
            rw [if_pos hA, if_pos hB, hsub]
            rfl
          · have hB : ¬ (i ≤ j ∧ j < i + (k + 1)) := by omega
            rw [if_neg hA, if_neg hB]

/-! ## A successful run on fully decoded records -/

/-- The course of a successful run all of whose records decode to non-nil
bytes: the validated parameters, the metachain pass over the first
`metaChainMinNodes` records, the shard count of line 180 and the two loops of
`processShardAssignment`. -/
theorem run_facts (cfg : GenesisConfig) (a v : PubkeyConverter) (ns : NodesSetup)
    (hlen : cfg.InitialNodes.length < 4294967296)
    (h : NewNodesSetup cfg (some a) (some v) = .ok ns) (hdec : AllDecoded ns) :
    ∃ nodes nodes2 nodes3 c,
      AllKeys nodes ∧ nodes.length = cfg.InitialNodes.length ∧
      AllKeys nodes2 ∧ nodes2.length = cfg.InitialNodes.length ∧
      (1 ≤ cfg.MinNodesPerShard ∧ cfg.MinNodesPerShard ≤ cfg.InitialNodes.length ∧
        1 ≤ cfg.MetaChainMinNodes ∧ cfg.MetaChainMinNodes ≤ cfg.InitialNodes.length) ∧
      (∀ j, nodes2[j]? = (nodes[j]?).map
        (fun nd => if 0 ≤ j ∧ j < 0 + cfg.MetaChainMinNodes
          then nd.assign MetachainShardId true else nd)) ∧
      (cfg.MinNodesPerShard + cfg.Hysteresis.scale cfg.MinNodesPerShard % 4294967296) %
        4294967296 ≠ 0 ∧
      ns.nrOfShards =
        (((cfg.InitialNodes.length + 4294967296 - cfg.MetaChainMinNodes) % 4294967296 +
            4294967296 - cfg.Hysteresis.scale cfg.MetaChainMinNodes % 4294967296) % 4294967296) /
          ((cfg.MinNodesPerShard + cfg.Hysteresis.scale cfg.MinNodesPerShard % 4294967296) %
            4294967296) ∧
      shardOuterLoop cfg.MetaChainMinNodes cfg.MinNodesPerShard ns.nrOfShards 0 nodes2
        cfg.MetaChainMinNodes = some (nodes3, c) ∧
      waitingLoop ns.nrOfShards (cfg.InitialNodes.length - c) c 0 nodes3 = some ns.InitialNodes ∧
      ns.MetaChainMinNodes = cfg.MetaChainMinNodes ∧
      ns.MinNodesPerShard = cfg.MinNodesPerShard ∧
      ns.Hysteresis = cfg.Hysteresis ∧
      ns.nrOfMetaChainNodes = cfg.MetaChainMinNodes := by
  obtain ⟨ns1, ns2, ns3, h1, h2, h3, rfl⟩ := NewNodesSetup_ok cfg a v ns h
  obtain ⟨nodes, n, hd, rfl, hchk⟩ := processConfig_ok _ _ h1
  obtain ⟨nodes2, cnt, hm, hden, rfl⟩ := processMetaChainAssigment_some _ _ h2
  obtain ⟨nodes3, c, nodes4, ho, hw, rfl⟩ := processShardAssignment_some _ _ h3
  have hl : (loaded cfg a v).InitialNodes.length < 4294967296 := by
    simpa [loaded] using hlen
  obtain ⟨hnl, hn⟩ := decodeNodes_count _ _ _ _ _ hd hl
  have hlen0 : (loaded cfg a v).InitialNodes.length = cfg.InitialNodes.length := by
    simp [loaded]
  rw [hlen0] at hnl hn
  subst hn
  have hc := checkSizes_ok _ hchk
  simp only [loaded] at hc hm hden ho hw
  have d2 := metaChainLoop_decoded _ _ _ _ _ hm
  have d3 := shardOuterLoop_decoded _ _ _ _ _ _ _ ho
  have d4 := waitingLoop_decoded _ _ _ _ _ _ hw
  simp only at d2 d3 d4
  have hk4 : AllKeys nodes4 := fun nd hnd => (hdec nd hnd).1
  have hk : AllKeys nodes :=
    allKeys_of_map_decoded nodes4 nodes (d4.trans (d3.trans d2)).symm hk4
  have hmeta : cfg.MetaChainMinNodes ≤ nodes.length := by
    by_contra hcon
    rw [metaChainLoop_eq, shardInnerLoop_none MetachainShardId cfg.MetaChainMinNodes 0 nodes 0
      (by omega) (by omega)] at hm
    cases hm
  obtain ⟨nodes2', hm', hpt⟩ := shardInnerLoop_spec MetachainShardId cfg.MetaChainMinNodes 0
    nodes 0 hk (by omega) (by omega)
  rw [metaChainLoop_eq, hm'] at hm
  simp only [Nat.zero_add, Option.some.injEq, Prod.mk.injEq] at hm
  obtain ⟨rfl, rfl⟩ := hm
  refine ⟨nodes, nodes2', nodes3, c, hk, hnl, allKeys_of_map_decoded _ _ d2 hk,
    (length_of_map_decoded _ _ d2).trans hnl, ⟨by omega, by omega, by omega, by omega⟩, hpt, hden,
    rfl, ho, hw, rfl, rfl, rfl, rfl⟩

/-- On a successful run over fewer than 2^31 records, all decoding to non-nil
bytes, the shards to fill fit the list: no bound of the outer loop wraps and
metaChainMinNodes + nrOfShards * minNodesPerShard is at most the record
count. -/
theorem fit_of_small (cfg : GenesisConfig) (a v : PubkeyConverter) (ns : NodesSetup)
    (hlen : cfg.InitialNodes.length < 2147483648)
    (h : NewNodesSetup cfg (some a) (some v) = .ok ns) (hdec : AllDecoded ns) :
    cfg.MetaChainMinNodes + ns.nrOfShards * cfg.MinNodesPerShard ≤ cfg.InitialNodes.length := by
  obtain ⟨nodes, nodes2, nodes3, c, -, -, hk2, hl2, ⟨hp1, hp2, -, hm2⟩, -, hden, hK, ho, -⟩ :=
    run_facts cfg a v ns (by omega) h hdec
  by_contra hcon
  have hKlt : ns.nrOfShards < 4294967296 := by
    rw [hK]
    exact lt_of_le_of_lt (Nat.div_le_self _ _) (Nat.mod_lt _ (by norm_num))
  have hnone := shardOuterLoop_none cfg.MetaChainMinNodes cfg.MinNodesPerShard ns.nrOfShards 0
    nodes2 hk2 hp1 (by omega) (by rw [hl2]; omega) (by rw [hl2]; exact hlen) (by omega)
    (by rw [hl2]; simp only [Nat.zero_add]; omega)
  simp only [Nat.zero_mul, Nat.add_zero] at hnone
  rw [hnone] at ho
  cases ho

/-- With hysteresis 0 a successful run on records that all decode to non-nil
bytes has nrOfShards = (count - metaChainMinNodes) / minNodesPerShard, and the
shards to fill fit the list. -/
theorem fit_of_hysteresis_zero (cfg : GenesisConfig) (a v : PubkeyConverter) (ns : NodesSetup)
    (hlen : cfg.InitialNodes.length < 4294967296)
    (h : NewNodesSetup cfg (some a) (some v) = .ok ns) (hdec : AllDecoded ns)
    (hz : cfg.Hysteresis = Float32Factor.zero) :
    ns.nrOfShards = (cfg.InitialNodes.length - cfg.MetaChainMinNodes) / cfg.MinNodesPerShard ∧
    cfg.MetaChainMinNodes + ns.nrOfShards * cfg.MinNodesPerShard ≤ cfg.InitialNodes.length := by
  obtain ⟨nodes, nodes2, nodes3, c, -, -, hk2, hl2, ⟨hp1, hp2, -, hm2⟩, -, hden, hK, -⟩ :=
    run_facts cfg a v ns hlen h hdec
  have hKeq : ns.nrOfShards =
      (cfg.InitialNodes.length - cfg.MetaChainMinNodes) / cfg.MinNodesPerShard := by
    rw [hK, hz]
    simp only [Float32Factor.zero, Nat.zero_mod, Nat.add_zero, Nat.sub_zero]
    have e1 : (cfg.InitialNodes.length + 4294967296 - cfg.MetaChainMinNodes) % 4294967296 =
        cfg.InitialNodes.length - cfg.MetaChainMinNodes := by omega
    have e2 : (cfg.InitialNodes.length - cfg.MetaChainMinNodes + 4294967296) % 4294967296 =
        cfg.InitialNodes.length - cfg.MetaChainMinNodes := by omega
    rw [e1, e2, Nat.mod_eq_of_lt (by omega : cfg.MinNodesPerShard < 4294967296)]
  refine ⟨hKeq, ?_⟩
  rw [hKeq]
  have := Nat.div_mul_le_self (cfg.InitialNodes.length - cfg.MetaChainMinNodes)
    cfg.MinNodesPerShard
  omega

/-- The assignment a successful run leaves on records that all decode to
non-nil bytes, when the shards to fill fit the list: the first
metaChainMinNodes records are eligible for the metachain, the next
nrOfShards * minNodesPerShard are eligible for the regular shards in blocks of
minNodesPerShard, and the rest wait, distributed round robin. -/
theorem assignment_shape (cfg : GenesisConfig) (a v : PubkeyConverter) (ns : NodesSetup)
    (hlen : cfg.InitialNodes.length < 4294967296)
    (h : NewNodesSetup cfg (some a) (some v) = .ok ns) (hdec : AllDecoded ns)
    (hfit : cfg.MetaChainMinNodes + ns.nrOfShards * cfg.MinNodesPerShard ≤
      cfg.InitialNodes.length) :
    ns.InitialNodes.length = cfg.InitialNodes.length ∧
    ∀ (j : Nat) (nd : InitialNode), ns.InitialNodes[j]? = some nd →
      (j < cfg.MetaChainMinNodes → nd.assignedShard = MetachainShardId ∧ nd.eligible = true) ∧
      (cfg.MetaChainMinNodes ≤ j →
        j < cfg.MetaChainMinNodes + ns.nrOfShards * cfg.MinNodesPerShard →
        nd.assignedShard = (j - cfg.MetaChainMinNodes) / cfg.MinNodesPerShard ∧
        nd.eligible = true) ∧
      (cfg.MetaChainMinNodes + ns.nrOfShards * cfg.MinNodesPerShard ≤ j →
        nd.assignedShard = waitingShard ns.nrOfShards
          (j - (cfg.MetaChainMinNodes + ns.nrOfShards * cfg.MinNodesPerShard)) ∧
        nd.eligible = false) := by
  obtain ⟨nodes, nodes2, nodes3, c, hk, hl, hk2, hl2, ⟨hp1, hp2, hm1, hm2⟩, hpt2, hden, hK, ho, hw,
    -⟩ := run_facts cfg a v ns hlen h hdec
  have hKmul : ns.nrOfShards ≤ ns.nrOfShards * cfg.MinNodesPerShard :=
    Nat.le_mul_of_pos_right _ hp1
  obtain ⟨nodes3', ho', hpt3⟩ := shardOuterLoop_spec cfg.MetaChainMinNodes cfg.MinNodesPerShard
    ns.nrOfShards 0 nodes2 hk2 hp1 (by rw [hl2]; simp only [Nat.zero_add]; exact hfit)
    (by rw [hl2]; exact hlen)
  simp only [Nat.zero_mul, Nat.add_zero, Nat.zero_add] at ho' hpt3
  rw [ho'] at ho
  simp only [Option.some.injEq, Prod.mk.injEq] at ho
  obtain ⟨rfl, rfl⟩ := ho
  have hdec3 := shardOuterLoop_decoded _ _ _ _ _ _ _ ho'
  simp only at hdec3
  have hk3 : AllKeys nodes3' := allKeys_of_map_decoded _ _ hdec3 hk2
  have hl3 : nodes3'.length = cfg.InitialNodes.length :=
    (length_of_map_decoded _ _ hdec3).trans hl2
  obtain ⟨nodes4, hw', hpt4⟩ := waitingLoop_spec ns.nrOfShards
    (cfg.InitialNodes.length - (cfg.MetaChainMinNodes + ns.nrOfShards * cfg.MinNodesPerShard))
    (cfg.MetaChainMinNodes + ns.nrOfShards * cfg.MinNodesPerShard) 0 nodes3' hk3
    (by rw [hl3]; omega) (by omega)
  rw [hw'] at hw
  simp only [Option.some.injEq] at hw
  have hl4 : ns.InitialNodes.length = cfg.InitialNodes.length := by
    rw [← hw]
    have := waitingLoop_decoded _ _ _ _ _ _ hw'
    exact (length_of_map_decoded _ _ this).trans hl3
  refine ⟨hl4, ?_⟩
  intro j nd hj
  rw [← hw, hpt4 j, hpt3 j, hpt2 j] at hj
  cases hnj : nodes[j]? with
  | none => rw [hnj] at hj; simp at hj
  | some x =>
    rw [hnj] at hj
    simp only [Option.map_some', Option.some.injEq] at hj
    have hjl : j < cfg.InitialNodes.length := by
      obtain ⟨hlt, -⟩ := List.getElem?_eq_some.mp hnj
      omega
    refine ⟨?_, ?_, ?_⟩
    · intro h1
      have c1 : 0 ≤ j ∧ j < 0 + cfg.MetaChainMinNodes := by omega
      have c2 : ¬ (cfg.MetaChainMinNodes ≤ j ∧
          j < cfg.MetaChainMinNodes + ns.nrOfShards * cfg.MinNodesPerShard) := by omega
      have c3 : ¬ (cfg.MetaChainMinNodes + ns.nrOfShards * cfg.MinNodesPerShard ≤ j ∧
          j < cfg.MetaChainMinNodes + ns.nrOfShards * cfg.MinNodesPerShard +
            (cfg.InitialNodes.length -
              (cfg.MetaChainMinNodes + ns.nrOfShards * cfg.MinNodesPerShard))) := by omega
      rw [if_pos c1, if_neg c2, if_neg c3] at hj
      rw [← hj]
      exact ⟨rfl, rfl⟩
    · intro h1 h2
      have c1 : ¬ (0 ≤ j ∧ j < 0 + cfg.MetaChainMinNodes) := by omega
      have c2 : cfg.MetaChainMinNodes ≤ j ∧
          j < cfg.MetaChainMinNodes + ns.nrOfShards * cfg.MinNodesPerShard := ⟨h1, h2⟩
      have c3 : ¬ (cfg.MetaChainMinNodes + ns.nrOfShards * cfg.MinNodesPerShard ≤ j ∧
          j < cfg.MetaChainMinNodes + ns.nrOfShards * cfg.MinNodesPerShard +
            (cfg.InitialNodes.length -
              (cfg.MetaChainMinNodes + ns.nrOfShards * cfg.MinNodesPerShard))) := by omega
      rw [if_neg c1, if_pos c2, if_neg c3] at hj
      rw [← hj]
      exact ⟨rfl, rfl⟩
    · intro h1
      have c1 : ¬ (0 ≤ j ∧ j < 0 + cfg.MetaChainMinNodes) := by omega
      have c2 : ¬ (cfg.MetaChainMinNodes ≤ j ∧
          j < cfg.MetaChainMinNodes + ns.nrOfShards * cfg.MinNodesPerShard) := by omega
      have c3 : cfg.MetaChainMinNodes + ns.nrOfShards * cfg.MinNodesPerShard ≤ j ∧
          j < cfg.MetaChainMinNodes + ns.nrOfShards * cfg.MinNodesPerShard +
            (cfg.InitialNodes.length -
              (cfg.MetaChainMinNodes + ns.nrOfShards * cfg.MinNodesPerShard)) := by omega
      rw [if_neg c1, if_neg c2, if_pos c3] at hj
      rw [← hj]
      refine ⟨?_, rfl⟩
      show roundRobin ns.nrOfShards 0 _ = _
      exact roundRobin_eq_waitingShard ns.nrOfShards (by omega) _

/-! ## Buckets of a successful run -/

theorem filter_eq_drop_take {α : Type} (p : α → Bool) (l : List α) :
    ∀ (a n : Nat), (∀ (j : Nat) (x : α), l[j]? = some x → (p x = true ↔ a ≤ j ∧ j < a + n)) →
      l.filter p = (l.drop a).take n := by
  induction l with
  | nil => intro a n _; simp
  | cons x rest ih =>
    intro a n hp
    cases a with
    | zero =>
      cases n with
      | zero =>
        simp only [List.drop_zero, List.take_zero, List.filter_eq_nil_iff]
        intro y hy
        obtain ⟨j, hj⟩ := List.mem_iff_getElem?.mp hy
        have := (hp j y hj).not
        simp only [Nat.add_zero] at this
        exact this.mpr (by omega)
      | succ n =>
        have hx : p x = true := (hp 0 x (by simp)).mpr (by omega)
        rw [List.filter_cons, if_pos hx, List.drop_zero, List.take_succ_cons]
        congr 1
        have := ih 0 n (fun j y hj => by
          have := hp (j + 1) y (by simpa using hj)
          rw [this]; omega)
        simpa using this
    | succ a =>
      have hx : ¬ (p x = true) := fun hpx => by
        have := (hp 0 x (by simp)).mp hpx
        omega
      rw [List.filter_cons, if_neg hx, List.drop_succ_cons]
      exact ih a n (fun j y hj => by
        have := hp (j + 1) y (by simpa using hj)
        rw [this]; omega)

theorem bucketOf_eq_drop_take (el : Bool) (s : Nat) (nodes : List InitialNode) (a n : Nat)
    (hall : ∀ nd ∈ nodes, nd.pubKey.isSome = true ∧ nd.address.isSome = true)
    (hp : ∀ (j : Nat) (nd : InitialNode), nodes[j]? = some nd →
      ((nd.eligible = el ∧ nd.assignedShard = s) ↔ a ≤ j ∧ j < a + n)) :
    bucketOf el s nodes = ((nodes.drop a).take n).map InitialNode.tonodeInfo := by
  unfold bucketOf
  congr 1
  apply filter_eq_drop_take
  intro j nd hj
  have hd := hall nd (List.mem_iff_getElem?.mpr ⟨j, hj⟩)
  rw [← hp j nd hj]
  simp [hd.1, hd.2]

/-- The bucket read from a table of a returned instance is the list of
records filed under it, `nil` when there is none. -/
theorem instance_lookup (cfg : GenesisConfig) (a v : PubkeyConverter) (ns : NodesSetup)
    (h : NewNodesSetup cfg (some a) (some v) = .ok ns) (el : Bool) (s : Nat) :
    (tableOf ns el).lookup s =
      if bucketOf el s ns.InitialNodes = [] then none else some (bucketOf el s ns.InitialNodes) := by
  obtain ⟨ns1, ns2, ns3, -, -, -, heq⟩ := NewNodesSetup_ok cfg a v ns h
  rw [heq]
  exact createInitialNodesInfo_lookup ns3 el s

/-- The eligible buckets of a successful run on records that all decode to
non-nil bytes, when the shards to fill fit the list: the metachain bucket is
the first metaChainMinNodes records and the bucket of a regular shard `s` is
the block of minNodesPerShard records starting at metaChainMinNodes + s *
minNodesPerShard. -/
theorem eligible_buckets (cfg : GenesisConfig) (a v : PubkeyConverter) (ns : NodesSetup)
    (hlen : cfg.InitialNodes.length < 4294967296)
    (h : NewNodesSetup cfg (some a) (some v) = .ok ns) (hdec : AllDecoded ns)
    (hfit : cfg.MetaChainMinNodes + ns.nrOfShards * cfg.MinNodesPerShard ≤
      cfg.InitialNodes.length) :
    ns.eligible.lookup MetachainShardId =
      some ((ns.InitialNodes.take cfg.MetaChainMinNodes).map InitialNode.tonodeInfo) ∧
    ∀ s, s < ns.nrOfShards → ns.eligible.lookup s =
      some (((ns.InitialNodes.drop (cfg.MetaChainMinNodes + s * cfg.MinNodesPerShard)).take
        cfg.MinNodesPerShard).map InitialNode.tonodeInfo) := by
  obtain ⟨-, -, -, -, -, -, -, -, ⟨hp1, hp2, hm1, hm2⟩, -⟩ := run_facts cfg a v ns hlen h hdec
  obtain ⟨hl, hshape⟩ := assignment_shape cfg a v ns hlen h hdec hfit
  have hKmul : ns.nrOfShards ≤ ns.nrOfShards * cfg.MinNodesPerShard :=
    Nat.le_mul_of_pos_right _ hp1
  have hlook := instance_lookup cfg a v ns h true
  simp only [tableOf, if_true] at hlook
  refine ⟨?_, ?_⟩
  · have hb : bucketOf true MetachainShardId ns.InitialNodes =
        ((ns.InitialNodes.drop 0).take cfg.MetaChainMinNodes).map InitialNode.tonodeInfo := by
      apply bucketOf_eq_drop_take _ _ _ _ _ hdec
      intro j nd hj
      obtain ⟨s1, s2, s3⟩ := hshape j nd hj
      by_cases c1 : j < cfg.MetaChainMinNodes
      · obtain ⟨e1, e2⟩ := s1 c1
        constructor
        · intro _; omega
        · intro _; exact ⟨e2, e1⟩
      · by_cases c2 : j < cfg.MetaChainMinNodes + ns.nrOfShards * cfg.MinNodesPerShard
        · obtain ⟨e1, e2⟩ := s2 (by omega) c2
          have hdiv : (j - cfg.MetaChainMinNodes) / cfg.MinNodesPerShard < ns.nrOfShards :=
            (Nat.div_lt_iff_lt_mul hp1).mpr (by omega)
          constructor
          · rintro ⟨-, e3⟩
            rw [e1] at e3
            unfold MetachainShardId at e3
            omega
          · intro hc; omega
        · obtain ⟨e1, e2⟩ := s3 (by omega)
          constructor
          · rintro ⟨e3, -⟩
            rw [e2] at e3
            cases e3
          · intro hc; omega
    rw [List.drop_zero] at hb
    rw [hlook, hb, if_neg]
    intro hnil
    have := congrArg List.length hnil
    simp only [List.length_map, List.length_take, List.length_nil] at this
    omega
  · intro s hs
    have hs1 : (s + 1) * cfg.MinNodesPerShard ≤ ns.nrOfShards * cfg.MinNodesPerShard :=
      Nat.mul_le_mul_right _ hs
    have hexp : (s + 1) * cfg.MinNodesPerShard = s * cfg.MinNodesPerShard + cfg.MinNodesPerShard := by
      ring
    have hb : bucketOf true s ns.InitialNodes =
        ((ns.InitialNodes.drop (cfg.MetaChainMinNodes + s * cfg.MinNodesPerShard)).take
          cfg.MinNodesPerShard).map InitialNode.tonodeInfo := by
      apply bucketOf_eq_drop_take _ _ _ _ _ hdec
      intro j nd hj
      obtain ⟨s1, s2, s3⟩ := hshape j nd hj
      by_cases c1 : j < cfg.MetaChainMinNodes
      · obtain ⟨e1, e2⟩ := s1 c1
        constructor
        · rintro ⟨-, e3⟩
          rw [e1] at e3
          unfold MetachainShardId at e3
          omega
        · intro hc; omega
      · by_cases c2 : j < cfg.MetaChainMinNodes + ns.nrOfShards * cfg.MinNodesPerShard
        · obtain ⟨e1, e2⟩ := s2 (by omega) c2
          constructor
          · rintro ⟨-, e3⟩
            rw [e1] at e3
            have h1 : s ≤ (j - cfg.MetaChainMinNodes) / cfg.MinNodesPerShard := by omega
            have h2 : (j - cfg.MetaChainMinNodes) / cfg.MinNodesPerShard < s + 1 := by omega
            have h3 := (Nat.le_div_iff_mul_le hp1).mp h1
            have h4 := (Nat.div_lt_iff_lt_mul hp1).mp h2
            omega
          · intro hc
            refine ⟨e2, ?_⟩
            rw [e1]
            exact div_eq_of_range j cfg.MetaChainMinNodes cfg.MinNodesPerShard s hp1 hc.1
              (by omega)
        · obtain ⟨e1, e2⟩ := s3 (by omega)
          constructor
          · rintro ⟨e3, -⟩
            rw [e2] at e3
            cases e3
          · intro hc; omega
    rw [hlook, hb, if_neg]
    intro hnil
    have := congrArg List.length hnil
    simp only [List.length_map, List.length_take, List.length_drop, List.length_nil] at this
    omega

/-! ## FIFO committees and round-robin waiting lists -/

/-- Eligible buckets below 2^31 records, where no loop bound of
`processShardAssignment` wraps: for every successfully constructed instance
in which all records decode to non-nil bytes, the instance lists the records of
the file in order, the blocks fit the list, the metachain's eligible bucket is
exactly the validators at indices [0, metaChainMinNodes), and for every regular
shard s < NumberOfShards() the eligible bucket of s is exactly the validators
at indices [metaChainMinNodes + s * minNodesPerShard, metaChainMinNodes +
(s + 1) * minNodesPerShard), in list order. -/
theorem eligible_fifo (cfg : GenesisConfig) (a v : PubkeyConverter) (ns : NodesSetup)
    (hlen : cfg.InitialNodes.length < 2147483648)
    (h : NewNodesSetup cfg (some a) (some v) = .ok ns) (hdec : AllDecoded ns) :
    ns.InitialNodes.map InitialNode.raw = cfg.InitialNodes ∧
    ns.MetaChainMinNodes + NumberOfShards ns * ns.MinNodesPerShard ≤ ns.InitialNodes.length ∧
    ns.eligible.lookup MetachainShardId =
      some ((ns.InitialNodes.take ns.MetaChainMinNodes).map InitialNode.tonodeInfo) ∧
    ∀ s, s < NumberOfShards ns → ns.eligible.lookup s =
      some (((ns.InitialNodes.drop (ns.MetaChainMinNodes + s * ns.MinNodesPerShard)).take
        ns.MinNodesPerShard).map InitialNode.tonodeInfo) := by
  have hlen' : cfg.InitialNodes.length < 4294967296 := by omega
  have hfit := fit_of_small cfg a v ns hlen h hdec
  obtain ⟨-, -, -, -, -, -, -, -, -, -, -, -, -, -, e1, e2, -⟩ := run_facts cfg a v ns hlen' h hdec
  obtain ⟨hl, -⟩ := assignment_shape cfg a v ns hlen' h hdec hfit
  obtain ⟨hb1, hb2⟩ := eligible_buckets cfg a v ns hlen' h hdec hfit
  unfold NumberOfShards
  rw [e1, e2, hl]
  exact ⟨(instance_records cfg a v ns hlen' h).1, hfit, hb1, hb2⟩

/-- Scenario A under `eligible_fifo`. Seven records, metachain bucket = record 0,
shard 0 = records 1, 2, shard 1 = records 3, 4, shard 2 = records 5, 6 (a
record is shown by its key byte, its position plus one), no waiting bucket. -/
theorem eligible_fifo_witness :
    scenarioA.InitialNodes.length < 2147483648 ∧
    NewNodesSetup scenarioA (some lengthConverter) (some lengthConverter) =
      .ok (instanceOf scenarioA lengthConverter lengthConverter) ∧
    AllDecoded (instanceOf scenarioA lengthConverter lengthConverter) ∧
    (instanceOf scenarioA lengthConverter lengthConverter).eligible.lookup MetachainShardId =
      some (((instanceOf scenarioA lengthConverter lengthConverter).InitialNodes.take
        (instanceOf scenarioA lengthConverter lengthConverter).MetaChainMinNodes).map
          InitialNode.tonodeInfo) ∧
    (NumberOfShards (instanceOf scenarioA lengthConverter lengthConverter),
      (instanceOf scenarioA lengthConverter lengthConverter).eligible.map
        (fun p => (p.1, (p.2.getD []).map (fun x => x.pubKey))),
      (instanceOf scenarioA lengthConverter lengthConverter).waiting.map (fun p => p.1)) =
      (3, [(4294967295, [some [1]]), (0, [some [2], some [3]]), (1, [some [4], some [5]]),
        (2, [some [6], some [7]])], []) :=
  ⟨by decide, rfl, by decide,
   (eligible_fifo scenarioA lengthConverter lengthConverter
      (instanceOf scenarioA lengthConverter lengthConverter) (by decide) rfl (by decide)).2.2.1,
   by rfl⟩

/-- C5: for every successfully constructed instance with hysteresis 0 in which
all records decode to non-nil bytes, the eligible bucket of every regular
shard s < NumberOfShards() has exactly minNodesPerShard members. -/
theorem eligible_bucket_size (cfg : GenesisConfig) (a v : PubkeyConverter) (ns : NodesSetup)
    (hlen : cfg.InitialNodes.length < 4294967296)
    (h : NewNodesSetup cfg (some a) (some v) = .ok ns) (hdec : AllDecoded ns)
    (hz : cfg.Hysteresis = Float32Factor.zero) :
    ∀ s, s < NumberOfShards ns → (ns.eligible.lookup s).len = ns.MinNodesPerShard := by
  obtain ⟨-, hfit⟩ := fit_of_hysteresis_zero cfg a v ns hlen h hdec hz
  obtain ⟨-, -, -, -, -, -, -, -, ⟨hp1, -⟩, -, -, -, -, -, e1, e2, -⟩ :=
    run_facts cfg a v ns hlen h hdec
  obtain ⟨hl, -⟩ := assignment_shape cfg a v ns hlen h hdec hfit
  obtain ⟨-, hb2⟩ := eligible_buckets cfg a v ns hlen h hdec hfit
  intro s hs
  unfold NumberOfShards at hs
  have hs1 : (s + 1) * cfg.MinNodesPerShard ≤ ns.nrOfShards * cfg.MinNodesPerShard :=
    Nat.mul_le_mul_right _ hs
  have hexp : (s + 1) * cfg.MinNodesPerShard = s * cfg.MinNodesPerShard + cfg.MinNodesPerShard := by
    ring
  rw [hb2 s hs, e2]
  simp only [NodeSlice.len, Option.getD_some, List.length_map, List.length_take,
    List.length_drop, hl]
  omega

/-- C5 (witness): the three regular shards of scenario A hold two records
each. -/
theorem eligible_bucket_size_witness :
    scenarioA.InitialNodes.length < 4294967296 ∧
    NewNodesSetup scenarioA (some lengthConverter) (some lengthConverter) =
      .ok (instanceOf scenarioA lengthConverter lengthConverter) ∧
    AllDecoded (instanceOf scenarioA lengthConverter lengthConverter) ∧
    scenarioA.Hysteresis = Float32Factor.zero ∧
    2 < NumberOfShards (instanceOf scenarioA lengthConverter lengthConverter) ∧
    ((instanceOf scenarioA lengthConverter lengthConverter).eligible.lookup 2).len =
      (instanceOf scenarioA lengthConverter lengthConverter).MinNodesPerShard :=
  ⟨by decide, rfl, by decide, rfl, by decide,
   eligible_bucket_size scenarioA lengthConverter lengthConverter
      (instanceOf scenarioA lengthConverter lengthConverter) (by decide) rfl (by decide) rfl 2
      (by decide)⟩

theorem instance_getD (cfg : GenesisConfig) (a v : PubkeyConverter) (ns : NodesSetup)
    (h : NewNodesSetup cfg (some a) (some v) = .ok ns) (el : Bool) (s : Nat) :
    ((tableOf ns el).lookup s).getD [] = bucketOf el s ns.InitialNodes := by
  rw [instance_lookup cfg a v ns h]
  by_cases hb : bucketOf el s ns.InitialNodes = []
  · simp [hb]
  · simp [hb]

theorem waitingShard_after_meta (n k : Nat) (hn : n + 1 < 4294967296)
    (h : waitingShard n k = MetachainShardId) :
    waitingShard n (k + 1) = if n = 0 then MetachainShardId else 0 := by
  have hr : (k + 1) % (n + 1) < n + 1 := Nat.mod_lt _ (by omega)
  have hrn : (k + 1) % (n + 1) = n := by
    by_contra hne
    unfold waitingShard at h
    rw [if_neg hne] at h
    unfold MetachainShardId at h
    omega
  have hstep : (k + 1 + 1) % (n + 1) = 0 := by
    rw [Nat.add_mod (k + 1) 1 (n + 1), hrn]
    by_cases h0 : n = 0
    · subst h0; simp
    · rw [Nat.mod_eq_of_lt (by omega : 1 < n + 1), Nat.mod_self]
  unfold waitingShard
  rw [hstep]
  by_cases h0 : n = 0
  · rw [if_pos h0, if_pos h0.symm]
  · rw [if_neg h0, if_neg (fun h' => h0 h'.symm)]

/-- C3 (amended): for every successfully constructed instance (fewer than 2^31
records) in which all records decode to non-nil bytes, the validators not
placed in an eligible committee are those from index c = metaChainMinNodes +
NumberOfShards() * minNodesPerShard on, and they are distributed round robin
in list order: the k-th of them (k = 0, 1, 2, ...) is not eligible and is
filed in the waiting table under shard id r = (k + 1) mod (NumberOfShards() +
1), where r = NumberOfShards() is replaced by the metachain id; the step after
a metachain assignment has r = 0. -/
theorem waiting_round_robin (cfg : GenesisConfig) (a v : PubkeyConverter) (ns : NodesSetup)
    (hlen : cfg.InitialNodes.length < 2147483648)
    (h : NewNodesSetup cfg (some a) (some v) = .ok ns) (hdec : AllDecoded ns) :
    ns.MetaChainMinNodes + NumberOfShards ns * ns.MinNodesPerShard ≤ ns.InitialNodes.length ∧
    (∀ (j : Nat) (nd : InitialNode),
      j < ns.MetaChainMinNodes + NumberOfShards ns * ns.MinNodesPerShard →
      ns.InitialNodes[j]? = some nd → nd.eligible = true) ∧
    (∀ (k : Nat) (nd : InitialNode),
      ns.InitialNodes[ns.MetaChainMinNodes + NumberOfShards ns * ns.MinNodesPerShard + k]? =
        some nd →
      nd.eligible = false ∧ nd.assignedShard = waitingShard (NumberOfShards ns) k ∧
      nd.tonodeInfo ∈ (ns.waiting.lookup (waitingShard (NumberOfShards ns) k)).getD []) ∧
    (∀ k, waitingShard (NumberOfShards ns) k = MetachainShardId →
      waitingShard (NumberOfShards ns) (k + 1) =
        if NumberOfShards ns = 0 then MetachainShardId else 0) := by
  have hlen' : cfg.InitialNodes.length < 4294967296 := by omega
  have hfit := fit_of_small cfg a v ns hlen h hdec
  obtain ⟨-, -, -, -, -, -, -, -, ⟨hp1, -, hm1, -⟩, -, -, -, -, -, e1, e2, -⟩ :=
    run_facts cfg a v ns hlen' h hdec
  obtain ⟨hl, hshape⟩ := assignment_shape cfg a v ns hlen' h hdec hfit
  have hKmul : ns.nrOfShards ≤ ns.nrOfShards * cfg.MinNodesPerShard :=
    Nat.le_mul_of_pos_right _ hp1
  unfold NumberOfShards
  rw [e1, e2, hl]
  refine ⟨hfit, ?_, ?_, ?_⟩
  · intro j nd hj hnd
    obtain ⟨s1, s2, -⟩ := hshape j nd hnd
    by_cases c1 : j < cfg.MetaChainMinNodes
    · exact (s1 c1).2
    · exact (s2 (by omega) hj).2
  · intro k nd hnd
    obtain ⟨-, -, s3⟩ := hshape _ nd hnd
    obtain ⟨e3, e4⟩ := s3 (by omega)
    rw [Nat.add_sub_cancel_left] at e3
    refine ⟨e4, e3, ?_⟩
    have hg := instance_getD cfg a v ns h false (waitingShard ns.nrOfShards k)
    simp only [tableOf, Bool.false_eq_true, if_false] at hg
    rw [hg, mem_bucketOf]
    have hmem : nd ∈ ns.InitialNodes := List.mem_iff_getElem?.mpr ⟨_, hnd⟩
    exact ⟨nd, hmem, rfl, (hdec nd hmem).1, (hdec nd hmem).2, e4, e3⟩
  · intro k hk
    exact waitingShard_after_meta ns.nrOfShards k (by omega) hk

/-- C3 (witness): scenario B. Eight records and three shards; validator 7, the
first remaining one, waits under shard id 1. -/
theorem waiting_round_robin_witness :
    scenarioB.InitialNodes.length < 2147483648 ∧
    NewNodesSetup scenarioB (some lengthConverter) (some lengthConverter) =
      .ok (instanceOf scenarioB lengthConverter lengthConverter) ∧
    AllDecoded (instanceOf scenarioB lengthConverter lengthConverter) ∧
    (instanceOf scenarioB lengthConverter lengthConverter).InitialNodes[7]? =
      some ⟨⟨1, false, some [8], some [1]⟩, "kkkkkkkk", "a"⟩ ∧
    NumberOfShards (instanceOf scenarioB lengthConverter lengthConverter) = 3 ∧
    waitingShard 3 0 = 1 ∧
    (⟨1, false, some [8], some [1]⟩ : nodeInfo) ∈
      ((instanceOf scenarioB lengthConverter lengthConverter).waiting.lookup
        (waitingShard (NumberOfShards (instanceOf scenarioB lengthConverter lengthConverter))
          0)).getD [] :=
  ⟨by decide, rfl, by decide, by decide, by decide, by decide,
   ((waiting_round_robin scenarioB lengthConverter lengthConverter
      (instanceOf scenarioB lengthConverter lengthConverter) (by decide) rfl (by decide)).2.2.1
      0 ⟨⟨1, false, some [8], some [1]⟩, "kkkkkkkk", "a"⟩ (by decide)).2.2⟩

/-- C3 (counterexample): scenario B with a key converter that returns a nil
slice and no error for the key of validator 7. Construction succeeds with
three shards and validators 0..6 eligible; validator 7, the only one not
placed in an eligible committee, is filed under no shard id: the waiting table
is empty, in particular it has no bucket under shard id 1. -/
theorem nil_key_record_not_waiting :
    ((NewNodesSetup scenarioB (some lengthConverter) (some (nilOnLength 8))).value?.map
      (fun ns => (NumberOfShards ns, ns.InitialNodes.length,
        ns.InitialNodes.map (fun nd => nd.eligible),
        (ns.waiting.lookup 1).getD [], ns.waiting.map (fun p => p.1),
        ns.eligible.map (fun p => (p.1, p.2.len))))) =
      some (3, 8, [true, true, true, true, true, true, true, false], [], [],
        [(4294967295, 1), (0, 2), (1, 2), (2, 2)]) := by
  rfl

/-! ## Errors of validation -/

theorem isOk_elim {ε α : Type} (x : Except ε α) (h : x.isOk = true) : ∃ y, x = .ok y := by
  cases x with
  | error e => simp [Except.isOk, Except.toBool] at h
  | ok y => exact ⟨y, rfl⟩

theorem decodeNodes_of_decodes (v a : PubkeyConverter) (l : List RawNode)
    (h : ∀ r ∈ l, r.Decodes v a) :
    ∀ n, (decodeNodes v a (l.map RawNode.toInitialNode) n).isOk = true := by
  induction l with
  | nil => intro n; rfl
  | cons r rest ih =>
    intro n
    obtain ⟨h1, h2, h3, h4⟩ := h r (List.mem_cons_self _ _)
    obtain ⟨pk, hpk⟩ := isOk_elim _ h3
    obtain ⟨ad, had⟩ := isOk_elim _ h4
    obtain ⟨res, hres⟩ := isOk_elim _
      (ih (fun x hx => h x (List.mem_cons_of_mem _ hx)) ((n + 1) % 4294967296))
    simp only [List.map_cons]
    unfold decodeNodes
    simp only [RawNode.toInitialNode, hpk, had, h1, h2, if_false]
    rw [hres]
    rfl

/-- The decoding loop stops at the first record on which it returns an error:
records before it that decode do not change the result. -/
theorem decodeNodes_append_error (v a : PubkeyConverter) (pre : List RawNode) (r : RawNode)
    (post : List RawNode) (e : Error) (hpre : ∀ x ∈ pre, x.Decodes v a)
    (hr : ∀ rest n, decodeNodes v a (r.toInitialNode :: rest) n = .error e) :
    ∀ n, decodeNodes v a ((pre ++ r :: post).map RawNode.toInitialNode) n = .error e := by
  induction pre with
  | nil => intro n; simpa using hr _ n
  | cons x rest ih =>
    intro n
    obtain ⟨h1, h2, h3, h4⟩ := hpre x (List.mem_cons_self _ _)
    obtain ⟨pk, hpk⟩ := isOk_elim _ h3
    obtain ⟨ad, had⟩ := isOk_elim _ h4
    have hrec := ih (fun y hy => hpre y (List.mem_cons_of_mem _ hy)) ((n + 1) % 4294967296)
    simp only [List.cons_append, List.map_cons]
    unfold decodeNodes
    simp only [RawNode.toInitialNode, hpk, had, h1, h2, if_false]
    rw [hrec]

theorem NewNodesSetup_decode_error (cfg : GenesisConfig) (a v : PubkeyConverter) (e : Error)
    (h : decodeNodes v a (cfg.InitialNodes.map RawNode.toInitialNode) 0 = .error e) :
    NewNodesSetup cfg (some a) (some v) = .error e := by
  unfold NewNodesSetup processConfig
  simp only [loaded]
  rw [h]

/-- C11: for every configuration whose records all decode (non-empty key and
address texts, no converter error), construction fails in validation with
ErrNegativeOrZeroConsensusGroupSize if consensusGroupSize = 0, and with
ErrMinNodesPerShardSmallerThanConsensusSize if consensusGroupSize >= 1 and
minNodesPerShard < consensusGroupSize, whatever the other parameters are. -/
theorem consensus_size_errors (cfg : GenesisConfig) (a v : PubkeyConverter)
    (hdec : ∀ r ∈ cfg.InitialNodes, r.Decodes v a) :
    (cfg.ConsensusGroupSize = 0 →
      processConfig (loaded cfg a v) = .error Error.ErrNegativeOrZeroConsensusGroupSize ∧
      NewNodesSetup cfg (some a) (some v) = .error Error.ErrNegativeOrZeroConsensusGroupSize) ∧
    (1 ≤ cfg.ConsensusGroupSize → cfg.MinNodesPerShard < cfg.ConsensusGroupSize →
      processConfig (loaded cfg a v) =
        .error Error.ErrMinNodesPerShardSmallerThanConsensusSize ∧
      NewNodesSetup cfg (some a) (some v) =
        .error Error.ErrMinNodesPerShardSmallerThanConsensusSize) := by
  obtain ⟨res, hres⟩ := isOk_elim _ (decodeNodes_of_decodes v a cfg.InitialNodes hdec 0)
  have hp := processConfig_of_decoded (loaded cfg a v) res.1 res.2 hres
  refine ⟨?_, ?_⟩
  · intro h0
    have hpc : processConfig (loaded cfg a v) =
        .error Error.ErrNegativeOrZeroConsensusGroupSize := by
      rw [hp]
      simp [checkSizes, loaded, h0]
    refine ⟨hpc, ?_⟩
    unfold NewNodesSetup
    simp only [hpc]
  · intro h1 h2
    have hpc : processConfig (loaded cfg a v) =
        .error Error.ErrMinNodesPerShardSmallerThanConsensusSize := by
      rw [hp]
      simp [checkSizes, loaded, Nat.not_lt.mpr h1, h2]
    refine ⟨hpc, ?_⟩
    unfold NewNodesSetup
    simp only [hpc]

/-- C11 (witness): scenario A with consensusGroupSize 0, and with
consensusGroupSize 3 > minNodesPerShard 2. -/
theorem consensus_size_errors_witness :
    (∀ r ∈ scenarioA.InitialNodes, r.Decodes lengthConverter lengthConverter) ∧
    NewNodesSetup { scenarioA with ConsensusGroupSize := 0 } (some lengthConverter)
      (some lengthConverter) = .error Error.ErrNegativeOrZeroConsensusGroupSize ∧
    NewNodesSetup { scenarioA with ConsensusGroupSize := 3 } (some lengthConverter)
      (some lengthConverter) = .error Error.ErrMinNodesPerShardSmallerThanConsensusSize :=
  ⟨by decide,
   ((consensus_size_errors { scenarioA with ConsensusGroupSize := 0 } lengthConverter
      lengthConverter (by decide)).1 rfl).2,
   ((consensus_size_errors { scenarioA with ConsensusGroupSize := 3 } lengthConverter
      lengthConverter (by decide)).2 (by decide) (by decide)).2⟩

/-- C12: for every configuration in which all records before index i decode
and record i has a non-empty key text that the key converter accepts and an
empty address text, construction fails with ErrCouldNotParseAddress, whatever
the address converter returns for the empty string, and returns no instance. -/
theorem empty_address_error (cfg : GenesisConfig) (a v : PubkeyConverter)
    (pre : List RawNode) (r : RawNode) (post : List RawNode)
    (hcfg : cfg.InitialNodes = pre ++ r :: post) (hpre : ∀ x ∈ pre, x.Decodes v a)
    (hkey : r.PubKey ≠ "") (hdec : (v.Decode r.PubKey).isOk = true) (haddr : r.Address = "") :
    NewNodesSetup cfg (some a) (some v) = .error Error.ErrCouldNotParseAddress ∧
    (NewNodesSetup cfg (some a) (some v)).value? = none := by
  obtain ⟨pk, hpk⟩ := isOk_elim _ hdec
  have hr : ∀ rest n, decodeNodes v a (r.toInitialNode :: rest) n =
      .error Error.ErrCouldNotParseAddress := by
    intro rest n
    unfold decodeNodes
    simp only [RawNode.toInitialNode, hpk, haddr]
    cases a.Decode "" with
    | error msg => rfl
    | ok ad => simp [hkey]
  have h := NewNodesSetup_decode_error cfg a v _
    (by rw [hcfg]; exact decodeNodes_append_error v a pre r post _ hpre hr 0)
  exact ⟨h, by rw [h]; rfl⟩

/-- C12 (witness): scenario C, once with an address converter that accepts the
empty string and once with one that rejects it. -/
theorem empty_address_error_witness :
    scenarioC.InitialNodes = sampleNodes 3 ++ ⟨"kkkk", ""⟩ :: (sampleNodes 7).drop 4 ∧
    (∀ x ∈ sampleNodes 3, x.Decodes lengthConverter lengthConverter) ∧
    (lengthConverter.Decode "").isOk = true ∧
    NewNodesSetup scenarioC (some lengthConverter) (some lengthConverter) =
      .error Error.ErrCouldNotParseAddress ∧
    ((rejectOnLength 0).Decode "").isOk = false ∧
    NewNodesSetup scenarioC (some (rejectOnLength 0)) (some lengthConverter) =
      .error Error.ErrCouldNotParseAddress :=
  ⟨rfl, by decide, by decide,
   (empty_address_error scenarioC lengthConverter lengthConverter (sampleNodes 3) ⟨"kkkk", ""⟩
      ((sampleNodes 7).drop 4) rfl (by decide) (by decide) (by decide) rfl).1,
   by decide,
   (empty_address_error scenarioC (rejectOnLength 0) lengthConverter (sampleNodes 3)
      ⟨"kkkk", ""⟩ ((sampleNodes 7).drop 4) rfl (by decide) (by decide) (by decide) rfl).1⟩

/-- C13 (amended): decoding stops at the first failing record in list order.
When all records before index i decode and record i has an empty key text,
construction fails: with ErrCouldNotParsePubKey if the key converter rejects
the empty string, with ErrCouldNotParseAddress if the key converter accepts
the empty string and the address converter rejects the record's address text,
and with ErrCouldNotParsePubKey if both converters accept. -/
theorem empty_key_error (cfg : GenesisConfig) (a v : PubkeyConverter)
    (pre : List RawNode) (r : RawNode) (post : List RawNode)
    (hcfg : cfg.InitialNodes = pre ++ r :: post) (hpre : ∀ x ∈ pre, x.Decodes v a)
    (hkey : r.PubKey = "") :
    ((v.Decode "").isOk = false →
      NewNodesSetup cfg (some a) (some v) = .error Error.ErrCouldNotParsePubKey) ∧
    ((v.Decode "").isOk = true → (a.Decode r.Address).isOk = false →
      NewNodesSetup cfg (some a) (some v) = .error Error.ErrCouldNotParseAddress) ∧
    ((v.Decode "").isOk = true → (a.Decode r.Address).isOk = true →
      NewNodesSetup cfg (some a) (some v) = .error Error.ErrCouldNotParsePubKey) := by
  have key : ∀ e, (∀ rest n, decodeNodes v a (r.toInitialNode :: rest) n = .error e) →
      NewNodesSetup cfg (some a) (some v) = .error e := fun e hr =>
    NewNodesSetup_decode_error cfg a v _
      (by rw [hcfg]; exact decodeNodes_append_error v a pre r post _ hpre hr 0)
  refine ⟨?_, ?_, ?_⟩
  · intro hv
    apply key
    intro rest n
    unfold decodeNodes
    simp only [RawNode.toInitialNode, hkey]
    cases hd : v.Decode "" with
    | error msg => rfl
    | ok pk => rw [hd] at hv; simp [Except.isOk, Except.toBool] at hv
  · intro hv ha
    obtain ⟨pk, hpk⟩ := isOk_elim _ hv
    apply key
    intro rest n
    unfold decodeNodes
    simp only [RawNode.toInitialNode, hkey, hpk]
    cases hd : a.Decode r.Address with
    | error msg => rfl
    | ok ad => rw [hd] at ha; simp [Except.isOk, Except.toBool] at ha
  · intro hv ha
    obtain ⟨pk, hpk⟩ := isOk_elim _ hv
    obtain ⟨ad, had⟩ := isOk_elim _ ha
    apply key
    intro rest n
    unfold decodeNodes
    simp only [RawNode.toInitialNode, hkey, hpk, had, if_true]

/-- C13 (witness): scenario A with the key of validator 3 emptied, both
converters accepting every text. -/
theorem empty_key_error_witness :
    emptyKeySample.InitialNodes = sampleNodes 3 ++ ⟨"", "a"⟩ :: (sampleNodes 7).drop 4 ∧
    (∀ x ∈ sampleNodes 3, x.Decodes lengthConverter lengthConverter) ∧
    NewNodesSetup emptyKeySample (some lengthConverter) (some lengthConverter) =
      .error Error.ErrCouldNotParsePubKey :=
  ⟨rfl, by decide,
   (empty_key_error emptyKeySample lengthConverter lengthConverter (sampleNodes 3) ⟨"", "a"⟩
      ((sampleNodes 7).drop 4) rfl (by decide) rfl).2.2 (by decide) (by decide)⟩

/-- C13 (counterexample): seven records, the first with an empty key text and
the address text "a"; the key converter accepts the empty string and the
address converter rejects texts of length 1. No record precedes the failing
one, its key is empty, and construction fails with ErrCouldNotParseAddress,
not with ErrCouldNotParsePubKey: both texts are decoded before the empty-key
check of line 128. -/
theorem empty_key_reports_address_error :
    (⟨"", "a"⟩ : RawNode).PubKey = "" ∧
    (lengthConverter.Decode "").isOk = true ∧
    ((rejectOnLength 1).Decode "a").isOk = false ∧
    (NewNodesSetup { scenarioA with InitialNodes := ⟨"", "a"⟩ :: sampleNodes 6 }
      (some (rejectOnLength 1)) (some lengthConverter)).error? =
      some Error.ErrCouldNotParseAddress := by
  decide

/-! ## Shard queries -/

theorem lookup_of_no_entry (m : NodeMap) (id : Nat) (h : ∀ p ∈ m, p.1 ≠ id) :
    m.lookup id = none := by
  induction m with
  | nil => rfl
  | cons p rest ih =>
    obtain ⟨k, w⟩ := p
    have hk : k ≠ id := h (k, w) (List.mem_cons_self _ _)
    simp only [NodeMap.lookup, hk, if_false]
    exact ih (fun q hq => h q (List.mem_cons_of_mem _ hq))

/-- The two queries by the value read from the eligible table, on any state:
they fail with ErrShardIdOutOfRange when it is nil (in particular when the
table has no entry for the id), fail with ErrNoPubKeys when it is non-nil and
empty, and otherwise succeed, `InitialEligibleNodesPubKeysForShard` returning
the keys of the bucket in bucket order and `InitialNodesInfoForShard`
returning the pair (eligible[id], waiting[id]). -/
theorem shard_query_by_value (ns : NodesSetup) (id : Nat) :
    ((∀ p ∈ ns.eligible, p.1 ≠ id) → ns.eligible.lookup id = none) ∧
    (ns.eligible.lookup id = none →
      InitialEligibleNodesPubKeysForShard ns id = .error Error.ErrShardIdOutOfRange ∧
      InitialNodesInfoForShard ns id = .error Error.ErrShardIdOutOfRange) ∧
    (ns.eligible.lookup id = some [] →
      InitialEligibleNodesPubKeysForShard ns id = .error Error.ErrNoPubKeys ∧
      InitialNodesInfoForShard ns id = .error Error.ErrNoPubKeys) ∧
    (∀ l, ns.eligible.lookup id = some l → l ≠ [] →
      InitialEligibleNodesPubKeysForShard ns id =
        .ok (l.map (fun ni => bytesToString ni.pubKey)) ∧
      InitialNodesInfoForShard ns id = .ok (some l, ns.waiting.lookup id)) := by
  refine ⟨lookup_of_no_entry ns.eligible id, ?_, ?_, ?_⟩
  · intro h
    simp [InitialEligibleNodesPubKeysForShard, InitialNodesInfoForShard, h]
  · intro h
    simp [InitialEligibleNodesPubKeysForShard, InitialNodesInfoForShard, h, NodeSlice.len]
  · intro l h hl
    have hlen : ¬ (l.length = 0) := fun h0 => hl (List.length_eq_zero.mp h0)
    simp [InitialEligibleNodesPubKeysForShard, InitialNodesInfoForShard, h, NodeSlice.len, hlen]

/-- C16 (amended): for every instance built by `createInitialNodesInfo`, each
bucket of the eligible table and of the waiting table is exactly the
subsequence of InitialNodes, in original order, of the validators that have a
non-nil key and a non-nil address, that assigned shard and that eligibility
flag; the table has no entry for a shard id without such a validator, and the
pass leaves InitialNodes unchanged. -/
theorem buckets_in_list_order (ns : NodesSetup) (el : Bool) (s : Nat) :
    (createInitialNodesInfo ns).InitialNodes = ns.InitialNodes ∧
    ((tableOf (createInitialNodesInfo ns) el).lookup s).getD [] =
      (ns.InitialNodes.filter (fun nd => nd.pubKey.isSome && nd.address.isSome &&
        (nd.eligible == el) && (nd.assignedShard == s))).map InitialNode.tonodeInfo ∧
    List.Sublist (((tableOf (createInitialNodesInfo ns) el).lookup s).getD [])
      (ns.InitialNodes.map InitialNode.tonodeInfo) ∧
    ((tableOf (createInitialNodesInfo ns) el).lookup s = none ↔
      ∀ nd ∈ ns.InitialNodes, ¬ (nd.pubKey.isSome = true ∧ nd.address.isSome = true ∧
        nd.eligible = el ∧ nd.assignedShard = s)) := by
  have hg := createInitialNodesInfo_getD ns el s
  refine ⟨rfl, hg, ?_, ?_⟩
  · rw [hg]
    exact List.Sublist.map _ (List.filter_sublist _)
  · rw [createInitialNodesInfo_lookup]
    constructor
    · intro h nd hnd hc
      by_cases hb : bucketOf el s ns.InitialNodes = []
      · have hm : nd.tonodeInfo ∈ bucketOf el s ns.InitialNodes :=
          (mem_bucketOf el s ns.InitialNodes _).mpr ⟨nd, hnd, rfl, hc⟩
        rw [hb] at hm
        cases hm
      · rw [if_neg hb] at h
        cases h
    · intro h
      rw [if_pos]
      apply List.eq_nil_iff_forall_not_mem.mpr
      intro x hx
      obtain ⟨nd, hnd, -, hc⟩ := (mem_bucketOf el s ns.InitialNodes x).mp hx
      exact h nd hnd hc

/-- C16 (counterexample): two records, the key converter returning a nil slice
and no error for the second key. In the constructed instance validator 1 has
assigned shard 0 and eligibility flag false, so the subsequence of the
validators with that shard and flag has one member, but the waiting table has
no bucket under shard id 0. -/
theorem nil_key_record_missing_from_bucket :
    ((NewNodesSetup pairSample (some lengthConverter) (some (nilOnLength 2))).value?.map
      (fun ns => (ns.InitialNodes.map (fun nd => (nd.assignedShard, nd.eligible)),
        (ns.InitialNodes.filter (fun nd => (nd.eligible == false) &&
          (nd.assignedShard == 0))).length,
        (ns.waiting.lookup 0).len, ns.waiting.map (fun p => p.1)))) =
      some ([(4294967295, true), (0, false)], 1, 0, []) := by
  rfl

/-! ## Invariants of the assignment loops -/

theorem decodeNodes_flags (v a : PubkeyConverter) (l : List InitialNode) :
    ∀ (n : Nat) (l' : List InitialNode) (n' : Nat), decodeNodes v a l n = .ok (l', n') →
      ∀ nd ∈ l', ∃ nd0 ∈ l, nd.assignedShard = nd0.assignedShard ∧ nd.eligible = nd0.eligible := by
  induction l with
  | nil =>
    intro n l' n' h
    simp [decodeNodes] at h
    have h1 := h.1
    subst h1
    intro nd hnd
    cases hnd
  | cons x rest ih =>
    intro n l' n' h
    unfold decodeNodes at h
    split at h
    · cases h
    · split at h
      · cases h
      · split at h
        · cases h
        · split at h
          · cases h
          · split at h
            · cases h
            · rename_i r' m hrec
              cases h
              intro nd hnd
              rcases List.mem_cons.mp hnd with rfl | hnd
              · exact ⟨x, List.mem_cons_self _ _, rfl, rfl⟩
              · obtain ⟨nd0, hnd0, e1, e2⟩ := ih _ _ _ hrec nd hnd
                exact ⟨nd0, List.mem_cons_of_mem _ hnd0, e1, e2⟩

/-- The inner loop keeps every property of the positions that holds of a
record assigned at one of the positions the loop visits. -/
theorem shardInnerLoop_inv (Q : Nat → InitialNode → Prop) (s k : Nat) :
    ∀ (id : Nat) (nodes : List InitialNode) (c : Nat) (r : List InitialNode × Nat),
      (∀ (j : Nat) (nd : InitialNode), nodes[j]? = some nd → Q j nd) →
      (∀ (j : Nat) (nd : InitialNode), id ≤ j → j < id + k → Q j (nd.assign s true)) →
      shardInnerLoop s k id nodes c = some r →
      ∀ (j : Nat) (nd : InitialNode), r.1[j]? = some nd → Q j nd := by
  induction k with
  | zero =>
    intro id nodes c r hinv _ h
    simp [shardInnerLoop] at h
    subst h
    exact hinv
  | succ k ih =>
    intro id nodes c r hinv hQ h
    unfold shardInnerLoop at h
    split at h
    · cases h
    · rename_i x hx
      split at h
      · refine ih _ _ _ _ ?_ (fun j nd h1 h2 => hQ j nd (by omega) (by omega)) h
        intro j nd hj
        rw [List.getElem?_set] at hj
        by_cases hij : id = j
        · subst hij
          rw [if_pos rfl] at hj
          split at hj
          · cases hj
            exact hQ id x (by omega) (by omega)
          · cases hj
        · rw [if_neg hij] at hj
          exact hinv j nd hj
      · exact ih _ _ _ _ hinv (fun j nd h1 h2 => hQ j nd (by omega) (by omega)) h

theorem shardOuterLoop_inv (Q : Nat → InitialNode → Prop) (m p k : Nat) :
    ∀ (cur : Nat) (nodes : List InitialNode) (c : Nat) (r : List InitialNode × Nat),
      (∀ (j : Nat) (nd : InitialNode), nodes[j]? = some nd → Q j nd) →
      (∀ (j : Nat) (nd : InitialNode) (s : Nat), cur ≤ s → s < cur + k →
        Q j (nd.assign s true)) →
      shardOuterLoop m p k cur nodes c = some r →
      ∀ (j : Nat) (nd : InitialNode), r.1[j]? = some nd → Q j nd := by
  induction k with
  | zero =>
    intro cur nodes c r hinv _ h
    simp [shardOuterLoop] at h
    subst h
    exact hinv
  | succ k ih =>
    intro cur nodes c r hinv hQ h
    unfold shardOuterLoop at h
    simp only at h
    split at h
    · cases h
    · rename_i nodes' c' hin
      have hinv' := shardInnerLoop_inv Q cur _ c nodes c (nodes', c') hinv
        (fun j nd _ _ => hQ j nd cur (by omega) (by omega)) hin
      exact ih _ _ _ _ hinv' (fun j nd s h1 h2 => hQ j nd s (by omega) (by omega)) h

theorem waitingLoop_inv (Q : Nat → InitialNode → Prop) (n k : Nat) :
    ∀ (i cur : Nat) (nodes r : List InitialNode),
      (∀ (j : Nat) (nd : InitialNode), nodes[j]? = some nd → Q j nd) →
      (∀ (j : Nat) (nd : InitialNode) (s : Nat), Q j (nd.assign s false)) →
      waitingLoop n k i cur nodes = some r →
      ∀ (j : Nat) (nd : InitialNode), r[j]? = some nd → Q j nd := by
  induction k with
  | zero =>
    intro i cur nodes r hinv _ h
    simp [waitingLoop] at h
    subst h
    exact hinv
  | succ k ih =>
    intro i cur nodes r hinv hQ h
    unfold waitingLoop at h
    split at h
    · cases h
    · split at h
      · cases h
      · rename_i x hx
        split at h
        · refine ih _ _ _ _ ?_ hQ h
          intro j nd hj
          rw [List.getElem?_set] at hj
          by_cases hij : i = j
          · subst hij
            rw [if_pos rfl] at hj
            split at hj
            · cases hj
              exact hQ i x _
            · cases hj
          · rw [if_neg hij] at hj
            exact hinv j nd hj
        · exact ih _ _ _ _ hinv hQ h

theorem filter_length_le {α : Type} (p : α → Bool) (l : List α) :
    ∀ (a : Nat), (∀ (j : Nat) (x : α), l[j]? = some x → p x = true → j < a) →
      (l.filter p).length ≤ a := by
  induction l with
  | nil => intro a _; simp
  | cons x rest ih =>
    intro a hp
    rw [List.filter_cons]
    by_cases hx : p x = true
    · rw [if_pos hx, List.length_cons]
      have h0 : 0 < a := hp 0 x (by simp) hx
      have := ih (a - 1) (fun j y hj hy => by
        have := hp (j + 1) y (by simpa using hj) hy
        omega)
      omega
    · rw [if_neg hx]
      exact ih a (fun j y hj hy => by
        have := hp (j + 1) y (by simpa using hj) hy
        omega)

/-- C14: for every successfully constructed instance, the number of
validators in the metachain's eligible bucket is at most metaChainMinNodes. -/
theorem metachain_bucket_bounded (cfg : GenesisConfig) (a v : PubkeyConverter) (ns : NodesSetup)
    (h : NewNodesSetup cfg (some a) (some v) = .ok ns) :
    (ns.eligible.lookup MetachainShardId).len ≤ ns.MetaChainMinNodes := by
  have hg := instance_getD cfg a v ns h true MetachainShardId
  simp only [tableOf, if_true] at hg
  obtain ⟨ns1, ns2, ns3, h1, h2, h3, rfl⟩ := NewNodesSetup_ok cfg a v ns h
  obtain ⟨nodes, n, hd, rfl, -⟩ := processConfig_ok _ _ h1
  obtain ⟨nodes2, cnt, hm, hden, rfl⟩ := processMetaChainAssigment_some _ _ h2
  obtain ⟨nodes3, c, nodes4, ho, hw, rfl⟩ := processShardAssignment_some _ _ h3
  simp only [loaded] at hd hm ho hw
  have hinit : ∀ (j : Nat) (nd : InitialNode), nodes[j]? = some nd →
      (nd.eligible = true → nd.assignedShard = MetachainShardId → j < cfg.MetaChainMinNodes) := by
    intro j nd hj he
    obtain ⟨nd0, hnd0, -, e2⟩ := decodeNodes_flags _ _ _ _ _ _ hd nd
      (List.mem_iff_getElem?.mpr ⟨j, hj⟩)
    obtain ⟨r, -, rfl⟩ := List.mem_map.mp hnd0
    rw [e2] at he
    cases he
  rw [metaChainLoop_eq] at hm
  have hinv2 := shardInnerLoop_inv
    (fun j nd => nd.eligible = true → nd.assignedShard = MetachainShardId →
      j < cfg.MetaChainMinNodes)
    MetachainShardId _ 0 nodes 0 (nodes2, cnt) hinit (fun j nd _ hj _ _ => by omega) hm
  have hK : ∀ x y : Nat, x % 4294967296 / y < 4294967296 := fun x y =>
    lt_of_le_of_lt (Nat.div_le_self _ _) (Nat.mod_lt _ (by norm_num))
  have hinv3 := shardOuterLoop_inv
    (fun j nd => nd.eligible = true → nd.assignedShard = MetachainShardId →
      j < cfg.MetaChainMinNodes)
    _ _ _ 0 nodes2 cnt (nodes3, c) hinv2
    (fun j nd s _ hs _ hsh => by
      have := hK ((n + 4294967296 - cnt) % 4294967296 + 4294967296 -
        cfg.Hysteresis.scale cfg.MetaChainMinNodes % 4294967296)
        ((cfg.MinNodesPerShard + cfg.Hysteresis.scale cfg.MinNodesPerShard % 4294967296) %
          4294967296)
      simp only [InitialNode.assign, MetachainShardId] at hsh
      omega) ho
  have hinv4 := waitingLoop_inv
    (fun j nd => nd.eligible = true → nd.assignedShard = MetachainShardId →
      j < cfg.MetaChainMinNodes)
    _ _ _ _ nodes3 nodes4 hinv3
    (fun j nd s he _ => by simp [InitialNode.assign] at he) hw
  simp only [createInitialNodesInfo] at hg ⊢
  show (NodeMap.lookup _ MetachainShardId).len ≤ cfg.MetaChainMinNodes
  unfold NodeSlice.len
  rw [hg]
  unfold bucketOf
  rw [List.length_map]
  apply filter_length_le
  intro j nd hj hp
  simp only [Bool.and_eq_true, beq_iff_eq] at hp
  exact hinv4 j nd hj hp.1.2 hp.2

/-- C14 (witness): the metachain bucket of scenario A holds one record. -/
theorem metachain_bucket_bounded_witness :
    NewNodesSetup scenarioA (some lengthConverter) (some lengthConverter) =
      .ok (instanceOf scenarioA lengthConverter lengthConverter) ∧
    ((instanceOf scenarioA lengthConverter lengthConverter).eligible.lookup
      MetachainShardId).len ≤
      (instanceOf scenarioA lengthConverter lengthConverter).MetaChainMinNodes :=
  ⟨rfl, metachain_bucket_bounded scenarioA lengthConverter lengthConverter
    (instanceOf scenarioA lengthConverter lengthConverter) rfl⟩

/-! ## Assignment as a function of positions -/

theorem label_assign (nd1 nd2 : InitialNode) (s : Nat) (e : Bool)
    (h : nd1.label = nd2.label) : (nd1.assign s e).label = (nd2.assign s e).label := by
  simp only [InitialNode.label, InitialNode.assign, Prod.mk.injEq] at h ⊢
  exact ⟨trivial, trivial, h.2.2⟩

theorem getElem?_label (n1 n2 : List InitialNode)
    (h : n1.map InitialNode.label = n2.map InitialNode.label) (i : Nat) :
    (n1[i]?).map InitialNode.label = (n2[i]?).map InitialNode.label := by
  rw [← List.getElem?_map, ← List.getElem?_map, h]

theorem map_label_set (n1 n2 : List InitialNode) (x1 x2 : InitialNode) (i : Nat)
    (h : n1.map InitialNode.label = n2.map InitialNode.label) (hx : x1.label = x2.label) :
    (n1.set i x1).map InitialNode.label = (n2.set i x2).map InitialNode.label := by
  rw [List.map_set, List.map_set, h, hx]

/-- The inner loop acts on labels only: on two lists with the same labels it
panics on both or returns the same counter and lists with the same labels. -/
theorem shardInnerLoop_sim (s k : Nat) :
    ∀ (id : Nat) (n1 n2 : List InitialNode) (c : Nat),
      n1.map InitialNode.label = n2.map InitialNode.label →
      (shardInnerLoop s k id n1 c).map labelView = (shardInnerLoop s k id n2 c).map labelView := by
  induction k with
  | zero =>
    intro id n1 n2 c h
    simp [shardInnerLoop, labelView, h]
  | succ k ih =>
    intro id n1 n2 c h
    have hg := getElem?_label n1 n2 h id
    unfold shardInnerLoop
    cases h1 : n1[id]? with
    | none =>
      rw [h1] at hg
      cases h2 : n2[id]? with
      | none => rfl
      | some x2 => rw [h2] at hg; simp at hg
    | some x1 =>
      rw [h1] at hg
      cases h2 : n2[id]? with
      | none => rw [h2] at hg; simp at hg
      | some x2 =>
        rw [h2] at hg
        simp only [Option.map_some', Option.some.injEq] at hg
        have hk : x1.pubKey.isSome = x2.pubKey.isSome := by
          simp only [InitialNode.label, Prod.mk.injEq] at hg
          exact hg.2.2
        simp only
        by_cases hs : x1.pubKey.isSome = true
        · rw [if_pos hs, if_pos (hk ▸ hs)]
          exact ih _ _ _ _ (map_label_set n1 n2 _ _ id h (label_assign x1 x2 s true hg))
        · rw [if_neg hs, if_neg (hk ▸ hs)]
          exact ih _ _ _ _ h

theorem sim_cases (r1 r2 : Option (List InitialNode × Nat))
    (h : r1.map labelView = r2.map labelView) :
    (r1 = none ∧ r2 = none) ∨
    ∃ l1 l2 c, r1 = some (l1, c) ∧ r2 = some (l2, c) ∧
      l1.map InitialNode.label = l2.map InitialNode.label := by
  cases r1 with
  | none =>
    cases r2 with
    | none => exact Or.inl ⟨rfl, rfl⟩
    | some y => simp at h
  | some x =>
    cases r2 with
    | none => simp at h
    | some y =>
      obtain ⟨l1, c1⟩ := x
      obtain ⟨l2, c2⟩ := y
      simp only [Option.map_some', Option.some.injEq, labelView, Prod.mk.injEq] at h
      obtain ⟨hl, hc⟩ := h
      subst hc
      exact Or.inr ⟨l1, l2, c1, rfl, rfl, hl⟩

theorem shardOuterLoop_sim (m p k : Nat) :
    ∀ (cur : Nat) (n1 n2 : List InitialNode) (c : Nat),
      n1.map InitialNode.label = n2.map InitialNode.label →
      (shardOuterLoop m p k cur n1 c).map labelView =
        (shardOuterLoop m p k cur n2 c).map labelView := by
  induction k with
  | zero =>
    intro cur n1 n2 c h
    simp [shardOuterLoop, labelView, h]
  | succ k ih =>
    intro cur n1 n2 c h
    unfold shardOuterLoop
    simp only
    rcases sim_cases _ _ (shardInnerLoop_sim cur
      ((m + ((cur + 1) % 4294967296 * p) % 4294967296) % 4294967296 - c) c n1 n2 c h) with
      ⟨e1, e2⟩ | ⟨l1, l2, c', e1, e2, hl⟩
    · rw [e1, e2]
    · rw [e1, e2]
      exact ih _ _ _ _ hl

theorem waitingLoop_sim (n k : Nat) :
    ∀ (i cur : Nat) (n1 n2 : List InitialNode),
      n1.map InitialNode.label = n2.map InitialNode.label →
      (waitingLoop n k i cur n1).map (List.map InitialNode.label) =
        (waitingLoop n k i cur n2).map (List.map InitialNode.label) := by
  induction k with
  | zero =>
    intro i cur n1 n2 h
    simp [waitingLoop, h]
  | succ k ih =>
    intro i cur n1 n2 h
    have hg := getElem?_label n1 n2 h i
    unfold waitingLoop
    by_cases hmod : (n + 1) % 4294967296 = 0
    · rw [if_pos hmod, if_pos hmod]
    · rw [if_neg hmod, if_neg hmod]
      cases h1 : n1[i]? with
      | none =>
        rw [h1] at hg
        cases h2 : n2[i]? with
        | none => rfl
        | some x2 => rw [h2] at hg; simp at hg
      | some x1 =>
        rw [h1] at hg
        cases h2 : n2[i]? with
        | none => rw [h2] at hg; simp at hg
        | some x2 =>
          rw [h2] at hg
          simp only [Option.map_some', Option.some.injEq] at hg
          have hk : x1.pubKey.isSome = x2.pubKey.isSome := by
            simp only [InitialNode.label, Prod.mk.injEq] at hg
            exact hg.2.2
          simp only
          by_cases hs : x1.pubKey.isSome = true
          · rw [if_pos hs, if_pos (hk ▸ hs)]
            exact ih _ _ _ _ (map_label_set n1 n2 _ _ i h (label_assign x1 x2 _ false hg))
          · rw [if_neg hs, if_neg (hk ▸ hs)]
            exact ih _ _ _ _ h

/-- The labels of the records when the assignment passes start: assigned
shard 0 and flag false, as unmarshalled, and the key the converter returned. -/
theorem decoded_labels (cfg : GenesisConfig) (a v : PubkeyConverter)
    (nodes : List InitialNode) (n : Nat)
    (hd : decodeNodes v a (cfg.InitialNodes.map RawNode.toInitialNode) 0 = .ok (nodes, n))
    (hk : AllKeys nodes) :
    nodes.map InitialNode.label = List.replicate cfg.InitialNodes.length (0, false, true) ∧
    n = cfg.InitialNodes.length % 4294967296 := by
  obtain ⟨hl, hlt, hmod⟩ := decodeNodes_length _ _ _ _ _ _ hd
  have hn := hlt (by norm_num)
  simp only [List.length_map, Nat.zero_add] at hl hmod
  refine ⟨?_, by omega⟩
  rw [List.eq_replicate_iff]
  refine ⟨by simp [hl], ?_⟩
  intro b hb
  obtain ⟨nd, hnd, rfl⟩ := List.mem_map.mp hb
  obtain ⟨nd0, hnd0, e1, e2⟩ := decodeNodes_flags _ _ _ _ _ _ hd nd hnd
  obtain ⟨r, -, rfl⟩ := List.mem_map.mp hnd0
  simp only [InitialNode.label, e1, e2, hk nd hnd, RawNode.toInitialNode]

/-- C19: for any two configurations with equal minNodesPerShard,
metaChainMinNodes, hysteresis and equally long validator lists (a fortiori
when the two consensus group sizes are equal too), both constructed
successfully, with any converters, and with every record decoding to non-nil
bytes, NumberOfShards() is equal and the validator at each index receives the
same assigned shard and the same eligibility flag in both instances. -/
theorem assignment_depends_on_position (cfg1 cfg2 : GenesisConfig)
    (a1 v1 a2 v2 : PubkeyConverter) (ns1 ns2 : NodesSetup)
    (h1 : NewNodesSetup cfg1 (some a1) (some v1) = .ok ns1)
    (h2 : NewNodesSetup cfg2 (some a2) (some v2) = .ok ns2)
    (hd1 : AllDecoded ns1) (hd2 : AllDecoded ns2)
    (hmin : cfg1.MinNodesPerShard = cfg2.MinNodesPerShard)
    (hmeta : cfg1.MetaChainMinNodes = cfg2.MetaChainMinNodes)
    (hhyst : cfg1.Hysteresis = cfg2.Hysteresis)
    (hlen : cfg1.InitialNodes.length = cfg2.InitialNodes.length) :
    NumberOfShards ns1 = NumberOfShards ns2 ∧
    ns1.InitialNodes.length = ns2.InitialNodes.length ∧
    ∀ (i : Nat) (nd1 nd2 : InitialNode), ns1.InitialNodes[i]? = some nd1 →
      ns2.InitialNodes[i]? = some nd2 →
      nd1.assignedShard = nd2.assignedShard ∧ nd1.eligible = nd2.eligible := by
  obtain ⟨p1, q1, r1, hp1, hq1, hr1, rfl⟩ := NewNodesSetup_ok cfg1 a1 v1 ns1 h1
  obtain ⟨p2, q2, r2, hp2, hq2, hr2, rfl⟩ := NewNodesSetup_ok cfg2 a2 v2 ns2 h2
  obtain ⟨nodes1, n1, hdc1, rfl, -⟩ := processConfig_ok _ _ hp1
  obtain ⟨nodes2, n2, hdc2, rfl, -⟩ := processConfig_ok _ _ hp2
  obtain ⟨m1, cnt1, hm1, -, rfl⟩ := processMetaChainAssigment_some _ _ hq1
  obtain ⟨m2, cnt2, hm2, -, rfl⟩ := processMetaChainAssigment_some _ _ hq2
  obtain ⟨o1, c1, w1, ho1, hw1, rfl⟩ := processShardAssignment_some _ _ hr1
  obtain ⟨o2, c2, w2, ho2, hw2, rfl⟩ := processShardAssignment_some _ _ hr2
  simp only [loaded] at hdc1 hdc2 hm1 hm2 ho1 ho2 hw1 hw2
  have hk1 : AllKeys nodes1 := by
    have d2 := metaChainLoop_decoded _ _ _ _ _ hm1
    have d3 := shardOuterLoop_decoded _ _ _ _ _ _ _ ho1
    have d4 := waitingLoop_decoded _ _ _ _ _ _ hw1
    simp only at d2 d3 d4
    exact allKeys_of_map_decoded w1 nodes1 (d4.trans (d3.trans d2)).symm
      (fun nd hnd => (hd1 nd hnd).1)
  have hk2 : AllKeys nodes2 := by
    have d2 := metaChainLoop_decoded _ _ _ _ _ hm2
    have d3 := shardOuterLoop_decoded _ _ _ _ _ _ _ ho2
    have d4 := waitingLoop_decoded _ _ _ _ _ _ hw2
    simp only at d2 d3 d4
    exact allKeys_of_map_decoded w2 nodes2 (d4.trans (d3.trans d2)).symm
      (fun nd hnd => (hd2 nd hnd).1)
  obtain ⟨hl1, hn1⟩ := decoded_labels cfg1 a1 v1 nodes1 n1 hdc1 hk1
  obtain ⟨hl2, hn2⟩ := decoded_labels cfg2 a2 v2 nodes2 n2 hdc2 hk2
  have hnodes : nodes1.map InitialNode.label = nodes2.map InitialNode.label := by
    rw [hl1, hl2, hlen]
  have hn : n1 = n2 := by rw [hn1, hn2, hlen]
  subst hn
  simp only [← hmeta, ← hmin, ← hhyst] at hm2 ho2 hw2
  -- metachain pass
  have s1 := shardInnerLoop_sim MetachainShardId cfg1.MetaChainMinNodes 0 nodes1 nodes2 0 hnodes
  rw [← metaChainLoop_eq, ← metaChainLoop_eq, hm1, hm2] at s1
  simp only [Option.map_some', Option.some.injEq, labelView, Prod.mk.injEq] at s1
  obtain ⟨hml, hcnt⟩ := s1
  subst hcnt
  -- shard pass
  have s2 := shardOuterLoop_sim cnt1 cfg1.MinNodesPerShard
    ((((n1 + 4294967296 - cnt1) % 4294967296 + 4294967296 -
        cfg1.Hysteresis.scale cfg1.MetaChainMinNodes % 4294967296) % 4294967296) /
      ((cfg1.MinNodesPerShard + cfg1.Hysteresis.scale cfg1.MinNodesPerShard % 4294967296) %
        4294967296)) 0 m1 m2 cnt1 hml
  rw [ho1, ho2] at s2
  simp only [Option.map_some', Option.some.injEq, labelView, Prod.mk.injEq] at s2
  obtain ⟨hol, hc⟩ := s2
  subst hc
  have s3 := waitingLoop_sim
    ((((n1 + 4294967296 - cnt1) % 4294967296 + 4294967296 -
        cfg1.Hysteresis.scale cfg1.MetaChainMinNodes % 4294967296) % 4294967296) /
      ((cfg1.MinNodesPerShard + cfg1.Hysteresis.scale cfg1.MinNodesPerShard % 4294967296) %
        4294967296)) (n1 - c1) c1 0 o1 o2 hol
  rw [hw1, hw2] at s3
  simp only [Option.map_some', Option.some.injEq] at s3
  refine ⟨?_, ?_, ?_⟩
  · simp only [NumberOfShards, createInitialNodesInfo, loaded, ← hmeta, ← hmin, ← hhyst]
  · simp only [createInitialNodesInfo]
    have := congrArg List.length s3
    simpa using this
  · intro i nd1 nd2 e1 e2
    simp only [createInitialNodesInfo] at e1 e2
    have hg := getElem?_label w1 w2 s3 i
    rw [e1, e2] at hg
    simp only [Option.map_some', Option.some.injEq, InitialNode.label, Prod.mk.injEq] at hg
    exact ⟨hg.1, hg.2.1⟩

/-- C19 (witness): scenario A and the same parameters over seven records with
other keys (three of them repeated) give the same shard count. -/
theorem assignment_depends_on_position_witness :
    NewNodesSetup scenarioA (some lengthConverter) (some lengthConverter) =
      .ok (instanceOf scenarioA lengthConverter lengthConverter) ∧
    NewNodesSetup duplicateSample (some lengthConverter) (some lengthConverter) =
      .ok (instanceOf duplicateSample lengthConverter lengthConverter) ∧
    AllDecoded (instanceOf scenarioA lengthConverter lengthConverter) ∧
    AllDecoded (instanceOf duplicateSample lengthConverter lengthConverter) ∧
    scenarioA.InitialNodes.length = duplicateSample.InitialNodes.length ∧
    scenarioA.InitialNodes ≠ duplicateSample.InitialNodes ∧
    NumberOfShards (instanceOf scenarioA lengthConverter lengthConverter) =
      NumberOfShards (instanceOf duplicateSample lengthConverter lengthConverter) :=
  ⟨rfl, rfl, by decide, by decide, by decide, by decide,
   (assignment_depends_on_position scenarioA duplicateSample lengthConverter lengthConverter
      lengthConverter lengthConverter (instanceOf scenarioA lengthConverter lengthConverter)
      (instanceOf duplicateSample lengthConverter lengthConverter) rfl rfl (by decide)
      (by decide) rfl rfl rfl (by decide)).1⟩

/-! ## Queries on a successful run -/

theorem pubKeys_ok_iff (ns : NodesSetup) (id : Nat) :
    (∃ keys, InitialEligibleNodesPubKeysForShard ns id = .ok keys) ↔
      ∃ l, ns.eligible.lookup id = some l ∧ l ≠ [] := by
  unfold InitialEligibleNodesPubKeysForShard
  cases hl : ns.eligible.lookup id with
  | none => simp
  | some l =>
    by_cases hnil : l = []
    · subst hnil
      simp [NodeSlice.len]
    · have hlen : ¬ (l.length = 0) := fun h0 => hnil (List.length_eq_zero.mp h0)
      simp [NodeSlice.len, hlen, hnil]

theorem store_entries (m : NodeMap) (k : Nat) (v : NodeSlice) :
    ∀ p ∈ m.store k v, p ∈ m ∨ p = (k, v) := by
  induction m with
  | nil =>
    intro p hp
    simp only [NodeMap.store, List.mem_singleton] at hp
    exact Or.inr hp
  | cons q rest ih =>
    obtain ⟨k', v'⟩ := q
    intro p hp
    unfold NodeMap.store at hp
    by_cases hk : k' = k
    · rw [if_pos hk] at hp
      rcases List.mem_cons.mp hp with rfl | hp
      · exact Or.inr (by rw [hk])
      · exact Or.inl (List.mem_cons_of_mem _ hp)
    · rw [if_neg hk] at hp
      rcases List.mem_cons.mp hp with rfl | hp
      · exact Or.inl (List.mem_cons_self _ _)
      · rcases ih p hp with h | h
        · exact Or.inl (List.mem_cons_of_mem _ h)
        · exact Or.inr h

/-- Every entry that `createInitialNodesInfo` writes holds a non-empty
bucket. -/
theorem createLoop_entries (nodes : List InitialNode) :
    ∀ (e w : NodeMap), (∀ p ∈ e, 0 < p.2.len) → (∀ p ∈ w, 0 < p.2.len) →
      (∀ p ∈ (createLoop nodes e w).1, 0 < p.2.len) ∧
      (∀ p ∈ (createLoop nodes e w).2, 0 < p.2.len) := by
  induction nodes with
  | nil => intro e w he hw; exact ⟨he, hw⟩
  | cons nd rest ih =>
    intro e w he hw
    unfold createLoop
    have happ : ∀ (m : NodeMap) (x : nodeInfo), (∀ p ∈ m, 0 < p.2.len) →
        ∀ p ∈ m.store nd.assignedShard ((m.lookup nd.assignedShard).append x), 0 < p.2.len := by
      intro m x hm p hp
      rcases store_entries _ _ _ p hp with h | h
      · exact hm p h
      · rw [h]
        simp [NodeSlice.append, NodeSlice.len]
    split
    · simp only
      split
      · exact ih _ _ (happ e _ he) hw
      · exact ih _ _ he (happ w _ hw)
    · exact ih _ _ he hw

/-- Queried shard ids below 2^31 records: for every successfully constructed
instance in which all records decode to non-nil bytes, the shard ids for which
`InitialEligibleNodesPubKeysForShard` succeeds are exactly 0, ...,
NumberOfShards() - 1 and the metachain id; every nodeInfo stored under a key s
of either table has assigned shard s; and no entry of the eligible table is
empty, so that the query never returns ErrNoPubKeys. -/
theorem queried_shards (cfg : GenesisConfig) (a v : PubkeyConverter) (ns : NodesSetup)
    (hlen : cfg.InitialNodes.length < 2147483648)
    (h : NewNodesSetup cfg (some a) (some v) = .ok ns) (hdec : AllDecoded ns) :
    (∀ id, (∃ keys, InitialEligibleNodesPubKeysForShard ns id = .ok keys) ↔
      (id < NumberOfShards ns ∨ id = MetachainShardId)) ∧
    (∀ (el : Bool) (s : Nat) (x : nodeInfo),
      x ∈ ((tableOf ns el).lookup s).getD [] → x.assignedShard = s) ∧
    (∀ p ∈ ns.eligible, 0 < p.2.len) ∧
    (∀ id, ns.eligible.lookup id ≠ some []) ∧
    (∀ id, InitialEligibleNodesPubKeysForShard ns id ≠ .error Error.ErrNoPubKeys) := by
  have hlen' : cfg.InitialNodes.length < 4294967296 := by omega
  have hfit := fit_of_small cfg a v ns hlen h hdec
  obtain ⟨-, -, -, -, -, -, -, -, ⟨hp1, -, hm1, -⟩, -⟩ := run_facts cfg a v ns hlen' h hdec
  obtain ⟨hl, hshape⟩ := assignment_shape cfg a v ns hlen' h hdec hfit
  obtain ⟨hb1, hb2⟩ := eligible_buckets cfg a v ns hlen' h hdec hfit
  have hlook := instance_lookup cfg a v ns h true
  simp only [tableOf, if_true] at hlook
  have hKmul : ns.nrOfShards ≤ ns.nrOfShards * cfg.MinNodesPerShard :=
    Nat.le_mul_of_pos_right _ hp1
  have hne : ∀ id, ns.eligible.lookup id ≠ some [] := by
    intro id hc
    rw [hlook id] at hc
    by_cases hb : bucketOf true id ns.InitialNodes = []
    · rw [if_pos hb] at hc; cases hc
    · rw [if_neg hb] at hc
      exact hb (Option.some.inj hc)
  refine ⟨?_, ?_, ?_, hne, ?_⟩
  · intro id
    rw [pubKeys_ok_iff]
    unfold NumberOfShards
    constructor
    · rintro ⟨l, hl1, hl2⟩
      rw [hlook id] at hl1
      by_cases hb : bucketOf true id ns.InitialNodes = []
      · rw [if_pos hb] at hl1; cases hl1
      · obtain ⟨x, hx⟩ := List.exists_mem_of_ne_nil _ hb
        obtain ⟨nd, hnd, -, -, -, he, hs⟩ := (mem_bucketOf true id ns.InitialNodes x).mp hx
        obtain ⟨j, hj⟩ := List.mem_iff_getElem?.mp hnd
        obtain ⟨s1, s2, s3⟩ := hshape j nd hj
        by_cases c1 : j < cfg.MetaChainMinNodes
        · exact Or.inr (by rw [← hs]; exact (s1 c1).1)
        · by_cases c2 : j < cfg.MetaChainMinNodes + ns.nrOfShards * cfg.MinNodesPerShard
          · left
            rw [← hs, (s2 (by omega) c2).1]
            exact (Nat.div_lt_iff_lt_mul hp1).mpr (by omega)
          · have := (s3 (by omega)).2
            rw [he] at this
            cases this
    · rintro (hid | hid)
      · exact ⟨_, hb2 id hid, fun hc => hne id (by rw [hb2 id hid, hc])⟩
      · subst hid
        exact ⟨_, hb1, fun hc => hne MetachainShardId (by rw [hb1, hc])⟩
  · intro el s x hx
    rw [instance_getD cfg a v ns h el s] at hx
    obtain ⟨nd, -, rfl, -, -, -, hs⟩ := (mem_bucketOf el s ns.InitialNodes x).mp hx
    exact hs
  · obtain ⟨ns1, ns2, ns3, -, -, -, rfl⟩ := NewNodesSetup_ok cfg a v ns h
    exact (createLoop_entries ns3.InitialNodes [] [] (fun p hp => by cases hp)
      (fun p hp => by cases hp)).1
  · intro id hc
    unfold InitialEligibleNodesPubKeysForShard at hc
    cases hl1 : ns.eligible.lookup id with
    | none => rw [hl1] at hc; simp at hc
    | some l =>
      rw [hl1] at hc
      have hnil : l ≠ [] := fun hn => hne id (by rw [hl1, hn])
      have hlen0 : ¬ (l.length = 0) := fun h0 => hnil (List.length_eq_zero.mp h0)
      simp [NodeSlice.len, hlen0] at hc

/-- Scenario A under `queried_shards`: the query succeeds for shard 2 and for the
metachain id and fails for shard 3. -/
theorem queried_shards_witness :
    scenarioA.InitialNodes.length < 2147483648 ∧
    NewNodesSetup scenarioA (some lengthConverter) (some lengthConverter) =
      .ok (instanceOf scenarioA lengthConverter lengthConverter) ∧
    AllDecoded (instanceOf scenarioA lengthConverter lengthConverter) ∧
    NumberOfShards (instanceOf scenarioA lengthConverter lengthConverter) = 3 ∧
    (InitialEligibleNodesPubKeysForShard
      (instanceOf scenarioA lengthConverter lengthConverter) 2).toOption = some [[6], [7]] ∧
    ((∃ keys, InitialEligibleNodesPubKeysForShard
        (instanceOf scenarioA lengthConverter lengthConverter) 3 = .ok keys) ↔
      (3 < NumberOfShards (instanceOf scenarioA lengthConverter lengthConverter) ∨
        3 = MetachainShardId)) :=
  ⟨by decide, rfl, by decide, by decide, by decide,
   (queried_shards scenarioA lengthConverter lengthConverter
      (instanceOf scenarioA lengthConverter lengthConverter) (by decide) rfl (by decide)).1 3⟩

/-! ## Minimum node count and absence of panics -/

theorem validated_checks (cfg : GenesisConfig) (a v : PubkeyConverter) (ns1 : NodesSetup)
    (hlen : cfg.InitialNodes.length < 4294967296)
    (h : processConfig (loaded cfg a v) = .ok ns1) :
    ns1.nrOfNodes = cfg.InitialNodes.length ∧
    ns1.InitialNodes.length = cfg.InitialNodes.length ∧
    1 ≤ cfg.MinNodesPerShard ∧ cfg.MinNodesPerShard ≤ cfg.InitialNodes.length ∧
    1 ≤ cfg.MetaChainMinNodes ∧
    (cfg.MetaChainMinNodes + cfg.MinNodesPerShard) % 4294967296 ≤ cfg.InitialNodes.length := by
  obtain ⟨nodes, n, hd, rfl, hchk⟩ := processConfig_ok _ _ h
  have hl : (loaded cfg a v).InitialNodes.length < 4294967296 := by simpa [loaded] using hlen
  obtain ⟨hnl, hn⟩ := decodeNodes_count _ _ _ _ _ hd hl
  have hlen0 : (loaded cfg a v).InitialNodes.length = cfg.InitialNodes.length := by
    simp [loaded]
  rw [hlen0] at hnl hn
  subst hn
  have hc := checkSizes_ok _ hchk
  simp only [loaded] at hc
  exact ⟨rfl, hnl, by omega, by omega, by omega, hc.2.2.2.2.2⟩

/-- The minimum number of nodes below 2^31 records: for every successfully
constructed instance (any hysteresis) in which all records decode to non-nil
bytes,
NumberOfShards() * minNodesPerShard + metaChainMinNodes fits 32 bits, is the
value of MinNumberOfNodes(), and is at most the number of validators
nrOfNodes; with hysteresis 0 additionally NumberOfShards() >= 1. -/
theorem minNumberOfNodes_bounded (cfg : GenesisConfig) (a v : PubkeyConverter) (ns : NodesSetup)
    (hlen : cfg.InitialNodes.length < 2147483648)
    (h : NewNodesSetup cfg (some a) (some v) = .ok ns) (hdec : AllDecoded ns) :
    NumberOfShards ns * ns.MinNodesPerShard + ns.MetaChainMinNodes < 4294967296 ∧
    MinNumberOfNodes ns = NumberOfShards ns * ns.MinNodesPerShard + ns.MetaChainMinNodes ∧
    MinNumberOfNodes ns ≤ ns.nrOfNodes ∧
    (cfg.Hysteresis = Float32Factor.zero → 1 ≤ NumberOfShards ns) := by
  have hlen' : cfg.InitialNodes.length < 4294967296 := by omega
  have hfit := fit_of_small cfg a v ns hlen h hdec
  obtain ⟨-, -, -, -, -, -, -, -, ⟨hp1, hp2, hm1, hm2⟩, -, -, -, -, -, e1, e2, -⟩ :=
    run_facts cfg a v ns hlen' h hdec
  obtain ⟨-, hn⟩ := instance_records cfg a v ns hlen' h
  have hmin : MinNumberOfNodes ns =
      NumberOfShards ns * ns.MinNodesPerShard + ns.MetaChainMinNodes := by
    unfold MinNumberOfNodes NumberOfShards
    rw [e1, e2, Nat.mod_eq_of_lt (by omega), Nat.mod_eq_of_lt (by omega)]
  refine ⟨?_, hmin, ?_, ?_⟩
  · unfold NumberOfShards
    rw [e1, e2]
    omega
  · rw [hmin, hn]
    unfold NumberOfShards
    rw [e1, e2]
    omega
  · intro hz
    obtain ⟨hK, -⟩ := fit_of_hysteresis_zero cfg a v ns hlen' h hdec hz
    obtain ⟨ns1, -, -, hpc, -, -, -⟩ := NewNodesSetup_ok cfg a v ns h
    obtain ⟨-, -, -, -, -, htot⟩ := validated_checks cfg a v ns1 hlen' hpc
    unfold NumberOfShards
    rw [hK]
    apply (Nat.le_div_iff_mul_le hp1).mpr
    omega

/-- Scenario A under `minNumberOfNodes_bounded`: MinNumberOfNodes() = 3 * 2 + 1
= 7, its
number of validators. -/
theorem minNumberOfNodes_bounded_witness :
    scenarioA.InitialNodes.length < 2147483648 ∧
    NewNodesSetup scenarioA (some lengthConverter) (some lengthConverter) =
      .ok (instanceOf scenarioA lengthConverter lengthConverter) ∧
    AllDecoded (instanceOf scenarioA lengthConverter lengthConverter) ∧
    MinNumberOfNodes (instanceOf scenarioA lengthConverter lengthConverter) = 7 ∧
    MinNumberOfNodes (instanceOf scenarioA lengthConverter lengthConverter) ≤
      (instanceOf scenarioA lengthConverter lengthConverter).nrOfNodes :=
  ⟨by decide, rfl, by decide, by decide,
   (minNumberOfNodes_bounded scenarioA lengthConverter lengthConverter
      (instanceOf scenarioA lengthConverter lengthConverter) (by decide) rfl (by decide)).2.2.1⟩

/-- C17 (failing input): metaChainMinNodes = 4294967295, minNodesPerShard = 1,
consensus sizes 1, hysteresis 0 and one decodable record. `processConfig`
returns no error (the 32-bit sum of the two minima is 0), InitialNodes has
length 1, and `processMetaChainAssigment` panics: its loop reads index 0 and
then index 1, which is out of range. -/
theorem panic_after_validation :
    overflowSample.Hysteresis.scale overflowSample.MetaChainMinNodes = 0 ∧
    overflowSample.Hysteresis.scale overflowSample.MinNodesPerShard = 0 ∧
    ((processConfig (loaded overflowSample lengthConverter lengthConverter)).toOption.map
      (fun ns1 => (ns1.InitialNodes.length, ns1.MetaChainMinNodes,
        (ns1.InitialNodes[0]?).isSome, (ns1.InitialNodes[1]?).isSome,
        (metaChainLoop 1 0 ns1.InitialNodes 0).isSome,
        (metaChainLoop 2 0 ns1.InitialNodes 0).isSome,
        (processMetaChainAssigment ns1).isSome))) =
      some (1, 4294967295, true, false, true, false, false) :=
  ⟨by decide, by decide, by rfl⟩

/-- Without the overflow the constructor does not panic: with hysteresis 0,
fewer than 2^32 records, converters that never return a nil slice without an
error, and metaChainMinNodes + minNodesPerShard below 2^32, a configuration
that passes validation yields an instance. -/
theorem no_panic_of_sum_fits (cfg : GenesisConfig) (a v : PubkeyConverter) (ns1 : NodesSetup)
    (hlen : cfg.InitialNodes.length < 4294967296)
    (hz : cfg.Hysteresis = Float32Factor.zero)
    (hsum : cfg.MetaChainMinNodes + cfg.MinNodesPerShard < 4294967296)
    (hval : processConfig (loaded cfg a v) = .ok ns1) (hkeys : AllKeys ns1.InitialNodes) :
    ∃ ns, NewNodesSetup cfg (some a) (some v) = .ok ns := by
  obtain ⟨hn, hl, hp1, hp2, hm1, htot⟩ := validated_checks cfg a v ns1 hlen hval
  rw [Nat.mod_eq_of_lt hsum] at htot
  obtain ⟨nodes, n, hd, hns1, -⟩ := processConfig_ok _ _ hval
  have hnodes : ns1.InitialNodes = nodes := by rw [hns1]
  have hnn : n = cfg.InitialNodes.length := by rw [← hn, hns1]
  subst hnn
  rw [hnodes] at hkeys hl
  -- metachain pass
  obtain ⟨nodes2, hm, -⟩ := shardInnerLoop_spec MetachainShardId cfg.MetaChainMinNodes 0 nodes 0
    hkeys (by omega) (by omega)
  have hd2 := shardInnerLoop_decoded _ _ _ _ _ _ hm
  simp only at hd2
  have hk2 : AllKeys nodes2 := allKeys_of_map_decoded _ _ hd2 hkeys
  have hl2 : nodes2.length = cfg.InitialNodes.length := (length_of_map_decoded _ _ hd2).trans hl
  have hq : processMetaChainAssigment ns1 = some
      { ns1 with InitialNodes := nodes2, nrOfMetaChainNodes := cfg.MetaChainMinNodes,
                 nrOfShards := (cfg.InitialNodes.length - cfg.MetaChainMinNodes) /
                   cfg.MinNodesPerShard } := by
    rw [hns1]
    unfold processMetaChainAssigment
    simp only [loaded]
    rw [metaChainLoop_eq, hm]
    simp only [Nat.zero_add, hz, Float32Factor.zero, Nat.zero_mod, Nat.add_zero, Nat.sub_zero]
    have e1 : (cfg.InitialNodes.length + 4294967296 - cfg.MetaChainMinNodes) % 4294967296 =
        cfg.InitialNodes.length - cfg.MetaChainMinNodes := by omega
    have e2 : (cfg.InitialNodes.length - cfg.MetaChainMinNodes + 4294967296) % 4294967296 =
        cfg.InitialNodes.length - cfg.MetaChainMinNodes := by omega
    rw [e1, e2, Nat.mod_eq_of_lt (by omega : cfg.MinNodesPerShard < 4294967296),
      if_neg (by omega)]
  -- shard pass
  have hdiv := Nat.div_mul_le_self (cfg.InitialNodes.length - cfg.MetaChainMinNodes)
    cfg.MinNodesPerShard
  have hKmul : (cfg.InitialNodes.length - cfg.MetaChainMinNodes) / cfg.MinNodesPerShard ≤
      (cfg.InitialNodes.length - cfg.MetaChainMinNodes) / cfg.MinNodesPerShard *
        cfg.MinNodesPerShard := Nat.le_mul_of_pos_right _ hp1
  generalize (cfg.InitialNodes.length - cfg.MetaChainMinNodes) / cfg.MinNodesPerShard = K
    at hq hdiv hKmul
  obtain ⟨nodes3, ho, -⟩ := shardOuterLoop_spec cfg.MetaChainMinNodes cfg.MinNodesPerShard
    K 0 nodes2 hk2 hp1 (by rw [hl2]; simp only [Nat.zero_add]; omega) (by rw [hl2]; exact hlen)
  simp only [Nat.zero_mul, Nat.add_zero, Nat.zero_add] at ho
  have hd3 := shardOuterLoop_decoded _ _ _ _ _ _ _ ho
  simp only at hd3
  have hk3 : AllKeys nodes3 := allKeys_of_map_decoded _ _ hd3 hk2
  have hl3 : nodes3.length = cfg.InitialNodes.length := (length_of_map_decoded _ _ hd3).trans hl2
  obtain ⟨nodes4, hw, -⟩ := waitingLoop_spec K
    (cfg.InitialNodes.length - (cfg.MetaChainMinNodes + K * cfg.MinNodesPerShard))
    (cfg.MetaChainMinNodes + K * cfg.MinNodesPerShard) 0 nodes3 hk3 (by rw [hl3]; omega)
    (by omega)
  have hfinal : NewNodesSetup cfg (some a) (some v) = .ok (createInitialNodesInfo
      { ns1 with InitialNodes := nodes4, nrOfMetaChainNodes := cfg.MetaChainMinNodes,
                 nrOfShards := K }) := by
    unfold NewNodesSetup
    simp only [hval, hq]
    unfold processShardAssignment
    simp only [hns1, loaded, ho, hw]
  exact ⟨_, hfinal⟩

/-! ## The error policy of the shard queries -/

theorem lookup_of_entry (m : NodeMap) (id : Nat) (h : ∃ p ∈ m, p.1 = id) :
    ∃ p ∈ m, p.1 = id ∧ m.lookup id = p.2 := by
  induction m with
  | nil =>
    obtain ⟨p, hp, -⟩ := h
    cases hp
  | cons q rest ih =>
    obtain ⟨k, w⟩ := q
    by_cases hk : k = id
    · exact ⟨(k, w), List.mem_cons_self _ _, hk, by simp [NodeMap.lookup, hk]⟩
    · have h' : ∃ p ∈ rest, p.1 = id := by
        obtain ⟨p, hp, hpid⟩ := h
        rcases List.mem_cons.mp hp with rfl | hp
        · exact absurd hpid hk
        · exact ⟨p, hp, hpid⟩
      obtain ⟨p, hp, hpid, hl⟩ := ih h'
      exact ⟨p, List.mem_cons_of_mem _ hp, hpid, by simp only [NodeMap.lookup, hk, if_false]; exact hl⟩

/-- The policy holds on every state whose eligible table holds no nil slice. -/
theorem queryPolicy_of_no_nil (ns : NodesSetup) (id : Nat)
    (hnil : ∀ p ∈ ns.eligible, p.2 ≠ none) : QueryPolicy ns id := by
  obtain ⟨-, hv1, hv2, hv3⟩ := shard_query_by_value ns id
  refine ⟨fun h => hv1 (lookup_of_no_entry ns.eligible id h), ?_, ?_⟩
  · intro hex hlen
    obtain ⟨p, hp, -, hl⟩ := lookup_of_entry ns.eligible id hex
    cases hv : ns.eligible.lookup id with
    | none => exact absurd (hl.symm.trans hv) (hnil p hp)
    | some l =>
      rw [hv] at hlen
      simp only [NodeSlice.len, Option.getD_some] at hlen
      rw [List.length_eq_zero.mp hlen] at hv
      exact hv2 hv
  · intro hex hlen
    obtain ⟨p, hp, -, hl⟩ := lookup_of_entry ns.eligible id hex
    cases hv : ns.eligible.lookup id with
    | none => exact absurd (hl.symm.trans hv) (hnil p hp)
    | some l =>
      rw [hv] at hlen
      simp only [NodeSlice.len, Option.getD_some] at hlen
      have hne : l ≠ [] := fun h0 => hlen (by rw [h0]; rfl)
      simpa using hv3 l hv hne

/-- The eligible table that `createInitialNodesInfo` writes holds no nil
slice (and no empty one). -/
theorem createInitialNodesInfo_no_nil (ns0 : NodesSetup) :
    ∀ p ∈ (createInitialNodesInfo ns0).eligible, p.2 ≠ none ∧ 0 < p.2.len := by
  intro p hp
  have h := (createLoop_entries ns0.InitialNodes [] [] (fun q hq => by cases hq)
    (fun q hq => by cases hq)).1 p hp
  refine ⟨?_, h⟩
  intro hn
  rw [hn] at h
  simp [NodeSlice.len] at h

/-- C15: for every instance whose tables were written by
`createInitialNodesInfo`, the only writer of the two tables, and for every
shard id, `InitialEligibleNodesPubKeysForShard` and `InitialNodesInfoForShard`
follow one error policy: they fail with ErrShardIdOutOfRange when the eligible
table has no entry for the id, fail with ErrNoPubKeys when the entry exists
but is empty, and otherwise succeed, the former returning the keys of
eligible[id] in bucket order and the latter returning (eligible[id],
waiting[id]). The same holds on every state at all whose eligible table holds
no nil slice, and on every instance the constructor returns. -/
theorem shard_query_policy (ns0 ns : NodesSetup) (id : Nat) :
    QueryPolicy (createInitialNodesInfo ns0) id ∧
    ((∀ p ∈ ns.eligible, p.2 ≠ none) → QueryPolicy ns id) ∧
    (∀ (cfg : GenesisConfig) (a v : PubkeyConverter),
      NewNodesSetup cfg (some a) (some v) = .ok ns → QueryPolicy ns id) := by
  refine ⟨?_, queryPolicy_of_no_nil ns id, ?_⟩
  · exact queryPolicy_of_no_nil _ id (fun p hp => (createInitialNodesInfo_no_nil ns0 p hp).1)
  · intro cfg a v h
    obtain ⟨ns1, ns2, ns3, -, -, -, rfl⟩ := NewNodesSetup_ok cfg a v ns h
    exact queryPolicy_of_no_nil _ id (fun p hp => (createInitialNodesInfo_no_nil ns3 p hp).1)

/-! ## A run on which the loop bound of line 188 wraps -/

theorem decodeNodes_fields (v a : PubkeyConverter) (l : List InitialNode) :
    ∀ (n : Nat) (l' : List InitialNode) (n' : Nat), decodeNodes v a l n = .ok (l', n') →
      ∀ nd ∈ l', ∃ nd0 ∈ l, v.Decode nd0.PubKey = .ok nd.pubKey ∧
        a.Decode nd0.Address = .ok nd.address := by
  induction l with
  | nil =>
    intro n l' n' h
    simp [decodeNodes] at h
    have h1 := h.1
    subst h1
    intro nd hnd
    cases hnd
  | cons x rest ih =>
    intro n l' n' h
    unfold decodeNodes at h
    split at h
    · cases h
    · rename_i pk hpk
      split at h
      · cases h
      · rename_i ad had
        split at h
        · cases h
        · split at h
          · cases h
          · split at h
            · cases h
            · rename_i r' m hrec
              cases h
              intro nd hnd
              rcases List.mem_cons.mp hnd with rfl | hnd
              · exact ⟨x, List.mem_cons_self _ _, hpk, had⟩
              · obtain ⟨nd0, hnd0, e1, e2⟩ := ih _ _ _ hrec nd hnd
                exact ⟨nd0, List.mem_cons_of_mem _ hnd0, e1, e2⟩

theorem processShardAssignment_of_loops (ns : NodesSetup) (m mn sh n k c : Nat)
    (nodes nodes1 nodes2 : List InitialNode)
    (h1 : ns.nrOfMetaChainNodes = m) (h2 : ns.MinNodesPerShard = mn) (h3 : ns.nrOfShards = sh)
    (h4 : ns.nrOfNodes = n) (h5 : ns.InitialNodes = nodes)
    (ho : shardOuterLoop m mn sh 0 nodes m = some (nodes1, c)) (hk : n - c = k)
    (hw : waitingLoop sh k c 0 nodes1 = some nodes2) :
    processShardAssignment ns = some { ns with InitialNodes := nodes2 } := by
  subst h1 h2 h3 h4 h5 hk
  unfold processShardAssignment
  rw [ho]
  simp only
  rw [hw]

/-- The run of the constructor on any configuration with the parameters of
`wrapBoundSample` (2^31 + 2 records that decode to non-nil bytes): the shard
count of line 180 is 2^31 / 2^30 = 2, shard 0 takes the records 1 .. 2^31, the
bound of line 188 for shard 1 wraps to 1, and the last record waits. -/
theorem wrapped_bound_run (cfg : GenesisConfig) (a v : PubkeyConverter)
    (hcgs : cfg.ConsensusGroupSize = 1) (hmin : cfg.MinNodesPerShard = 2147483648)
    (hmcgs : cfg.MetaChainConsensusGroupSize = 1) (hmeta : cfg.MetaChainMinNodes = 1)
    (hs1 : cfg.Hysteresis.scale 1 = 1) (hs2 : cfg.Hysteresis.scale 2147483648 = 3221225472)
    (hlen : cfg.InitialNodes.length = 2147483650)
    (hdec : ∀ r ∈ cfg.InitialNodes, r.Decodes v a)
    (hkey : ∀ r ∈ cfg.InitialNodes, ∀ b, v.Decode r.PubKey = .ok b → b.isSome = true)
    (haddr : ∀ r ∈ cfg.InitialNodes, ∀ b, a.Decode r.Address = .ok b → b.isSome = true) :
    ∃ ns, NewNodesSetup cfg (some a) (some v) = .ok ns ∧ AllDecoded ns ∧
      ns.nrOfShards = 2 ∧ ns.nrOfNodes = 2147483650 ∧ ns.MinNodesPerShard = 2147483648 ∧
      ns.MetaChainMinNodes = 1 ∧ ns.InitialNodes.length = 2147483650 ∧
      ns.eligible.lookup 1 = none := by
  -- decoding
  obtain ⟨res, hres⟩ := isOk_elim _ (decodeNodes_of_decodes v a cfg.InitialNodes hdec 0)
  obtain ⟨nodes, n⟩ := res
  have hl0 : (cfg.InitialNodes.map RawNode.toInitialNode).length = 2147483650 := by
    rw [List.length_map, hlen]
  obtain ⟨hnl, hn⟩ := decodeNodes_count v a _ nodes n hres (by rw [hl0]; norm_num)
  rw [hl0] at hnl hn
  subst hn
  have hall : ∀ nd ∈ nodes, nd.pubKey.isSome = true ∧ nd.address.isSome = true := by
    intro nd hnd
    obtain ⟨nd0, hnd0, e1, e2⟩ := decodeNodes_fields v a _ _ _ _ hres nd hnd
    obtain ⟨r, hr, rfl⟩ := List.mem_map.mp hnd0
    exact ⟨hkey r hr _ e1, haddr r hr _ e2⟩
  have hk : AllKeys nodes := fun nd hnd => (hall nd hnd).1
  have hfalse : ∀ nd ∈ nodes, nd.eligible = false := by
    intro nd hnd
    obtain ⟨nd0, hnd0, -, e2⟩ := decodeNodes_flags v a _ _ _ _ hres nd hnd
    obtain ⟨r, -, rfl⟩ := List.mem_map.mp hnd0
    rw [e2]; rfl
  -- validation
  have hpc : processConfig (loaded cfg a v) =
      .ok { loaded cfg a v with InitialNodes := nodes, nrOfNodes := 2147483650,
                                nrOfMetaChainNodes := 0 } := by
    rw [processConfig_of_decoded (loaded cfg a v) nodes 2147483650 hres]
    simp only [checkSizes, loaded, hcgs, hmin, hmcgs, hmeta]
    simp only [Nat.lt_irrefl, Nat.reduceLT, Nat.reduceAdd, Nat.reduceMod, if_false]
  -- metachain pass
  obtain ⟨nodes2, hm, -⟩ := shardInnerLoop_spec MetachainShardId 1 0 nodes 0 hk
    (by rw [hnl]; norm_num) (by norm_num)
  have hd2 := shardInnerLoop_decoded _ _ _ _ _ _ hm
  simp only at hd2
  have hk2 : AllKeys nodes2 := allKeys_of_map_decoded _ _ hd2 hk
  have hl2 : nodes2.length = 2147483650 := (length_of_map_decoded _ _ hd2).trans hnl
  have hq : processMetaChainAssigment
      { loaded cfg a v with InitialNodes := nodes, nrOfNodes := 2147483650,
                            nrOfMetaChainNodes := 0 } =
      some { loaded cfg a v with InitialNodes := nodes2, nrOfNodes := 2147483650,
                                 nrOfMetaChainNodes := 1, nrOfShards := 2 } := by
    unfold processMetaChainAssigment
    simp only [loaded, hmeta, hmin, hs1, hs2]
    rw [metaChainLoop_eq, hm]
    simp only [Nat.reduceAdd, Nat.reduceMod, Nat.reduceSub, Nat.reduceDiv]
    rfl
  -- shard pass: shard 0 takes 2^31 records, the bound for shard 1 wraps to 1
  obtain ⟨nodes3, hi0, -⟩ := shardInnerLoop_spec 0 2147483648 1 nodes2 1 hk2
    (by rw [hl2]; norm_num) (by norm_num)
  have hd3 := shardInnerLoop_decoded _ _ _ _ _ _ hi0
  simp only at hd3
  have hk3 : AllKeys nodes3 := allKeys_of_map_decoded _ _ hd3 hk2
  have hl3 : nodes3.length = 2147483650 := (length_of_map_decoded _ _ hd3).trans hl2
  have ho : shardOuterLoop 1 2147483648 2 0 nodes2 1 = some (nodes3, 2147483649) := by
    show shardOuterLoop 1 2147483648 (0 + 1 + 1) 0 nodes2 1 = _
    unfold shardOuterLoop
    simp only
    have hb0 : (1 + ((0 + 1) % 4294967296 * 2147483648) % 4294967296) % 4294967296 - 1 =
        2147483648 := by norm_num
    rw [hb0, hi0]
    simp only
    unfold shardOuterLoop
    simp only
    have hb1 : (1 + ((0 + 1 + 1) % 4294967296 * 2147483648) % 4294967296) % 4294967296 -
        (1 + 2147483648) = 0 := by norm_num
    rw [hb1]
    rfl
  obtain ⟨nodes4, hw, -⟩ := waitingLoop_spec 2 1 2147483649 0 nodes3 hk3 (by rw [hl3])
    (by norm_num)
  have hd4 := waitingLoop_decoded _ _ _ _ _ _ hw
  have hl4 : nodes4.length = 2147483650 := (length_of_map_decoded _ _ hd4).trans hl3
  have hr : processShardAssignment
      { loaded cfg a v with InitialNodes := nodes2, nrOfNodes := 2147483650,
                            nrOfMetaChainNodes := 1, nrOfShards := 2 } =
      some { loaded cfg a v with InitialNodes := nodes4, nrOfNodes := 2147483650,
                                 nrOfMetaChainNodes := 1, nrOfShards := 2 } := by
    exact processShardAssignment_of_loops _ 1 2147483648 2 2147483650 1 2147483649 nodes2 nodes3
      nodes4 rfl hmin rfl rfl rfl ho (by norm_num) hw
  have hfinal : NewNodesSetup cfg (some a) (some v) = .ok (createInitialNodesInfo
      { loaded cfg a v with InitialNodes := nodes4, nrOfNodes := 2147483650,
                            nrOfMetaChainNodes := 1, nrOfShards := 2 }) := by
    unfold NewNodesSetup
    simp only [hpc, hq, hr]
  -- no record ends eligible for shard 1
  have hQ0 : ∀ (j : Nat) (nd : InitialNode), nodes[j]? = some nd →
      ¬ (nd.eligible = true ∧ nd.assignedShard = 1) := by
    intro j nd hj hc
    have := hfalse nd (List.mem_iff_getElem?.mpr ⟨j, hj⟩)
    rw [this] at hc
    cases hc.1
  have hQ2 := shardInnerLoop_inv (fun _ nd => ¬ (nd.eligible = true ∧ nd.assignedShard = 1))
    MetachainShardId 1 0 nodes 0 _ hQ0
    (fun j nd _ _ hc => by simp [InitialNode.assign, MetachainShardId] at hc) hm
  have hQ3 := shardInnerLoop_inv (fun _ nd => ¬ (nd.eligible = true ∧ nd.assignedShard = 1))
    0 2147483648 1 nodes2 1 _ hQ2
    (fun j nd _ _ hc => by simp [InitialNode.assign] at hc) hi0
  have hQ4 := waitingLoop_inv (fun _ nd => ¬ (nd.eligible = true ∧ nd.assignedShard = 1))
    2 1 2147483649 0 nodes3 nodes4 hQ3
    (fun j nd s hc => by simp [InitialNode.assign] at hc) hw
  refine ⟨_, hfinal, ?_, rfl, rfl, ?_, ?_, hl4, ?_⟩
  · intro nd hnd
    exact allDecoded_of_map_decoded nodes4 nodes
      ((hd4.trans (hd3.trans hd2)).symm) hall nd hnd
  · simp only [createInitialNodesInfo, loaded, hmin]
  · simp only [createInitialNodesInfo, loaded, hmeta]
  · have hlook := createInitialNodesInfo_lookup
      { loaded cfg a v with InitialNodes := nodes4, nrOfNodes := 2147483650,
                            nrOfMetaChainNodes := 1, nrOfShards := 2 } true 1
    simp only [tableOf, if_true] at hlook
    rw [hlook, if_pos]
    apply List.eq_nil_iff_forall_not_mem.mpr
    intro x hx
    obtain ⟨nd, hnd, -, -, -, he, hs⟩ := (mem_bucketOf true 1 _ x).mp hx
    obtain ⟨j, hj⟩ := List.mem_iff_getElem?.mp hnd
    exact hQ4 j nd hj ⟨he, hs⟩

/-- The run on `wrapBoundSample`: construction succeeds, every record is
decoded, the shard count is 2 and the eligible table has no entry for shard 1. -/
theorem wrapBoundSample_run :
    ∃ ns, NewNodesSetup wrapBoundSample (some lengthConverter) (some lengthConverter) = .ok ns ∧
      AllDecoded ns ∧ ns.nrOfShards = 2 ∧ ns.nrOfNodes = 2147483650 ∧
      ns.MinNodesPerShard = 2147483648 ∧ ns.MetaChainMinNodes = 1 ∧
      ns.InitialNodes.length = 2147483650 ∧ ns.eligible.lookup 1 = none := by
  have hmem : ∀ r ∈ wrapBoundSample.InitialNodes, r = ⟨"k", "a"⟩ := by
    intro r hr
    change r ∈ wrapBoundNodes at hr
    rw [wrapBoundNodes] at hr
    exact List.eq_of_mem_replicate hr
  have hlen : wrapBoundSample.InitialNodes.length = 2147483650 := by
    change wrapBoundNodes.length = 2147483650
    rw [wrapBoundNodes, List.length_replicate]
  refine wrapped_bound_run wrapBoundSample lengthConverter lengthConverter rfl rfl rfl rfl
    rfl rfl hlen ?_ ?_ ?_
  · intro r hr
    rw [hmem r hr]
    decide
  · intro r _ b h
    cases h
    rfl
  · intro r _ b h
    cases h
    rfl

/-- C2 (failing input): on `wrapBoundSample` (minNodesPerShard = 2^31,
metaChainMinNodes = 1, hysteresis 1.5, 2^31 + 2 records that all decode)
construction succeeds with NumberOfShards() = 2, where the formula of the
specification gives 0, and the eligible table has no bucket for the regular
shard 1 < NumberOfShards(): the index range [1 + 2^31, 1 + 2 * 2^31) that the
specification gives it ends beyond the list, whose length is 2^31 + 2. -/
theorem eligible_bucket_missing_on_wrapped_bound :
    ∃ ns, NewNodesSetup wrapBoundSample (some lengthConverter) (some lengthConverter) = .ok ns ∧
      AllDecoded ns ∧ NumberOfShards ns = 2 ∧
      specShardCount 2147483650 1 1 2147483648 3221225472 = 0 ∧
      ns.eligible.lookup 1 = none ∧ ns.InitialNodes.length = 2147483650 ∧
      ns.MetaChainMinNodes + (1 + 1) * ns.MinNodesPerShard = 4294967297 := by
  obtain ⟨ns, h, hd, hsh, -, hmin, hmeta, hl, hlook⟩ := wrapBoundSample_run
  refine ⟨ns, h, hd, hsh, by decide, hlook, hl, ?_⟩
  rw [hmin, hmeta]

/-- C18 (failing input): on `wrapBoundSample` construction succeeds with
NumberOfShards() = 2 and every record decoded, and for the shard id 1 <
NumberOfShards() both `InitialEligibleNodesPubKeysForShard` and
`InitialNodesInfoForShard` fail with ErrShardIdOutOfRange. -/
theorem query_fails_below_NumberOfShards :
    ∃ ns, NewNodesSetup wrapBoundSample (some lengthConverter) (some lengthConverter) = .ok ns ∧
      AllDecoded ns ∧ NumberOfShards ns = 2 ∧
      InitialEligibleNodesPubKeysForShard ns 1 = .error Error.ErrShardIdOutOfRange ∧
      InitialNodesInfoForShard ns 1 = .error Error.ErrShardIdOutOfRange := by
  obtain ⟨ns, h, hd, hsh, -, -, -, -, hlook⟩ := wrapBoundSample_run
  refine ⟨ns, h, hd, hsh, ?_, ?_⟩
  · unfold InitialEligibleNodesPubKeysForShard
    rw [hlook]
    rfl
  · unfold InitialNodesInfoForShard
    rw [hlook]
    rfl

/-- C20 (failing input): on `wrapBoundSample` (hysteresis 1.5) construction
succeeds with every record decoded, NumberOfShards() = 2 and nrOfNodes = 2^31 +
2; NumberOfShards() * minNodesPerShard + metaChainMinNodes is 2^32 + 1, which
does not fit 32 bits and exceeds nrOfNodes, and `MinNumberOfNodes` returns the
wrapped value 1. -/
theorem MinNumberOfNodes_wraps_around :
    ∃ ns, NewNodesSetup wrapBoundSample (some lengthConverter) (some lengthConverter) = .ok ns ∧
      AllDecoded ns ∧ NumberOfShards ns = 2 ∧ ns.nrOfNodes = 2147483650 ∧
      NumberOfShards ns * ns.MinNodesPerShard + ns.MetaChainMinNodes = 4294967297 ∧
      MinNumberOfNodes ns = 1 := by
  obtain ⟨ns, h, hd, hsh, hn, hmin, hmeta, -, -⟩ := wrapBoundSample_run
  refine ⟨ns, h, hd, hsh, hn, ?_, ?_⟩
  · unfold NumberOfShards
    rw [hsh, hmin, hmeta]
  · unfold MinNumberOfNodes
    rw [hsh, hmin, hmeta]

/-- C15 (witness): on the instance of scenario A both queries succeed for shard
2, which has an entry, with the keys of eligible[2] and the pair (eligible[2],
waiting[2]), and fail with ErrShardIdOutOfRange for shard 3, which has none;
on a state whose entry for shard 0 is empty and non-nil both fail with
ErrNoPubKeys. -/
theorem shard_query_policy_witness :
    NewNodesSetup scenarioA (some lengthConverter) (some lengthConverter) =
      .ok (instanceOf scenarioA lengthConverter lengthConverter) ∧
    (InitialEligibleNodesPubKeysForShard (instanceOf scenarioA lengthConverter lengthConverter) 2 =
        .ok ((((instanceOf scenarioA lengthConverter lengthConverter).eligible.lookup 2).getD
          []).map (fun ni => bytesToString ni.pubKey)) ∧
      InitialNodesInfoForShard (instanceOf scenarioA lengthConverter lengthConverter) 2 =
        .ok ((instanceOf scenarioA lengthConverter lengthConverter).eligible.lookup 2,
          (instanceOf scenarioA lengthConverter lengthConverter).waiting.lookup 2)) ∧
    (InitialEligibleNodesPubKeysForShard (instanceOf scenarioA lengthConverter lengthConverter) 3 =
        .error Error.ErrShardIdOutOfRange ∧
      InitialNodesInfoForShard (instanceOf scenarioA lengthConverter lengthConverter) 3 =
        .error Error.ErrShardIdOutOfRange) ∧
    (InitialEligibleNodesPubKeysForShard emptyEntrySample 0 = .error Error.ErrNoPubKeys ∧
      InitialNodesInfoForShard emptyEntrySample 0 = .error Error.ErrNoPubKeys) :=
  ⟨rfl,
   ((shard_query_policy emptyEntrySample (instanceOf scenarioA lengthConverter lengthConverter)
      2).2.2 scenarioA lengthConverter lengthConverter rfl).2.2 (by decide) (by decide),
   ((shard_query_policy emptyEntrySample (instanceOf scenarioA lengthConverter lengthConverter)
      3).2.2 scenarioA lengthConverter lengthConverter rfl).1 (by decide),
   ((shard_query_policy emptyEntrySample emptyEntrySample 0).2.1 (by decide)).2.1
      (by decide) (by decide)⟩

end Sharding
